import Mathlib

/-!
# IP Licensing Portal: a verification development

Shallow embedding of `ip-licensing-portal/script.js` (request store, static
licence template, AI licence generation, submit handler, admin table) and of
the three Netlify functions `generate_license_claude.js`,
`generate_license_chatgpt.js`, `generate_license_gemini.js`.

JavaScript values that the program reads from `JSON.parse` are modelled by the
type `Json`; `undefined` is `none` in `Option Json`.

* A number is held as the text that `Number.prototype.toString` gives for it
  (`JsNumber`), so every number that `JSON.parse` can return has a value of the
  type, fractions and the infinities included.  The program does no arithmetic
  on parsed data: it tests numbers for truthiness, converts them to strings and
  writes them with `JSON.stringify`, all of which are functions of that text.
* A string is a sequence of Unicode scalar values; a lone surrogate has no
  value of the type.
* An object is the list of its own properties in the order in which the engine
  enumerates them.

`JSON.stringify` is defined on every value of `Json`.  The engine's
`JSON.parse` is a parameter (`JsonParse`) of every definition that calls it,
and the theorems about arbitrary stored or received text hold for every such
function.  `JSON.parse` below is a reference reader used to evaluate the
program at concrete inputs.  It reads the texts on which its answer is the
engine's: it reports as not parsed a number with a fraction or an exponent, an
integer beyond 2^53 in magnitude, an object key that is a decimal numeral (the
engine moves such keys ahead of the others) and an escape that denotes a lone
surrogate.

The browser's answer to `row.querySelector` on the markup of a table row is
the parameter `found` of the definitions of the admin table.
-/

namespace Portal

/-! ## JavaScript values -/

/-- A JavaScript number, held as the text that `Number.prototype.toString`
gives for it (`5`, `-3`, `1.5`, `1e+21`, `Infinity`).  The text identifies the
number up to the sign of zero, which the program does not observe. -/
structure JsNumber where
  text : String
  deriving DecidableEq

/-- A value of the JSON data model, as produced by `JSON.parse`. -/
inductive Json where
  | null
  | bool (b : Bool)
  | num (x : JsNumber)
  | str (s : String)
  | arr (items : List Json)
  | obj (props : List (String × Json))

instance : Inhabited Json := ⟨Json.null⟩

/-- An exception object: only `err.message` is read by the program. The message
texts of errors raised by the engine itself are engine-defined; the model uses
fixed representatives for them. -/
structure JsError where
  message : String
  deriving DecidableEq

/-- The error raised by property access on `null` or `undefined`, by calling a
value that is not a function, and by a failed conversion to a primitive. -/
def typeError : JsError := ⟨"TypeError"⟩

/-- The error raised by `JSON.parse` on text that is not JSON. -/
def parseError : JsError := ⟨"SyntaxError: Unexpected token in JSON"⟩

/-- JavaScript truthiness (`ToBoolean`) of a defined value. -/
def Json.truthy : Json → Bool
  | .null => false
  | .bool b => b
  | .num x => decide (x.text ≠ "0") && decide (x.text ≠ "NaN")
  | .str s => s ≠ ""
  | .arr _ => true
  | .obj _ => true

/-- Truthiness of a possibly `undefined` value. -/
def truthy : Option Json → Bool
  | none => false
  | some v => v.truthy

/-- Own-property lookup in the property list of an object. -/
def lookupProp (props : List (String × Json)) (k : String) : Option Json :=
  match props with
  | [] => none
  | (k0, v0) :: rest => if k0 = k then some v0 else lookupProp rest k

/-- Assignment `o[k] = v` on the property list of an object: an existing
property keeps its place, a new one is added last. -/
def setProp (props : List (String × Json)) (k : String) (v : Json) : List (String × Json) :=
  match props with
  | [] => [(k, v)]
  | (k0, v0) :: rest => if k0 = k then (k0, v) :: rest else (k0, v0) :: setProp rest k v

/-- Property read `v.k` for a name `k` that no built-in prototype defines (all
names read by the program on parsed data are of this kind: `choices`,
`message`, `content`, `text`, `candidates`, `parts`, `prompt`, `result`,
`name`, `email`, `use`, `duration`, `status`).  Reading from `undefined` or
`null` throws; a primitive or an array has no such property. -/
def getField (v : Option Json) (k : String) : Except JsError (Option Json) :=
  match v with
  | none => .error typeError
  | some .null => .error typeError
  | some (.obj props) => .ok (lookupProp props k)
  | some _ => .ok none

/-- Indexed read `v[0]`.  On a non-empty string the result is its first
character (the program only tests it for truthiness and reads named fields of
it, which a string does not have). -/
def getIndex0 (v : Option Json) : Except JsError (Option Json) :=
  match v with
  | none => .error typeError
  | some .null => .error typeError
  | some (.arr items) => .ok items.head?
  | some (.obj props) => .ok (lookupProp props "0")
  | some (.str s) =>
    match s.data with
    | [] => .ok none
    | c :: _ => .ok (some (.str (String.mk [c])))
  | some _ => .ok none

/-! ## Decimal numerals -/

/-- The decimal digit character of a number below ten. -/
def digitChar (d : Nat) : Char := Char.ofNat (48 + d)

/-- Decimal numeral of a natural number, most significant digit first. -/
def natDigitsAux : Nat → Nat → List Char
  | 0, _ => []
  | fuel + 1, n =>
    if n < 10 then [digitChar n] else natDigitsAux fuel (n / 10) ++ [digitChar (n % 10)]

/-- Decimal numeral of a natural number. -/
def natDigits (n : Nat) : List Char := natDigitsAux (n + 1) n

/-- Decimal numeral of an integer, as `Number.prototype.toString` and
`JSON.stringify` print it. -/
def intDigits (n : Int) : List Char :=
  if n < 0 then '-' :: natDigits n.natAbs else natDigits n.natAbs

/-- Test for the characters `0` to `9`. -/
def isDigit (c : Char) : Bool := decide (48 ≤ c.toNat) && decide (c.toNat ≤ 57)

/-- Reads a run of decimal digits, accumulating its value. -/
def readDigits (acc : Nat) : List Char → Nat × List Char
  | [] => (acc, [])
  | c :: cs => if isDigit c then readDigits (acc * 10 + (c.toNat - 48)) cs else (acc, c :: cs)

/-- Reads the integer part of a JSON number: `0`, or a digit from one to nine
followed by digits. -/
def parseNat : List Char → Option (Nat × List Char)
  | [] => none
  | c :: cs =>
    if c = '0' then some (0, cs)
    else if isDigit c then some (readDigits (c.toNat - 48) cs)
    else none

/-- The number denoted by an integer. -/
def JsNumber.ofInt (n : Int) : JsNumber := ⟨String.mk (intDigits n)⟩

instance (n : Nat) : OfNat JsNumber n := ⟨JsNumber.ofInt n⟩

/-- The largest magnitude up to which every integer is a number of the engine
(2^53); a larger integer literal may be rounded. -/
def maxExact : Nat := 9007199254740992

/-- Test for the decimal numeral of a natural number (`0`, `7`, `42`). -/
def isIndexKey (s : List Char) : Bool :=
  match parseNat s with
  | some (_, []) => true
  | _ => false

/-- Reads an integer literal of magnitude at most 2^53 (`-0` reads as zero). -/
def parseNumber : List Char → Option (Json × List Char)
  | [] => none
  | c :: cs =>
    if c = '-' then
      match parseNat cs with
      | some (n, rest) =>
        if n ≤ maxExact then some (.num (JsNumber.ofInt (-(n : Int))), rest) else none
      | none => none
    else
      match parseNat (c :: cs) with
      | some (n, rest) =>
        if n ≤ maxExact then some (.num (JsNumber.ofInt (n : Int)), rest) else none
      | none => none

/-! ## JSON text: `JSON.stringify` -/

/-- The double-quote character. -/
def quoteChar : Char := Char.ofNat 34

/-- The backslash character. -/
def backslashChar : Char := Char.ofNat 92

/-- The opening brace. -/
def lbraceChar : Char := Char.ofNat 123

/-- The closing brace. -/
def rbraceChar : Char := Char.ofNat 125

/-- Lower-case hexadecimal digit. -/
def hexDigit (n : Nat) : Char := if n < 10 then Char.ofNat (48 + n) else Char.ofNat (87 + n)

/-- The text `JSON.stringify` writes for one character of a string
(`QuoteJSONString`). -/
def escapeChar (c : Char) : List Char :=
  if c = quoteChar then [backslashChar, quoteChar]
  else if c = backslashChar then [backslashChar, backslashChar]
  else if c.toNat = 8 then [backslashChar, 'b']
  else if c.toNat = 12 then [backslashChar, 'f']
  else if c.toNat = 10 then [backslashChar, 'n']
  else if c.toNat = 13 then [backslashChar, 'r']
  else if c.toNat = 9 then [backslashChar, 't']
  else if c.toNat < 32 then
    [backslashChar, 'u', '0', '0', hexDigit (c.toNat / 16), hexDigit (c.toNat % 16)]
  else [c]

/-- The escaped body of a string, without the quotes. -/
def escapeChars : List Char → List Char
  | [] => []
  | c :: cs => escapeChar c ++ escapeChars cs

/-- A quoted JSON string. -/
def quote (s : String) : List Char := quoteChar :: (escapeChars s.data ++ [quoteChar])

/-- The text `JSON.stringify` writes for a number: its decimal text, and
`null` for an infinity or NaN. -/
def numberText (x : JsNumber) : List Char :=
  if x.text = "Infinity" ∨ x.text = "-Infinity" ∨ x.text = "NaN" then ['n', 'u', 'l', 'l']
  else x.text.data

mutual
/-- The compact JSON text of a value, as `JSON.stringify(value)` writes it. -/
def serialize : Json → List Char
  | .null => ['n', 'u', 'l', 'l']
  | .bool true => ['t', 'r', 'u', 'e']
  | .bool false => ['f', 'a', 'l', 's', 'e']
  | .num x => numberText x
  | .str s => quote s
  | .arr [] => ['[', ']']
  | .arr (v :: rest) => '[' :: (serialize v ++ (serializeRest rest ++ [']']))
  | .obj [] => [lbraceChar, rbraceChar]
  | .obj ((k, v) :: rest) =>
    lbraceChar :: (quote k ++ ':' :: (serialize v ++ (serializeMore rest ++ [rbraceChar])))
/-- The text of the array elements after the first, each led by a comma. -/
def serializeRest : List Json → List Char
  | [] => []
  | v :: rest => ',' :: (serialize v ++ serializeRest rest)
/-- The text of the object members after the first, each led by a comma. -/
def serializeMore : List (String × Json) → List Char
  | [] => []
  | (k, v) :: rest => ',' :: (quote k ++ ':' :: (serialize v ++ serializeMore rest))
end

/-! ## JSON text: `JSON.parse` -/

/-- JSON white space. -/
def isWs (c : Char) : Bool :=
  decide (c.toNat = 32) || decide (c.toNat = 9) || decide (c.toNat = 10) || decide (c.toNat = 13)

/-- Drops leading white space. -/
def skipWs : List Char → List Char
  | [] => []
  | c :: cs => if isWs c then skipWs cs else c :: cs

/-- Consumes the given word at the front of the input. -/
def matchWord : List Char → List Char → Option (List Char)
  | [], cs => some cs
  | _ :: _, [] => none
  | w :: ws, c :: cs => if w = c then matchWord ws cs else none

/-- Value of a hexadecimal digit of either case. -/
def hexVal (c : Char) : Option Nat :=
  if 48 ≤ c.toNat ∧ c.toNat ≤ 57 then some (c.toNat - 48)
  else if 97 ≤ c.toNat ∧ c.toNat ≤ 102 then some (c.toNat - 87)
  else if 65 ≤ c.toNat ∧ c.toNat ≤ 70 then some (c.toNat - 55)
  else none

/-- Value of four hexadecimal digits. -/
def hex4 (a b c d : Char) : Option Nat :=
  match hexVal a, hexVal b, hexVal c, hexVal d with
  | some x, some y, some z, some w => some (((x * 16 + y) * 16 + z) * 16 + w)
  | _, _, _, _ => none

/-- The character denoted by a one-letter escape. -/
def unescape (e : Char) : Option Char :=
  if e = quoteChar then some quoteChar
  else if e = backslashChar then some backslashChar
  else if e = '/' then some '/'
  else if e = 'b' then some (Char.ofNat 8)
  else if e = 'f' then some (Char.ofNat 12)
  else if e = 'n' then some (Char.ofNat 10)
  else if e = 'r' then some (Char.ofNat 13)
  else if e = 't' then some (Char.ofNat 9)
  else none

/-- Puts a character in front of the string read so far. -/
def consChar (c : Char) : Option (List Char × List Char) → Option (List Char × List Char)
  | some (s, rest) => some (c :: s, rest)
  | none => none

/-- Reads the low half of a surrogate pair written as a second `\u` escape
and combines it with the high half. -/
def decodeLow (hi : Nat) : List Char → Option (Char × List Char)
  | b :: u :: l1 :: l2 :: l3 :: l4 :: r3 =>
    if b = backslashChar ∧ u = 'u' then
      match hex4 l1 l2 l3 l4 with
      | none => none
      | some lo =>
        if 0xDC00 ≤ lo ∧ lo ≤ 0xDFFF then
          some (Char.ofNat (0x10000 + (hi - 0xD800) * 0x400 + (lo - 0xDC00)), r3)
        else none
    else none
  | _ => none

/-- Reads the four hexadecimal digits of a `\u` escape (and the second escape
of a surrogate pair). -/
def decodeUnicode : List Char → Option (Char × List Char)
  | h1 :: h2 :: h3 :: h4 :: r2 =>
    match hex4 h1 h2 h3 h4 with
    | none => none
    | some hi =>
      if 0xD800 ≤ hi ∧ hi ≤ 0xDBFF then decodeLow hi r2
      else if 0xDC00 ≤ hi ∧ hi ≤ 0xDFFF then none
      else some (Char.ofNat hi, r2)
  | _ => none

/-- Reads what follows a backslash inside a string. -/
def decodeEscape : List Char → Option (Char × List Char)
  | [] => none
  | e :: r1 =>
    if e = 'u' then decodeUnicode r1
    else
      match unescape e with
      | some ch => some (ch, r1)
      | none => none

/-- Reads the body of a JSON string up to and including the closing quote; the
first argument bounds the number of characters read. -/
def parseStrAux : Nat → List Char → Option (List Char × List Char)
  | 0, _ => none
  | _ + 1, [] => none
  | fuel + 1, c :: r =>
    if c = quoteChar then some ([], r)
    else if c = backslashChar then
      match decodeEscape r with
      | some (ch, r1) => consChar ch (parseStrAux fuel r1)
      | none => none
    else if c.toNat < 32 then none
    else consChar c (parseStrAux fuel r)

/-- Reads the body of a JSON string up to and including the closing quote. -/
def parseStrBody (cs : List Char) : Option (List Char × List Char) :=
  parseStrAux cs.length cs

/-- Reads the quoted key of an object member, after optional white space. -/
def parseKey (cs : List Char) : Option (String × List Char) :=
  match skipWs cs with
  | [] => none
  | c :: r =>
    if c = quoteChar then
      match parseStrBody r with
      | some (s, rest) => if isIndexKey s then none else some (String.mk s, rest)
      | none => none
    else none

/-- Consumes a colon, after optional white space. -/
def parseColon (cs : List Char) : Option (List Char) :=
  match skipWs cs with
  | [] => none
  | c :: r => if c = ':' then some r else none

mutual
/-- Reads one JSON value, after optional white space.  The first argument
bounds the nesting of calls; `JSON.parse` supplies more than any text needs
(`parse_any_fuel`: a larger bound never changes the result).  A repeated key
overwrites the earlier value and keeps its place. -/
def parseValue : Nat → List Char → Option (Json × List Char)
  | 0, _ => none
  | fuel + 1, cs =>
    match skipWs cs with
    | [] => none
    | c :: r =>
      if c = 'n' then (matchWord ['u', 'l', 'l'] r).map (fun rest => (Json.null, rest))
      else if c = 't' then (matchWord ['r', 'u', 'e'] r).map (fun rest => (Json.bool true, rest))
      else if c = 'f' then
        (matchWord ['a', 'l', 's', 'e'] r).map (fun rest => (Json.bool false, rest))
      else if c = quoteChar then
        match parseStrBody r with
        | some (s, rest) => some (Json.str (String.mk s), rest)
        | none => none
      else if c = '[' then
        match skipWs r with
        | [] => none
        | d :: r1 =>
          if d = ']' then some (Json.arr [], r1)
          else
            match parseValue fuel (d :: r1) with
            | none => none
            | some (v, r2) =>
              match parseRest fuel r2 with
              | none => none
              | some (vs, r3) => some (Json.arr (v :: vs), r3)
      else if c = lbraceChar then
        match skipWs r with
        | [] => none
        | d :: r1 =>
          if d = rbraceChar then some (Json.obj [], r1)
          else
            match parseKey (d :: r1) with
            | none => none
            | some (k, r2) =>
              match parseColon r2 with
              | none => none
              | some r3 =>
                match parseValue fuel r3 with
                | none => none
                | some (v, r4) =>
                  match parseMore fuel r4 [(k, v)] with
                  | none => none
                  | some (props, r5) => some (Json.obj props, r5)
      else parseNumber (c :: r)
/-- Reads the elements of an array after the first, up to the closing
bracket. -/
def parseRest : Nat → List Char → Option (List Json × List Char)
  | 0, _ => none
  | fuel + 1, cs =>
    match skipWs cs with
    | [] => none
    | c :: r =>
      if c = ']' then some ([], r)
      else if c = ',' then
        match parseValue fuel r with
        | none => none
        | some (v, r1) =>
          match parseRest fuel r1 with
          | none => none
          | some (vs, r2) => some (v :: vs, r2)
      else none
/-- Reads the members of an object after the first, up to the closing brace;
the second list argument holds the members read so far. -/
def parseMore : Nat → List Char → List (String × Json) → Option (List (String × Json) × List Char)
  | 0, _, _ => none
  | fuel + 1, cs, acc =>
    match skipWs cs with
    | [] => none
    | c :: r =>
      if c = rbraceChar then some (acc, r)
      else if c = ',' then
        match parseKey r with
        | none => none
        | some (k, r1) =>
          match parseColon r1 with
          | none => none
          | some r2 =>
            match parseValue fuel r2 with
            | none => none
            | some (v, r3) => parseMore fuel r3 (setProp acc k v)
      else none
end

/-! ## Properties of values used by the proofs -/

mutual
/-- The values that the reference reader returns: the keys of every object are
pairwise distinct and none is a decimal numeral, and every number is an integer
of magnitude at most 2^53. -/
def Json.WF : Json → Prop
  | .num x => ∃ n : Int, n.natAbs ≤ maxExact ∧ x = JsNumber.ofInt n
  | .arr items => WFItems items
  | .obj props => (props.map Prod.fst).Nodup ∧ WFProps props
  | _ => True
/-- Every element of the list is well formed. -/
def WFItems : List Json → Prop
  | [] => True
  | v :: rest => v.WF ∧ WFItems rest
/-- Every member of the list has a key that is not a decimal numeral and a
well-formed value. -/
def WFProps : List (String × Json) → Prop
  | [] => True
  | (k, v) :: rest => isIndexKey k.data = false ∧ v.WF ∧ WFProps rest
end

mutual
/-- Number of reader calls that the text of a value needs. -/
def Json.size : Json → Nat
  | .arr [] => 1
  | .arr (v :: rest) => 1 + v.size + sizeRest rest
  | .obj [] => 1
  | .obj ((_, v) :: rest) => 1 + v.size + sizeMore rest
  | _ => 1
/-- Number of reader calls for the elements after the first. -/
def sizeRest : List Json → Nat
  | [] => 1
  | v :: rest => 1 + v.size + sizeRest rest
/-- Number of reader calls for the members after the first. -/
def sizeMore : List (String × Json) → Nat
  | [] => 1
  | (_, v) :: rest => 1 + v.size + sizeMore rest
end

/-- Value of a digit run read after an accumulated value. -/
def digitsVal (acc : Nat) (ds : List Char) : Nat :=
  ds.foldl (fun a c => a * 10 + (c.toNat - 48)) acc

/-- The input does not continue a numeral. -/
def NoDigitHead (rest : List Char) : Prop := ∀ c tl, rest = c :: tl → isDigit c = false

namespace JSON

/-- The built-in `JSON.stringify` on a JSON value. -/
def stringify (v : Json) : String := String.mk (serialize v)

/-- The reference reader for `JSON.parse`: the value of the text, or a thrown
error. -/
def parse (text : String) : Except JsError Json :=
  match parseValue (text.data.length + 1) text.data with
  | some (v, rest) => if skipWs rest = [] then .ok v else .error parseError
  | none => .error parseError

end JSON

/-- The type of the engine's `JSON.parse`: the value of the text, or a thrown
error. -/
abbrev JsonParse := String → Except JsError Json


/-! ## Conversion to string -/

mutual
/-- The abstract operation `ToString` on a parsed value, as used by template
literals and by `Array.prototype.join`.  An array is converted by
`join(',')`.  An object whose own `toString` property shadows the inherited
method cannot be converted (the property is data, not a function, and the
inherited `valueOf` returns the object). -/
def toStr : Json → Except JsError String
  | .null => .ok "null"
  | .bool true => .ok "true"
  | .bool false => .ok "false"
  | .num x => .ok x.text
  | .str s => .ok s
  | .arr items => joinWith "," items
  | .obj props =>
    match lookupProp props "toString" with
    | some _ => .error typeError
    | none => .ok "[object Object]"
/-- The method `Array.prototype.join(sep)` on the elements of an array: an
element `null` gives the empty string, any other element its `ToString`. -/
def joinWith (sep : String) : List Json → Except JsError String
  | [] => .ok ""
  | v :: rest =>
    match (match v with
      | Json.null => (Except.ok "" : Except JsError String)
      | other => toStr other) with
    | .error e => .error e
    | .ok a =>
      match rest with
      | [] => .ok a
      | _ :: _ =>
        match joinWith sep rest with
        | .error e => .error e
        | .ok b => .ok (a ++ sep ++ b)
end

/-- The text a template literal writes for a possibly `undefined` value. -/
def templateStr : Option Json → Except JsError String
  | none => .ok "undefined"
  | some v => toStr v

/-! ## `script.js`: the request store -/

/-- The `localStorage` entry `licenseRequests`: absent, or a text. -/
abbrev Store := Option String

/-- The function `loadRequests` of `script.js`.  `localStorage.getItem` gives
`null` for an absent entry, which `JSON.parse` reads as the text `null`. -/
def loadRequests (parse : JsonParse) (store : Store) : Json :=
  match parse (match store with | some text => text | none => "null") with
  | .ok v => if v.truthy then v else Json.arr []
  | .error _ => Json.arr []

/-- The function `saveRequests` of `script.js`: the new content of the entry. -/
def saveRequests (requests : Json) : Store := some (JSON.stringify requests)

/-! ## `script.js`: the static licence template -/

/-- The `request` object built by the submit handler, which is the `data`
argument of the two generators: four strings and the acceptance flag. -/
structure LicenseRequest where
  name : String
  email : String
  use : String
  duration : String
  accepted : Bool
  deriving DecidableEq

/-- The constant `summary` of `generateLicenseTextStatic`. -/
def summary : String :=
  "The licensed invention is a blockchain‑based dynamic consent management system for synthetic media. " ++
  "It uses smart contracts, hierarchical consent structures, zero‑knowledge proofs and decentralized oracles " ++
  "to ensure secure and flexible governance of synthetic media lifecycle.\n\n"

/-- The fixed grant-of-rights paragraph of the template. -/
def grantOfRights : String :=
  "Grant of Rights: The licensor hereby grants the licensee a non‑exclusive, non‑transferable license to use the " ++
  "invention described above for the stated intended use during the specified duration. All other rights are reserved.\n\n"

/-- The function `generateLicenseTextStatic` of `script.js`. -/
def generateLicenseTextStatic (data : LicenseRequest) : String :=
  "LICENSE AGREEMENT\n" ++
  ("Issued to: " ++ data.name ++ " <" ++ data.email ++ ">\n") ++
  ("Duration: " ++ data.duration ++ "\n") ++
  ("Intended use: " ++ data.use ++ "\n\n") ++
  ("Summary of the invention:\n" ++ summary) ++
  grantOfRights ++
  "By accepting this license you agree to abide by any additional terms and conditions set forth by the licensor."

/-- The first text has the second as a contiguous part. -/
def Contains (text part : String) : Prop := ∃ pre post : String, text = pre ++ part ++ post

/-! ## `script.js`: licence generation through a gateway -/

/-- The value of `endpoints[provider]`: a string that is an own property of
the object literal, or a built-in reached through the prototype chain. -/
inductive EndpointValue where
  | path (url : String)
  | inherited (name : String)
  deriving DecidableEq

/-- The property names of `Object.prototype`, which every object literal
inherits; each of them holds a function or an object, hence a truthy value. -/
def objectPrototypeNames : List String :=
  ["constructor", "__defineGetter__", "__defineSetter__", "hasOwnProperty",
   "__lookupGetter__", "__lookupSetter__", "isPrototypeOf", "propertyIsEnumerable",
   "toString", "valueOf", "__proto__", "toLocaleString"]

/-- The lookup `endpoints[provider]` in the object literal of
`generateLicenseAI`; `none` is `undefined`. -/
def endpoints (provider : String) : Option EndpointValue :=
  if provider = "claude" then some (.path "/.netlify/functions/generate_license_claude")
  else if provider = "gemini" then some (.path "/.netlify/functions/generate_license_gemini")
  else if provider = "chatgpt" then some (.path "/.netlify/functions/generate_license_chatgpt")
  else if provider ∈ objectPrototypeNames then some (.inherited provider)
  else none

/-- A call of `fetch` made by the page: the first argument and the request
body (the method is `POST`, the content type `application/json`). -/
structure ClientCall where
  target : EndpointValue
  body : String
  deriving DecidableEq

/-- What a call of `fetch` followed by reading the body gives: a rejected
promise, or the text of the response body, which `response.json()` hands to
the JSON reader. -/
inductive FetchResult where
  | rejected (err : JsError)
  | response (bodyText : String)

/-- The constant `prompt` of `generateLicenseAI`. -/
def buildPrompt (data : LicenseRequest) : String :=
  "Draft a formal licensing agreement based on the following details:\n" ++
  ("Name: " ++ data.name ++ "\n") ++
  ("Email: " ++ data.email ++ "\n") ++
  ("Intended use: " ++ data.use ++ "\n") ++
  ("Duration: " ++ data.duration ++ "\n") ++
  "The licensed invention is a blockchain‑based dynamic consent management system for synthetic media that uses smart contracts, hierarchical consent structures, zero‑knowledge proofs and decentralized oracles.\n" ++
  "The agreement should summarise the invention, specify the grant of rights, and be clear and concise."

/-- The function `generateLicenseAI` of `script.js`: the value returned
(`none` is `null`) and the network calls issued, in order. -/
def generateLicenseAI (parse : JsonParse) (fetch : ClientCall → FetchResult)
    (data : LicenseRequest) (provider : String) : Option Json × List ClientCall :=
  match endpoints provider with
  | none => (none, [])
  | some url =>
    let call : ClientCall :=
      { target := url, body := JSON.stringify (.obj [("prompt", .str (buildPrompt data))]) }
    match fetch call with
    | .rejected _ => (none, [call])
    | .response text =>
      match parse text with
      | .error _ => (none, [call])
      | .ok json =>
        match getField (some json) "result" with
        | .error _ => (none, [call])
        | .ok r => (if truthy r then r else none, [call])

/-! ## The Netlify functions -/

/-- The `event` argument of a handler: `event.body` is a text, or absent. -/
structure Event where
  body : Option String

/-- The environment variables read by the handlers. -/
structure Env where
  ANTHROPIC_API_KEY : Option String
  OPENAI_API_KEY : Option String
  GOOGLE_API_KEY : Option String

/-- One entry of the `messages` array of a payload. -/
structure ChatMessage where
  role : String
  content : Json

/-- The `payload` object literal of a handler (the temperature is kept as the
decimal literal of the source). -/
inductive Payload where
  | claude (model : String) (max_tokens : Nat) (temperature : String)
      (messages : List ChatMessage)
  | openai (model : String) (messages : List ChatMessage) (max_tokens : Nat)
      (temperature : String)
  | gemini (contents : Json)

/-- An outbound call of a handler to its provider. -/
structure Outbound where
  url : String
  headers : List (String × String)
  payload : Payload

/-- The object returned by a handler. -/
structure Response where
  statusCode : Nat
  headers : List (String × String)
  body : String
  deriving DecidableEq

/-- The statement `const { prompt = '' } = JSON.parse(event.body || '{}')`. -/
def parsePrompt (parse : JsonParse) (event : Event) : Except JsError Json :=
  let text :=
    match event.body with
    | none => "\x7b\x7d"
    | some t => if t = "" then "\x7b\x7d" else t
  match parse text with
  | .error e => .error e
  | .ok v =>
    match getField (some v) "prompt" with
    | .error e => .error e
    | .ok none => .ok (.str "")
    | .ok (some p) => .ok p

/-- The response of the `catch` block of a handler. -/
def errorResponse (err : JsError) : Response :=
  { statusCode := 500
    headers := []
    body := JSON.stringify
      (.obj [("error", .str (if err.message = "" then "Unknown error" else err.message))]) }

/-- The response of a handler whose credential is missing. -/
def missingKeyResponse (message : String) : Response :=
  { statusCode := 500, headers := [], body := JSON.stringify (.obj [("error", .str message)]) }

/-- The success response `{ result }` of a handler. -/
def okResponse (result : Json) : Response :=
  { statusCode := 200
    headers := [("content-type", "application/json")]
    body := JSON.stringify (.obj [("result", result)]) }

namespace generate_license_claude

/-- The outbound call of the Claude handler. -/
def mkCall (apiKey : String) (prompt : Json) : Outbound :=
  { url := "https://api.anthropic.com/v1/messages"
    headers := [("content-type", "application/json"), ("x-api-key", apiKey),
      ("anthropic-version", "2023-06-01")]
    payload := .claude "claude-3-haiku-20240307" 800 "0.2" [⟨"user", prompt⟩] }

/-- The expression
`(data.content && data.content[0] && data.content[0].text) || ''`. -/
def extract (data : Json) : Except JsError Json :=
  match getField (some data) "content" with
  | .error e => .error e
  | .ok content =>
    if !truthy content then .ok (.str "")
    else
      match getIndex0 content with
      | .error e => .error e
      | .ok first =>
        if !truthy first then .ok (.str "")
        else
          match getField first "text" with
          | .error e => .error e
          | .ok text => .ok (if truthy text then text.getD (.str "") else .str "")

/-- The handler exported by `generate_license_claude.js`: the response and the
outbound calls issued.  The body is parsed first, then the credential is
checked, then the provider is called once; every exception is answered by the
`catch` block. -/
def handler (parse : JsonParse) (env : Env) (fetch : Outbound → FetchResult) (event : Event) :
    Response × List Outbound :=
  match parsePrompt parse event with
  | .error err => (errorResponse err, [])
  | .ok prompt =>
    match env.ANTHROPIC_API_KEY with
    | none => (missingKeyResponse "Missing ANTHROPIC_API_KEY environment variable.", [])
    | some apiKey =>
      if apiKey = "" then (missingKeyResponse "Missing ANTHROPIC_API_KEY environment variable.", [])
      else
        match fetch (mkCall apiKey prompt) with
        | .rejected err => (errorResponse err, [mkCall apiKey prompt])
        | .response text =>
          match parse text with
          | .error err => (errorResponse err, [mkCall apiKey prompt])
          | .ok data =>
            match extract data with
            | .error err => (errorResponse err, [mkCall apiKey prompt])
            | .ok result => (okResponse result, [mkCall apiKey prompt])

end generate_license_claude

namespace generate_license_chatgpt

/-- The outbound call of the ChatGPT handler. -/
def mkCall (apiKey : String) (prompt : Json) : Outbound :=
  { url := "https://api.openai.com/v1/chat/completions"
    headers := [("content-type", "application/json"), ("authorization", "Bearer " ++ apiKey)]
    payload := .openai "gpt-4o"
      [⟨"system", .str "You are a legal assistant that drafts clear and concise licensing agreements based on user-provided details."⟩,
       ⟨"user", prompt⟩] 800 "0.3" }

/-- The expression `(data.choices && data.choices[0] && data.choices[0].message
&& data.choices[0].message.content) || ''`. -/
def extract (data : Json) : Except JsError Json :=
  match getField (some data) "choices" with
  | .error e => .error e
  | .ok choices =>
    if !truthy choices then .ok (.str "")
    else
      match getIndex0 choices with
      | .error e => .error e
      | .ok first =>
        if !truthy first then .ok (.str "")
        else
          match getField first "message" with
          | .error e => .error e
          | .ok message =>
            if !truthy message then .ok (.str "")
            else
              match getField message "content" with
              | .error e => .error e
              | .ok content => .ok (if truthy content then content.getD (.str "") else .str "")

/-- The handler exported by `generate_license_chatgpt.js`: the response and the
outbound calls issued. -/
def handler (parse : JsonParse) (env : Env) (fetch : Outbound → FetchResult) (event : Event) :
    Response × List Outbound :=
  match parsePrompt parse event with
  | .error err => (errorResponse err, [])
  | .ok prompt =>
    match env.OPENAI_API_KEY with
    | none => (missingKeyResponse "Missing OPENAI_API_KEY environment variable.", [])
    | some apiKey =>
      if apiKey = "" then (missingKeyResponse "Missing OPENAI_API_KEY environment variable.", [])
      else
        match fetch (mkCall apiKey prompt) with
        | .rejected err => (errorResponse err, [mkCall apiKey prompt])
        | .response text =>
          match parse text with
          | .error err => (errorResponse err, [mkCall apiKey prompt])
          | .ok data =>
            match extract data with
            | .error err => (errorResponse err, [mkCall apiKey prompt])
            | .ok result => (okResponse result, [mkCall apiKey prompt])

end generate_license_chatgpt

namespace generate_license_gemini

/-- The outbound call of the Gemini handler. -/
def mkCall (apiKey : String) (prompt : Json) : Outbound :=
  { url := "https://generativelanguage.googleapis.com/v1beta/models/gemini-pro:generateContent?key="
      ++ apiKey
    headers := [("content-type", "application/json")]
    payload := .gemini
      (.obj [("contents", .arr [.obj [("parts", .arr [.obj [("text", prompt)]])]])]) }

/-- The callback `(p) => p.text || ''` applied to every part. -/
def partTexts : List Json → Except JsError (List Json)
  | [] => .ok []
  | p :: rest =>
    match getField (some p) "text" with
    | .error e => .error e
    | .ok text =>
      match partTexts rest with
      | .error e => .error e
      | .ok texts => .ok ((if truthy text then text.getD (.str "") else .str "") :: texts)

/-- The body of the `if` statement of the Gemini handler, for the value of
`data.candidates[0].content`: `const parts = content.parts || []` and
`parts.map((p) => p.text || '').join('')`.  Only an array has the method
`map`. -/
def joinParts (content : Option Json) : Except JsError Json :=
  match getField content "parts" with
  | .error e => .error e
  | .ok parts =>
    match (if truthy parts then parts else some (.arr [])) with
    | some (.arr ps) =>
      match partTexts ps with
      | .error e => .error e
      | .ok texts =>
        match joinWith "" texts with
        | .error e => .error e
        | .ok s => .ok (.str s)
    | _ => .error typeError

/-- The statements that compute `result` in the Gemini handler: `result` is
`''` unless the guard
`data.candidates && data.candidates[0] && data.candidates[0].content` holds,
and then the text joined from the parts. -/
def extract (data : Json) : Except JsError Json :=
  match getField (some data) "candidates" with
  | .error e => .error e
  | .ok candidates =>
    if !truthy candidates then .ok (.str "")
    else
      match getIndex0 candidates with
      | .error e => .error e
      | .ok first =>
        if !truthy first then .ok (.str "")
        else
          match getField first "content" with
          | .error e => .error e
          | .ok content =>
            if !truthy content then .ok (.str "")
            else joinParts content

/-- The handler exported by `generate_license_gemini.js`: the response and the
outbound calls issued. -/
def handler (parse : JsonParse) (env : Env) (fetch : Outbound → FetchResult) (event : Event) :
    Response × List Outbound :=
  match parsePrompt parse event with
  | .error err => (errorResponse err, [])
  | .ok prompt =>
    match env.GOOGLE_API_KEY with
    | none => (missingKeyResponse "Missing GOOGLE_API_KEY environment variable.", [])
    | some apiKey =>
      if apiKey = "" then (missingKeyResponse "Missing GOOGLE_API_KEY environment variable.", [])
      else
        match fetch (mkCall apiKey prompt) with
        | .rejected err => (errorResponse err, [mkCall apiKey prompt])
        | .response text =>
          match parse text with
          | .error err => (errorResponse err, [mkCall apiKey prompt])
          | .ok data =>
            match extract data with
            | .error err => (errorResponse err, [mkCall apiKey prompt])
            | .ok result => (okResponse result, [mkCall apiKey prompt])

end generate_license_gemini

/-- The common shape of the three handlers, which differ in the credential,
the outbound call and the extraction only; each handler is an instance of it
(`handler_eq` below), so that the lemmas about a handler are stated once. -/
def runHandler (parse : JsonParse) (apiKey : Option String) (missing : String)
    (mkCall : String → Json → Outbound) (extract : Json → Except JsError Json)
    (fetch : Outbound → FetchResult) (event : Event) : Response × List Outbound :=
  match parsePrompt parse event with
  | .error e => (errorResponse e, [])
  | .ok prompt =>
    match apiKey with
    | none => (missingKeyResponse missing, [])
    | some key =>
      if key = "" then (missingKeyResponse missing, [])
      else
        let call := mkCall key prompt
        match fetch call with
        | .rejected e => (errorResponse e, [call])
        | .response text =>
          match parse text with
          | .error e => (errorResponse e, [call])
          | .ok data =>
            match extract data with
            | .error e => (errorResponse e, [call])
            | .ok result => (okResponse result, [call])


/-! ## `script.js`: the submit handler -/

/-- The entries of the form read by the submit handler through
`formData.get`: the text of a control, or `none` where `get` gives `null`. -/
structure FormData where
  name : Option String
  email : Option String
  use : Option String
  duration : Option String
  accept : Option String

/-- The characters removed by `String.prototype.trim`: white space and line
terminators. -/
def isJsSpace (c : Char) : Bool :=
  decide (c.toNat ∈ [9, 10, 11, 12, 13, 32, 0xA0, 0x1680, 0x2028, 0x2029, 0x202F, 0x205F,
    0x3000, 0xFEFF]) || (decide (0x2000 ≤ c.toNat) && decide (c.toNat ≤ 0x200A))

/-- The method `String.prototype.trim`. -/
def jsTrim (s : String) : String :=
  String.mk ((s.data.dropWhile isJsSpace).reverse.dropWhile isJsSpace).reverse

/-- The expression `formData.get(k)?.trim() || ''`. -/
def trimmedEntry : Option String → String
  | none => ""
  | some s => jsTrim s

/-- The object `request` built by the submit handler. -/
def requestOf (form : FormData) : LicenseRequest :=
  { name := trimmedEntry form.name
    email := trimmedEntry form.email
    use := trimmedEntry form.use
    duration := form.duration.getD ""
    accepted := decide (form.accept = some "on") }

/-- The object literal spread `{ ...request, status }` with the given
status. -/
def recordWith (request : LicenseRequest) (status : String) : Json :=
  .obj [("name", .str request.name), ("email", .str request.email), ("use", .str request.use),
    ("duration", .str request.duration), ("accepted", .bool request.accepted),
    ("status", .str status)]

/-- The record `{ ...request, status: 'pending' }` pushed by the submit
handler. -/
def recordOf (request : LicenseRequest) : Json := recordWith request "pending"

/-- How a run of the submit handler ends: the alert and early return, an
uncaught exception, or the licence text assigned to the page. -/
inductive SubmitResult where
  | declined
  | failed (err : JsError)
  | shown (licenseText : Json)

/-- The effects of one run of the submit handler. -/
structure SubmitOutcome where
  store : Store
  result : SubmitResult
  calls : List ClientCall

/-- The submit handler registered by `script.js`, with the hard-coded provider
`claude`.  The method `push` exists on arrays only. -/
def submitHandler (parse : JsonParse) (fetch : ClientCall → FetchResult) (store : Store)
    (form : FormData) : SubmitOutcome :=
  let request := requestOf form
  if !request.accepted then { store := store, result := .declined, calls := [] }
  else
    match loadRequests parse store with
    | .arr requests =>
      let store1 := saveRequests (.arr (requests ++ [recordOf request]))
      let ai := generateLicenseAI parse fetch request "claude"
      let licenseText :=
        match ai.1 with
        | some text => text
        | none => .str (generateLicenseTextStatic request)
      { store := store1, result := .shown licenseText, calls := ai.2 }
    | _ => { store := store, result := .failed typeError, calls := [] }

/-- The store after a sequence of submissions, processed in order. -/
def submitAll (parse : JsonParse) (fetch : ClientCall → FetchResult) (store : Store) :
    List FormData → Store
  | [] => store
  | form :: rest => submitAll parse fetch (submitHandler parse fetch store form).store rest

/-! ## `script.js`: the admin table -/

/-- The expression `req.status || 'pending'`. -/
def statusOrPending (status : Option Json) : Option Json :=
  if truthy status then status else some (.str "pending")

/-- The body of the `forEach` callback of `renderRequestsTable` up to
`table.appendChild(row)`, for one request: the markup assigned to
`row.innerHTML`.  It throws when `req` is `null`, when a shown value cannot be
converted to a string, and when `row.querySelector` does not find one of the
two buttons, so that `addEventListener` is called on `null`.  The values are
written into the markup as they are; whether both buttons are found in a row
of that markup is decided by the browser and is the parameter `found`. -/
def renderRow (found : String → Bool) (req : Json) : Except JsError String :=
  match getField (some req) "name", getField (some req) "email", getField (some req) "use",
    getField (some req) "duration", getField (some req) "status" with
  | .ok name, .ok email, .ok use, .ok duration, .ok status =>
    match templateStr name, templateStr email, templateStr use, templateStr duration,
      templateStr (statusOrPending status) with
    | .ok n, .ok e, .ok u, .ok d, .ok s =>
      let html := "<td>" ++ n ++ "</td>" ++ "<td>" ++ e ++ "</td>" ++ "<td>" ++ u ++ "</td>" ++
        "<td>" ++ d ++ "</td>" ++
        "<td class=\"status " ++ s ++ "\">" ++ s ++ "</td>" ++
        "<td>" ++ "<button class=\"approve\">Approve</button> " ++
        "<button class=\"reject\">Reject</button>" ++ "</td>"
      if found html then .ok html else .error typeError
    | _, _, _, _, _ => .error typeError
  | _, _, _, _, _ => .error typeError

/-- The rows appended by the `forEach` loop of `renderRequestsTable`: the loop
ends at the first request whose row throws. -/
def renderedRows (found : String → Bool) : List Json → List String
  | [] => []
  | req :: rest =>
    match renderRow found req with
    | .ok html => html :: renderedRows found rest
    | .error _ => []

/-- The function `renderRequestsTable` of `script.js` on a page that has the
table: the rows shown.  The method `forEach` exists on arrays only. -/
def renderRequestsTable (parse : JsonParse) (found : String → Bool) (store : Store) :
    List String :=
  match loadRequests parse store with
  | .arr requests => renderedRows found requests
  | _ => []

/-- The assignment `req.status = status` on one element of the loaded list.
On a primitive the assignment of a non-strict script does nothing; on an array
it adds a property that `JSON.stringify` does not write. -/
def assignStatus (req : Json) (status : String) : Json :=
  match req with
  | .obj props => .obj (setProp props "status" (.str status))
  | other => other

/-- The loaded list after `req.status = status` on the element of the given
index. -/
def statusAt (status : String) : List Json → Nat → List Json
  | [], _ => []
  | req :: rest, 0 => assignStatus req status :: rest
  | req :: rest, idx + 1 => req :: statusAt status rest idx

/-- A click on a button of the row of the given index: the listener sets the
status of its request, saves the list it was rendered from and renders again.
There is no such button when the row was not rendered.  The table is rendered
when the admin page loads and again after every click; the list a listener
holds is taken to be the list loaded from the current store (one admin page,
loaded after the last submission). -/
def clickRow (parse : JsonParse) (found : String → Bool) (status : String) (store : Store)
    (idx : Nat) : Option Store :=
  match loadRequests parse store with
  | .arr requests =>
    if idx < (renderedRows found requests).length then
      some (saveRequests (.arr (statusAt status requests idx)))
    else none
  | _ => none

/-- A click on the `Approve` button of a row. -/
def clickApprove (parse : JsonParse) (found : String → Bool) (store : Store) (idx : Nat) :
    Option Store :=
  clickRow parse found "approved" store idx

/-- A click on the `Reject` button of a row. -/
def clickReject (parse : JsonParse) (found : String → Bool) (store : Store) (idx : Nat) :
    Option Store :=
  clickRow parse found "rejected" store idx

/-- The own property `status` of a stored record. -/
def statusOf (req : Json) : Option Json :=
  match req with
  | .obj props => lookupProp props "status"
  | _ => none

/-- An operation of the system on the store. -/
inductive Op where
  | submit (form : FormData)
  | approve (idx : Nat)
  | reject (idx : Nat)

/-- The store after one operation; a click on a button that does not exist
leaves it as it is. -/
def step (parse : JsonParse) (found : String → Bool) (fetch : ClientCall → FetchResult)
    (store : Store) : Op → Store
  | .submit form => (submitHandler parse fetch store form).store
  | .approve idx => (clickApprove parse found store idx).getD store
  | .reject idx => (clickReject parse found store idx).getD store

/-- The store after a sequence of operations. -/
def run (parse : JsonParse) (found : String → Bool) (fetch : ClientCall → FetchResult)
    (store : Store) : List Op → Store
  | [] => store
  | op :: rest => run parse found fetch (step parse found fetch store op) rest

/-- A store reachable from the empty one. -/
def Reachable (parse : JsonParse) (found : String → Bool) (fetch : ClientCall → FetchResult)
    (store : Store) : Prop :=
  ∃ ops, run parse found fetch none ops = store

/-! ## The deployed site -/

/-- The page's `fetch` on the deployed site, as the hosting platform routes
it: a `POST` to the path of a function runs the handler exported by the file
of that name on the request body and answers with the body of the handler's
response (`fetch` does not reject on status 500); any other path is answered
by a page that is not JSON. -/
def siteFetch (parse : JsonParse) (env : Env) (upstream : Outbound → FetchResult)
    (call : ClientCall) : FetchResult :=
  if call.target = .path "/.netlify/functions/generate_license_claude" then
    .response (generate_license_claude.handler parse env upstream ⟨some call.body⟩).1.body
  else if call.target = .path "/.netlify/functions/generate_license_gemini" then
    .response (generate_license_gemini.handler parse env upstream ⟨some call.body⟩).1.body
  else if call.target = .path "/.netlify/functions/generate_license_chatgpt" then
    .response (generate_license_chatgpt.handler parse env upstream ⟨some call.body⟩).1.body
  else .response "Not Found"

/-! ## Descriptions used in the statements -/

/-- The own property `k` of a value, when it has one. -/
def ownField (v : Json) (k : String) : Option Json :=
  match v with
  | .obj props => lookupProp props k
  | _ => none

/-- The entry of index `0` of a value, when it has one. -/
def ownFirst (v : Json) : Option Json :=
  match v with
  | .arr items => items.head?
  | .obj props => lookupProp props "0"
  | .str s =>
    match s.data with
    | [] => none
    | c :: _ => some (.str (String.mk [c]))
  | _ => none

/-- The value at `content[0].text` of a response, when every step exists. -/
def claudePath (data : Json) : Option Json :=
  ((ownField data "content").bind ownFirst).bind (fun v => ownField v "text")

/-- The value at `choices[0].message.content` of a response, when every step
exists. -/
def chatgptPath (data : Json) : Option Json :=
  (((ownField data "choices").bind ownFirst).bind (fun v => ownField v "message")).bind
    (fun v => ownField v "content")

/-- The value at `candidates[0].content` of a response, when every step
exists. -/
def geminiContent (data : Json) : Option Json :=
  ((ownField data "candidates").bind ownFirst).bind (fun v => ownField v "content")

/-- The value itself when it is present and truthy, the empty string
otherwise. -/
def orEmpty (v : Option Json) : Json :=
  match v with
  | some j => if j.truthy then j else .str ""
  | none => .str ""

/-- The text of a part: its own `text` when that is a string, the empty string
when the part has no `text` or a falsy one; `none` for `null` and for a part
whose `text` is a truthy value that is not a string. -/
def partString (p : Json) : Option String :=
  match p with
  | .null => none
  | other =>
    match ownField other "text" with
    | none => some ""
    | some (.str s) => some s
    | some v => if v.truthy then none else some ""

/-- The texts of all the parts, when each has one. -/
def partStrings : List Json → Option (List String)
  | [] => some []
  | p :: rest =>
    match partString p, partStrings rest with
    | some s, some texts => some (s :: texts)
    | _, _ => none

/-- Concatenation of strings in order, with an empty separator. -/
def concatAll : List String → String
  | [] => ""
  | s :: rest => s ++ concatAll rest

/-- The value of the callback `(p) => p.text || ''` on a part that is not
`null`: its own `text` when that is truthy, the empty string otherwise. -/
def partText (p : Json) : Json := orEmpty (ownField p "text")

/-- The stored form of a list of requests with their statuses. -/
def recordsJson (rs : List (LicenseRequest × String)) : List Json :=
  rs.map (fun p => recordWith p.1 p.2)

/-- The list of requests with the status of the entry of the given index
replaced. -/
def setStatusAt (status : String) : List (LicenseRequest × String) → Nat →
    List (LicenseRequest × String)
  | [], _ => []
  | p :: rest, 0 => (p.1, status) :: rest
  | p :: rest, idx + 1 => p :: setStatusAt status rest idx

/-! ## JSON text: reading back what was written -/



theorem skipWs_cons_of_not_ws (c : Char) (cs : List Char) (h : isWs c = false) :
    skipWs (c :: cs) = c :: cs := by
  simp [skipWs, h]

theorem matchWord_append (w rest : List Char) : matchWord w (w ++ rest) = some rest := by
  induction w with
  | nil => cases rest <;> simp [matchWord]
  | cons a w ih => simp [matchWord, ih]

theorem readDigits_append (ds : List Char) : ∀ (acc : Nat) (rest : List Char),
    (∀ x ∈ ds, isDigit x = true) → NoDigitHead rest →
    readDigits acc (ds ++ rest) = (digitsVal acc ds, rest) := by
  induction ds with
  | nil =>
    intro acc rest _ hr
    cases rest with
    | nil => simp [readDigits, digitsVal]
    | cons c tl => simp [readDigits, digitsVal, hr c tl rfl]
  | cons d ds ih =>
    intro acc rest hd hr
    have h1 : isDigit d = true := hd d (by simp)
    rw [List.cons_append, readDigits]
    simp only [h1, if_true]
    rw [ih _ _ (fun x hx => hd x (by simp [hx])) hr]
    simp [digitsVal]

theorem digitChar_toNat : ∀ d, d < 10 → (digitChar d).toNat = 48 + d := by decide

theorem digitChar_isDigit (d : Nat) (h : d < 10) : isDigit (digitChar d) = true := by
  simp [isDigit, digitChar_toNat d h]; omega

theorem digitsVal_append (acc : Nat) (xs ys : List Char) :
    digitsVal acc (xs ++ ys) = digitsVal (digitsVal acc xs) ys := by
  simp [digitsVal]

theorem natDigitsAux_spec : ∀ (fuel n : Nat), n < fuel →
    ∃ c ds, natDigitsAux fuel n = c :: ds ∧ (∀ x ∈ c :: ds, isDigit x = true) ∧
      digitsVal 0 (c :: ds) = n ∧ (0 < n → c ≠ '0') ∧ (n = 0 → ds = [] ∧ c = '0') := by
  intro fuel
  induction fuel with
  | zero => intro n h; omega
  | succ f ih =>
    intro n hn
    by_cases h10 : n < 10
    · refine ⟨digitChar n, [], by simp [natDigitsAux, h10], ?_, ?_, ?_, ?_⟩
      · intro x hx
        simp at hx
        subst hx
        exact digitChar_isDigit n h10
      · simp [digitsVal, digitChar_toNat n h10]
      · intro hpos hc
        have := congrArg Char.toNat hc
        rw [digitChar_toNat n h10] at this
        simp at this
        omega
      · intro h0
        subst h0
        exact ⟨rfl, rfl⟩
    · have hlt : n / 10 < f := by omega
      obtain ⟨c, ds, he, hd, hv, hz, _⟩ := ih (n / 10) hlt
      have hm : n % 10 < 10 := Nat.mod_lt _ (by omega)
      refine ⟨c, ds ++ [digitChar (n % 10)], by simp [natDigitsAux, h10, he], ?_, ?_, ?_, ?_⟩
      · intro x hx
        simp at hx
        rcases hx with hx | hx | hx
        · exact hd x (by simp [hx])
        · exact hd x (by simp [hx])
        · subst hx; exact digitChar_isDigit _ hm
      · have : c :: (ds ++ [digitChar (n % 10)]) = (c :: ds) ++ [digitChar (n % 10)] := rfl
        rw [this, digitsVal_append, hv]
        simp [digitsVal, digitChar_toNat _ hm]
        omega
      · intro _
        exact hz (by omega)
      · intro h0; omega

theorem parseNat_natDigits (n : Nat) (rest : List Char) (hr : NoDigitHead rest) :
    parseNat (natDigits n ++ rest) = some (n, rest) := by
  obtain ⟨c, ds, he, hd, hv, hz, h0⟩ := natDigitsAux_spec (n + 1) n (by omega)
  unfold natDigits
  rw [he]
  by_cases hn : n = 0
  · obtain ⟨h1, h2⟩ := h0 hn
    subst h1 h2 hn
    simp [parseNat]
  · have hc : c ≠ '0' := hz (by omega)
    have hdc : isDigit c = true := hd c (by simp)
    simp only [List.cons_append, parseNat, hc, if_false, hdc, if_true]
    rw [readDigits_append ds _ rest (fun x hx => hd x (by simp [hx])) hr]
    have : digitsVal 0 (c :: ds) = digitsVal (c.toNat - 48) ds := by simp [digitsVal]
    rw [← this, hv]

theorem natDigits_head (n : Nat) : ∃ c ds, natDigits n = c :: ds ∧ isDigit c = true := by
  obtain ⟨c, ds, he, hd, _⟩ := natDigitsAux_spec (n + 1) n (by omega)
  exact ⟨c, ds, he, hd c (by simp)⟩

theorem isDigit_ne_minus (c : Char) (h : isDigit c = true) : c ≠ '-' := by
  intro hc; subst hc; simp [isDigit] at h

theorem parseNumber_intDigits (n : Int) (rest : List Char) (hr : NoDigitHead rest)
    (hb : n.natAbs ≤ maxExact) :
    parseNumber (intDigits n ++ rest) = some (Json.num (JsNumber.ofInt n), rest) := by
  unfold intDigits
  by_cases hn : n < 0
  · simp only [hn, if_true, List.cons_append, parseNumber]
    rw [parseNat_natDigits _ _ hr]
    have hab : ((n.natAbs : Nat) : Int) = -n := by omega
    simp only [hab, neg_neg, hb, if_true]
  · obtain ⟨c, ds, he, hc⟩ := natDigits_head n.natAbs
    have h2 := parseNat_natDigits n.natAbs rest hr
    rw [he] at h2
    simp only [hn, if_false, he, List.cons_append, parseNumber, isDigit_ne_minus c hc]
    rw [List.cons_append] at h2
    rw [h2]
    have hab : ((n.natAbs : Nat) : Int) = n := by omega
    simp only [hab, hb, if_true]

theorem intDigits_head (n : Int) :
    ∃ c tl, intDigits n = c :: tl ∧ (isDigit c = true ∨ c = '-') := by
  by_cases hn : n < 0
  · exact ⟨'-', natDigits n.natAbs, by simp [intDigits, hn], Or.inr rfl⟩
  · obtain ⟨c, ds, he, hc⟩ := natDigits_head n.natAbs
    exact ⟨c, ds, by simp [intDigits, hn, he], Or.inl hc⟩

theorem intDigits_second (n : Int) (tl : List Char) (h : intDigits n = '-' :: tl) :
    ∃ c ds, tl = c :: ds ∧ isDigit c = true := by
  unfold intDigits at h
  split_ifs at h
  · obtain ⟨c, ds, he, hc⟩ := natDigits_head n.natAbs
    simp only [List.cons.injEq, true_and] at h
    exact ⟨c, ds, by rw [← h, he], hc⟩
  · obtain ⟨c, ds, he, hc⟩ := natDigits_head n.natAbs
    rw [he] at h
    simp only [List.cons.injEq] at h
    rw [h.1] at hc
    simp [isDigit] at hc

/-- The text written for an integer is its decimal numeral. -/
theorem numberText_ofInt (n : Int) : numberText (JsNumber.ofInt n) = intDigits n := by
  obtain ⟨c, tl, he, hc⟩ := intDigits_head n
  have h1 : String.mk (intDigits n) ≠ "Infinity" := by
    intro h
    have h2 := congrArg String.data h
    simp only [he] at h2
    have h3 : c = 'I' := by
      have := List.head_eq_of_cons_eq h2
      exact this
    subst h3
    rcases hc with hc | hc
    · simp [isDigit] at hc
    · exact absurd hc (by decide)
  have h2 : String.mk (intDigits n) ≠ "NaN" := by
    intro h
    have h2 := congrArg String.data h
    simp only [he] at h2
    have h3 : c = 'N' := List.head_eq_of_cons_eq h2
    subst h3
    rcases hc with hc | hc
    · simp [isDigit] at hc
    · exact absurd hc (by decide)
  have h3 : String.mk (intDigits n) ≠ "-Infinity" := by
    intro h
    have h2 := congrArg String.data h
    simp only [he] at h2
    have h4 : c = '-' := List.head_eq_of_cons_eq h2
    subst h4
    obtain ⟨d, ds, hd, hdd⟩ := intDigits_second n tl he
    subst hd
    have h5 : d :: ds = 'I' :: 'n' :: 'f' :: 'i' :: 'n' :: 'i' :: 't' :: 'y' :: [] :=
      List.tail_eq_of_cons_eq h2
    have h6 : d = 'I' := List.head_eq_of_cons_eq h5
    subst h6
    simp [isDigit] at hdd
  simp [numberText, JsNumber.ofInt, h1, h2, h3]



theorem hex4_low : ∀ n, n < 32 →
    hex4 '0' '0' (hexDigit (n / 16)) (hexDigit (n % 16)) = some n := by decide

theorem backslash_ne_quote : backslashChar ≠ quoteChar := by decide

theorem decodeEscape_simple (e ch : Char) (r : List Char) (he : e ≠ 'u')
    (hu : unescape e = some ch) : decodeEscape (e :: r) = some (ch, r) := by
  simp only [decodeEscape, he, if_false, hu]

theorem decodeEscape_hex (h1 h2 h3 h4 : Char) (n : Nat) (r : List Char)
    (hn : hex4 h1 h2 h3 h4 = some n) (hlt : n < 0xD800) :
    decodeEscape ('u' :: h1 :: h2 :: h3 :: h4 :: r) = some (Char.ofNat n, r) := by
  have a1 : ¬ (0xD800 ≤ n ∧ n ≤ 0xDBFF) := by omega
  have a2 : ¬ (0xDC00 ≤ n ∧ n ≤ 0xDFFF) := by omega
  simp only [decodeEscape, if_true, decodeUnicode, hn, a1, a2, if_false]

theorem parseStrAux_backslash (fuel : Nat) (r r1 : List Char) (ch : Char)
    (h : decodeEscape r = some (ch, r1)) :
    parseStrAux (fuel + 1) (backslashChar :: r) = consChar ch (parseStrAux fuel r1) := by
  simp only [parseStrAux, backslash_ne_quote, if_false, if_true, h]

theorem parseStrAux_plain (fuel : Nat) (c : Char) (r : List Char) (hq : c ≠ quoteChar)
    (hb : c ≠ backslashChar) (hc : ¬ c.toNat < 32) :
    parseStrAux (fuel + 1) (c :: r) = consChar c (parseStrAux fuel r) := by
  simp only [parseStrAux, hq, hb, if_false, hc]

/-- One step of the string reader undoes one step of the string writer. -/
theorem parseStrAux_escape (c : Char) (tail : List Char) (fuel : Nat) :
    parseStrAux (fuel + 1) (escapeChar c ++ tail) = consChar c (parseStrAux fuel tail) := by
  have hc := Char.ofNat_toNat c
  unfold escapeChar
  split_ifs with h1 h2 h3 h4 h5 h6 h7 h8
  · subst h1
    exact parseStrAux_backslash fuel _ tail _
      (decodeEscape_simple quoteChar quoteChar tail (by decide) (by decide))
  · subst h2
    exact parseStrAux_backslash fuel _ tail _
      (decodeEscape_simple backslashChar backslashChar tail (by decide) (by decide))
  · rw [h3] at hc; rw [← hc]
    exact parseStrAux_backslash fuel _ tail _
      (decodeEscape_simple 'b' _ tail (by decide) (by decide))
  · rw [h4] at hc; rw [← hc]
    exact parseStrAux_backslash fuel _ tail _
      (decodeEscape_simple 'f' _ tail (by decide) (by decide))
  · rw [h5] at hc; rw [← hc]
    exact parseStrAux_backslash fuel _ tail _
      (decodeEscape_simple 'n' _ tail (by decide) (by decide))
  · rw [h6] at hc; rw [← hc]
    exact parseStrAux_backslash fuel _ tail _
      (decodeEscape_simple 'r' _ tail (by decide) (by decide))
  · rw [h7] at hc; rw [← hc]
    exact parseStrAux_backslash fuel _ tail _
      (decodeEscape_simple 't' _ tail (by decide) (by decide))
  · have h := parseStrAux_backslash fuel _ tail _
      (decodeEscape_hex '0' '0' (hexDigit (c.toNat / 16)) (hexDigit (c.toNat % 16))
        c.toNat tail (hex4_low _ h8) (by omega))
    rw [hc] at h
    exact h
  · exact parseStrAux_plain fuel c tail h1 h2 h8

theorem parseStrAux_escapeChars (cs rest : List Char) : ∀ fuel, cs.length + 1 ≤ fuel →
    parseStrAux fuel (escapeChars cs ++ quoteChar :: rest) = some (cs, rest) := by
  induction cs with
  | nil =>
    intro fuel hf
    obtain ⟨f, rfl⟩ : ∃ f, fuel = f + 1 := ⟨fuel - 1, by omega⟩
    simp [escapeChars, parseStrAux]
  | cons c cs ih =>
    intro fuel hf
    obtain ⟨f, rfl⟩ : ∃ f, fuel = f + 1 := ⟨fuel - 1, by omega⟩
    simp only [escapeChars, List.append_assoc]
    rw [parseStrAux_escape, ih f (by simp at hf; omega)]
    rfl

theorem escapeChar_length_pos (c : Char) : 1 ≤ (escapeChar c).length := by
  unfold escapeChar
  split_ifs <;> simp

theorem escapeChars_length (cs : List Char) : cs.length ≤ (escapeChars cs).length := by
  induction cs with
  | nil => simp
  | cons c cs ih =>
    have := escapeChar_length_pos c
    simp only [escapeChars, List.length_cons, List.length_append]
    omega

theorem parseStrBody_escapeChars (cs rest : List Char) :
    parseStrBody (escapeChars cs ++ quoteChar :: rest) = some (cs, rest) := by
  unfold parseStrBody
  apply parseStrAux_escapeChars
  have := escapeChars_length cs
  simp only [List.length_append, List.length_cons]
  omega



theorem parseValue_null (f : Nat) (rest : List Char) :
    parseValue (f + 1) ('n' :: 'u' :: 'l' :: 'l' :: rest) = some (Json.null, rest) := by
  simp [parseValue, skipWs, isWs, matchWord]

theorem parseValue_true (f : Nat) (rest : List Char) :
    parseValue (f + 1) ('t' :: 'r' :: 'u' :: 'e' :: rest) = some (Json.bool true, rest) := by
  simp [parseValue, skipWs, isWs, matchWord]

theorem parseValue_false (f : Nat) (rest : List Char) :
    parseValue (f + 1) ('f' :: 'a' :: 'l' :: 's' :: 'e' :: rest) =
      some (Json.bool false, rest) := by
  simp [parseValue, skipWs, isWs, matchWord]




theorem quote_not_ws : isWs quoteChar = false := by decide

theorem parseValue_str (f : Nat) (r rest s : List Char)
    (h : parseStrBody r = some (s, rest)) :
    parseValue (f + 1) (quoteChar :: r) = some (Json.str (String.mk s), rest) := by
  have e1 : quoteChar ≠ 'n' := by decide
  have e2 : quoteChar ≠ 't' := by decide
  have e3 : quoteChar ≠ 'f' := by decide
  simp [parseValue, skipWs, quote_not_ws, e1, e2, e3, if_false, if_true, h]

theorem isDigit_facts (c : Char) (h : isDigit c = true ∨ c = '-') :
    isWs c = false ∧ c ≠ 'n' ∧ c ≠ 't' ∧ c ≠ 'f' ∧ c ≠ quoteChar ∧ c ≠ '[' ∧ c ≠ lbraceChar ∧
      c ≠ ']' ∧ c ≠ rbraceChar := by
  rcases h with h | h
  · simp only [isDigit, Bool.and_eq_true, decide_eq_true_eq] at h
    refine ⟨?_, ?_, ?_, ?_, ?_, ?_, ?_, ?_, ?_⟩
    · simp [isWs]; omega
    all_goals (intro hc; subst hc; revert h; decide)
  · subst h; decide

theorem parseValue_num (f : Nat) (c : Char) (r : List Char)
    (h : isDigit c = true ∨ c = '-') :
    parseValue (f + 1) (c :: r) = parseNumber (c :: r) := by
  obtain ⟨h0, h1, h2, h3, h4, h5, h6, _, _⟩ := isDigit_facts c h
  simp [parseValue, skipWs, h0, h1, h2, h3, h4, h5, h6, if_false]

theorem parseValue_arr_nil (f : Nat) (rest : List Char) :
    parseValue (f + 1) ('[' :: ']' :: rest) = some (Json.arr [], rest) := by
  have e4 : '[' ≠ quoteChar := by decide
  simp [parseValue, skipWs, isWs, e4]

theorem parseValue_arr_cons (f : Nat) (d : Char) (r1 r2 r3 : List Char) (v : Json)
    (vs : List Json) (hw : isWs d = false) (hd : d ≠ ']')
    (h1 : parseValue f (d :: r1) = some (v, r2)) (h2 : parseRest f r2 = some (vs, r3)) :
    parseValue (f + 1) ('[' :: d :: r1) = some (Json.arr (v :: vs), r3) := by
  have e0 : isWs '[' = false := by decide
  have e1 : '[' ≠ 'n' := by decide
  have e2 : '[' ≠ 't' := by decide
  have e3 : '[' ≠ 'f' := by decide
  have e4 : '[' ≠ quoteChar := by decide
  simp [parseValue, skipWs, e0, e1, e2, e3, e4, hw, hd, if_false, if_true, h1, h2]

theorem parseValue_obj_nil (f : Nat) (rest : List Char) :
    parseValue (f + 1) (lbraceChar :: rbraceChar :: rest) = some (Json.obj [], rest) := by
  have e0 : isWs lbraceChar = false := by decide
  have e1 : lbraceChar ≠ 'n' := by decide
  have e2 : lbraceChar ≠ 't' := by decide
  have e3 : lbraceChar ≠ 'f' := by decide
  have e4 : lbraceChar ≠ quoteChar := by decide
  have e5 : lbraceChar ≠ '[' := by decide
  have e6 : isWs rbraceChar = false := by decide
  simp [parseValue, skipWs, e0, e1, e2, e3, e4, e5, e6, if_false, if_true]

theorem parseValue_obj_cons (f : Nat) (d : Char) (r1 r2 r3 r4 r5 : List Char) (k : String)
    (v : Json) (props : List (String × Json)) (hw : isWs d = false) (hd : d ≠ rbraceChar)
    (h1 : parseKey (d :: r1) = some (k, r2)) (h2 : parseColon r2 = some r3)
    (h3 : parseValue f r3 = some (v, r4)) (h4 : parseMore f r4 [(k, v)] = some (props, r5)) :
    parseValue (f + 1) (lbraceChar :: d :: r1) = some (Json.obj props, r5) := by
  have e0 : isWs lbraceChar = false := by decide
  have e1 : lbraceChar ≠ 'n' := by decide
  have e2 : lbraceChar ≠ 't' := by decide
  have e3 : lbraceChar ≠ 'f' := by decide
  have e4 : lbraceChar ≠ quoteChar := by decide
  have e5 : lbraceChar ≠ '[' := by decide
  simp [parseValue, skipWs, e0, e1, e2, e3, e4, e5, hw, hd, if_false, if_true, h1, h2,
    h3, h4]

theorem parseRest_nil (f : Nat) (rest : List Char) :
    parseRest (f + 1) (']' :: rest) = some ([], rest) := by
  simp [parseRest, skipWs, isWs]

theorem parseRest_cons (f : Nat) (r r1 r2 : List Char) (v : Json) (vs : List Json)
    (h1 : parseValue f r = some (v, r1)) (h2 : parseRest f r1 = some (vs, r2)) :
    parseRest (f + 1) (',' :: r) = some (v :: vs, r2) := by
  have e0 : isWs ',' = false := by decide
  have e1 : ',' ≠ ']' := by decide
  simp [parseRest, skipWs, e0, e1, if_false, if_true, h1, h2]

theorem parseMore_nil (f : Nat) (rest : List Char) (acc : List (String × Json)) :
    parseMore (f + 1) (rbraceChar :: rest) acc = some (acc, rest) := by
  have e0 : isWs rbraceChar = false := by decide
  simp [parseMore, skipWs, e0, if_false, if_true]

theorem parseMore_cons (f : Nat) (r r1 r2 r3 : List Char) (k : String) (v : Json)
    (acc : List (String × Json))
    (h1 : parseKey r = some (k, r1)) (h2 : parseColon r1 = some r2)
    (h3 : parseValue f r2 = some (v, r3)) :
    parseMore (f + 1) (',' :: r) acc = parseMore f r3 (setProp acc k v) := by
  have e0 : isWs ',' = false := by decide
  have e1 : ',' ≠ rbraceChar := by decide
  simp [parseMore, skipWs, e0, e1, if_false, if_true, h1, h2, h3]

theorem parseKey_quote (k : String) (rest : List Char) (hk : isIndexKey k.data = false) :
    parseKey (quote k ++ rest) = some (k, rest) := by
  have h := parseStrBody_escapeChars k.data rest
  simp [quote, List.cons_append, List.append_assoc, List.singleton_append, parseKey, skipWs,
    quote_not_ws, if_true, h, hk]

theorem parseKey_notIndex (cs r : List Char) (k : String) (h : parseKey cs = some (k, r)) :
    isIndexKey k.data = false := by
  unfold parseKey at h
  split at h
  · cases h
  · split_ifs at h
    split at h
    · rename_i s rest hs
      split_ifs at h with hi
      cases h
      simpa using hi
    · cases h

theorem parseColon_cons (rest : List Char) : parseColon (':' :: rest) = some rest := by
  simp [parseColon, skipWs, isWs]


theorem setProp_append_new (acc : List (String × Json)) (k : String) (v : Json)
    (h : k ∉ acc.map Prod.fst) : setProp acc k v = acc ++ [(k, v)] := by
  induction acc with
  | nil => rfl
  | cons p acc ih =>
    obtain ⟨k0, v0⟩ := p
    simp only [List.map_cons, List.mem_cons, not_or] at h
    have hne : ¬ k0 = k := fun e => h.1 e.symm
    simp [setProp, hne, ih h.2]

theorem serialize_head (v : Json) (hwf : v.WF) :
    ∃ c tl, serialize v = c :: tl ∧ isWs c = false ∧ c ≠ ']' := by
  cases v with
  | null => exact ⟨'n', _, rfl, by decide, by decide⟩
  | bool b =>
    cases b
    · exact ⟨'f', _, rfl, by decide, by decide⟩
    · exact ⟨'t', _, rfl, by decide, by decide⟩
  | num x =>
    obtain ⟨n, _, hx⟩ := hwf
    subst hx
    obtain ⟨c, ds, he, hc⟩ := intDigits_head n
    obtain ⟨h0, _, _, _, _, _, _, h7, _⟩ := isDigit_facts c hc
    exact ⟨c, ds, by simp [serialize, numberText_ofInt, he], h0, h7⟩
  | str s => exact ⟨quoteChar, _, rfl, by decide, by decide⟩
  | arr items =>
    cases items with
    | nil => exact ⟨'[', _, rfl, by decide, by decide⟩
    | cons v rest => exact ⟨'[', _, rfl, by decide, by decide⟩
  | obj props =>
    cases props with
    | nil => exact ⟨lbraceChar, _, rfl, by decide, by decide⟩
    | cons p rest =>
      obtain ⟨k, v⟩ := p
      exact ⟨lbraceChar, _, rfl, by decide, by decide⟩

theorem noDigitHead_nil : NoDigitHead [] := by
  intro c tl h; cases h

theorem noDigitHead_cons (c : Char) (tl : List Char) (h : isDigit c = false) :
    NoDigitHead (c :: tl) := by
  intro d tl2 e
  cases e
  exact h

theorem noDigitHead_rest (items : List Json) (rest : List Char) :
    NoDigitHead (serializeRest items ++ ']' :: rest) := by
  cases items with
  | nil => exact noDigitHead_cons _ _ (by decide)
  | cons v tl => exact noDigitHead_cons _ _ (by decide)

theorem noDigitHead_more (props : List (String × Json)) (rest : List Char) :
    NoDigitHead (serializeMore props ++ rbraceChar :: rest) := by
  cases props with
  | nil => exact noDigitHead_cons _ _ (by decide)
  | cons p tl =>
    obtain ⟨k, v⟩ := p
    exact noDigitHead_cons _ _ (by decide)

mutual
/-- Reading back the text of a well-formed value gives the value. -/
theorem parseValue_serialize : ∀ (v : Json), v.WF → ∀ (f : Nat) (rest : List Char),
    v.size ≤ f → NoDigitHead rest → parseValue f (serialize v ++ rest) = some (v, rest)
  | .null, _, f, rest, hf, _ => by
    obtain ⟨g, rfl⟩ : ∃ g, f = g + 1 := ⟨f - 1, by simp [Json.size] at hf; omega⟩
    exact parseValue_null g rest
  | .bool true, _, f, rest, hf, _ => by
    obtain ⟨g, rfl⟩ : ∃ g, f = g + 1 := ⟨f - 1, by simp [Json.size] at hf; omega⟩
    exact parseValue_true g rest
  | .bool false, _, f, rest, hf, _ => by
    obtain ⟨g, rfl⟩ : ∃ g, f = g + 1 := ⟨f - 1, by simp [Json.size] at hf; omega⟩
    exact parseValue_false g rest
  | .num x, hwf, f, rest, hf, hr => by
    obtain ⟨g, rfl⟩ : ∃ g, f = g + 1 := ⟨f - 1, by simp [Json.size] at hf; omega⟩
    obtain ⟨n, hb, hx⟩ := hwf
    subst hx
    obtain ⟨c, tl, he, hc⟩ := intDigits_head n
    have h2 := parseNumber_intDigits n rest hr hb
    simp only [serialize, numberText_ofInt]
    rw [he] at h2 ⊢
    rw [List.cons_append] at h2 ⊢
    rw [parseValue_num g c _ hc, h2]
  | .str s, _, f, rest, hf, _ => by
    obtain ⟨g, rfl⟩ : ∃ g, f = g + 1 := ⟨f - 1, by simp [Json.size] at hf; omega⟩
    have h := parseStrBody_escapeChars s.data rest
    simp only [serialize, quote, List.cons_append, List.append_assoc, List.singleton_append,
      List.nil_append]
    rw [parseValue_str g _ rest s.data h]
  | .arr [], _, f, rest, hf, _ => by
    obtain ⟨g, rfl⟩ : ∃ g, f = g + 1 := ⟨f - 1, by simp [Json.size] at hf; omega⟩
    exact parseValue_arr_nil g rest
  | .arr (v :: items), hwf, f, rest, hf, _ => by
    simp only [Json.size] at hf
    obtain ⟨g, rfl⟩ : ∃ g, f = g + 1 := ⟨f - 1, by omega⟩
    simp only [Json.WF, WFItems] at hwf
    have ih1 := parseValue_serialize v hwf.1 g (serializeRest items ++ ']' :: rest) (by omega)
      (noDigitHead_rest items rest)
    have ih2 := parseRest_serialize items hwf.2 g rest (by omega)
    obtain ⟨d, tl, he, hw, hd⟩ := serialize_head v hwf.1
    simp only [serialize, List.cons_append, List.append_assoc, List.singleton_append]
    rw [he] at ih1 ⊢
    rw [List.cons_append] at ih1 ⊢
    exact parseValue_arr_cons g d _ _ rest v items hw hd ih1 ih2
  | .obj [], _, f, rest, hf, _ => by
    obtain ⟨g, rfl⟩ : ∃ g, f = g + 1 := ⟨f - 1, by simp [Json.size] at hf; omega⟩
    exact parseValue_obj_nil g rest
  | .obj ((k, v) :: props), hwf, f, rest, hf, _ => by
    simp only [Json.size] at hf
    obtain ⟨g, rfl⟩ : ∃ g, f = g + 1 := ⟨f - 1, by omega⟩
    simp only [Json.WF, WFProps] at hwf
    have ih1 := parseValue_serialize v hwf.2.2.1 g (serializeMore props ++ rbraceChar :: rest)
      (by omega) (noDigitHead_more props rest)
    have ih2 := parseMore_serialize props hwf.2.2.2 g rest [(k, v)] (by omega) hwf.1
    have hk := parseKey_quote k
      (':' :: (serialize v ++ (serializeMore props ++ rbraceChar :: rest))) hwf.2.1
    simp only [serialize, List.cons_append, List.append_assoc, List.singleton_append]
    simp only [quote, List.cons_append, List.append_assoc, List.singleton_append] at hk ⊢
    exact parseValue_obj_cons g quoteChar _ _ _ _ rest k v _ (by decide) (by decide) hk
      (parseColon_cons _) ih1 ih2
/-- Reading back the text of the later elements of an array. -/
theorem parseRest_serialize : ∀ (items : List Json), WFItems items →
    ∀ (f : Nat) (rest : List Char), sizeRest items ≤ f →
    parseRest f (serializeRest items ++ ']' :: rest) = some (items, rest)
  | [], _, f, rest, hf => by
    obtain ⟨g, rfl⟩ : ∃ g, f = g + 1 := ⟨f - 1, by simp [sizeRest] at hf; omega⟩
    exact parseRest_nil g rest
  | v :: items, hwf, f, rest, hf => by
    simp only [sizeRest] at hf
    obtain ⟨g, rfl⟩ : ∃ g, f = g + 1 := ⟨f - 1, by omega⟩
    simp only [WFItems] at hwf
    have ih1 := parseValue_serialize v hwf.1 g (serializeRest items ++ ']' :: rest) (by omega)
      (noDigitHead_rest items rest)
    have ih2 := parseRest_serialize items hwf.2 g rest (by omega)
    simp only [serializeRest, List.cons_append, List.append_assoc]
    exact parseRest_cons g _ _ rest v items ih1 ih2
/-- Reading back the text of the later members of an object. -/
theorem parseMore_serialize : ∀ (props : List (String × Json)), WFProps props →
    ∀ (f : Nat) (rest : List Char) (acc : List (String × Json)), sizeMore props ≤ f →
    ((acc ++ props).map Prod.fst).Nodup →
    parseMore f (serializeMore props ++ rbraceChar :: rest) acc = some (acc ++ props, rest)
  | [], _, f, rest, acc, hf, _ => by
    obtain ⟨g, rfl⟩ : ∃ g, f = g + 1 := ⟨f - 1, by simp [sizeMore] at hf; omega⟩
    simpa using parseMore_nil g rest acc
  | (k, v) :: props, hwf, f, rest, acc, hf, hnd => by
    simp only [sizeMore] at hf
    obtain ⟨g, rfl⟩ : ∃ g, f = g + 1 := ⟨f - 1, by omega⟩
    simp only [WFProps] at hwf
    have ih1 := parseValue_serialize v hwf.2.1 g (serializeMore props ++ rbraceChar :: rest)
      (by omega) (noDigitHead_more props rest)
    have hk : k ∉ acc.map Prod.fst := by
      intro hmem
      rw [List.map_append, List.nodup_append] at hnd
      exact hnd.2.2 hmem (by simp)
    have hnd2 : (((acc ++ [(k, v)]) ++ props).map Prod.fst).Nodup := by
      simpa using hnd
    have ih2 := parseMore_serialize props hwf.2.2 g rest (acc ++ [(k, v)]) (by omega) hnd2
    have hkey := parseKey_quote k
      (':' :: (serialize v ++ (serializeMore props ++ rbraceChar :: rest))) hwf.1
    simp only [serializeMore, List.cons_append, List.append_assoc]
    rw [parseMore_cons g _ _ _ _ k v acc hkey (parseColon_cons _) ih1,
      setProp_append_new acc k v hk, ih2]
    simp
end




theorem natDigits_length_pos (n : Nat) : 1 ≤ (natDigits n).length := by
  obtain ⟨c, ds, he, _⟩ := natDigits_head n
  rw [he]; simp

theorem intDigits_length_pos (n : Int) : 1 ≤ (intDigits n).length := by
  have := natDigits_length_pos n.natAbs
  unfold intDigits
  split_ifs
  · simp only [List.length_cons]
    omega
  · exact this

mutual
theorem size_le_length : ∀ (v : Json), v.WF → v.size ≤ (serialize v).length
  | .null, _ => by simp [Json.size, serialize]
  | .bool true, _ => by simp [Json.size, serialize]
  | .bool false, _ => by simp [Json.size, serialize]
  | .num x, hwf => by
    obtain ⟨n, _, hx⟩ := hwf
    subst hx
    simpa [Json.size, serialize, numberText_ofInt] using intDigits_length_pos n
  | .str s, _ => by simp [Json.size, serialize, quote]
  | .arr [], _ => by simp [Json.size, serialize]
  | .arr (v :: items), hwf => by
    simp only [Json.WF, WFItems] at hwf
    have h1 := size_le_length v hwf.1
    have h2 := sizeRest_le_length items hwf.2
    simp only [Json.size, serialize, List.length_cons, List.length_append, List.length_nil]
    omega
  | .obj [], _ => by simp [Json.size, serialize]
  | .obj ((k, v) :: props), hwf => by
    simp only [Json.WF, WFProps] at hwf
    have h1 := size_le_length v hwf.2.2.1
    have h2 := sizeMore_le_length props hwf.2.2.2
    simp only [Json.size, serialize, List.length_cons, List.length_append, List.length_nil]
    omega
theorem sizeRest_le_length : ∀ (items : List Json), WFItems items →
    sizeRest items ≤ (serializeRest items).length + 1
  | [], _ => by simp [sizeRest, serializeRest]
  | v :: items, hwf => by
    simp only [WFItems] at hwf
    have h1 := size_le_length v hwf.1
    have h2 := sizeRest_le_length items hwf.2
    simp only [sizeRest, serializeRest, List.length_cons, List.length_append]
    omega
theorem sizeMore_le_length : ∀ (props : List (String × Json)), WFProps props →
    sizeMore props ≤ (serializeMore props).length + 1
  | [], _ => by simp [sizeMore, serializeMore]
  | (k, v) :: props, hwf => by
    simp only [WFProps] at hwf
    have h1 := size_le_length v hwf.2.1
    have h2 := sizeMore_le_length props hwf.2.2
    simp only [sizeMore, serializeMore, List.length_cons, List.length_append]
    omega
end

/-- `JSON.parse(JSON.stringify(v))` is `v` for every well-formed value. -/
theorem parse_stringify (v : Json) (h : v.WF) : JSON.parse (JSON.stringify v) = .ok v := by
  have h1 := parseValue_serialize v h ((serialize v).length + 1) [] 
    (by have := size_le_length v h; omega) noDigitHead_nil
  rw [List.append_nil] at h1
  simp [JSON.parse, JSON.stringify, h1, skipWs]

theorem setProp_keys (acc : List (String × Json)) (k : String) (v : Json) :
    (setProp acc k v).map Prod.fst =
      if k ∈ acc.map Prod.fst then acc.map Prod.fst else acc.map Prod.fst ++ [k] := by
  induction acc with
  | nil => simp [setProp]
  | cons p acc ih =>
    obtain ⟨k0, v0⟩ := p
    by_cases h : k0 = k
    · subst h; simp [setProp]
    · have h2 : ¬ k = k0 := fun e => h e.symm
      simp only [setProp, h, if_false, List.map_cons, ih, List.mem_cons, h2, false_or]
      split_ifs <;> simp

theorem setProp_nodup (acc : List (String × Json)) (k : String) (v : Json)
    (h : (acc.map Prod.fst).Nodup) : ((setProp acc k v).map Prod.fst).Nodup := by
  rw [setProp_keys]
  split_ifs with hk
  · exact h
  · rw [List.nodup_append]
    refine ⟨h, by simp, ?_⟩
    intro a ha hb
    simp at hb
    subst hb
    exact hk ha

theorem setProp_wf (acc : List (String × Json)) (k : String) (v : Json)
    (h : WFProps acc) (hv : v.WF) (hi : isIndexKey k.data = false) :
    WFProps (setProp acc k v) := by
  induction acc with
  | nil => simp [setProp, WFProps, hv, hi]
  | cons p acc ih =>
    obtain ⟨k0, v0⟩ := p
    simp only [WFProps] at h
    by_cases hk : k0 = k
    · simp [setProp, hk, WFProps, hv, h.2.2, hi]
    · simp [setProp, hk, WFProps, h.1, h.2.1, ih h.2.2]

theorem parseNumber_wf (cs r : List Char) (v : Json) (h : parseNumber cs = some (v, r)) :
    v.WF := by
  unfold parseNumber at h
  split at h
  · cases h
  · split_ifs at h
    · split at h
      · rename_i n rest hn
        split_ifs at h with hb
        cases h
        exact ⟨-(n : Int), by simpa using hb, rfl⟩
      · cases h
    · split at h
      · rename_i n rest hn
        split_ifs at h with hb
        cases h
        exact ⟨(n : Int), by simpa using hb, rfl⟩
      · cases h




/-- Everything the reader returns is well formed. -/
theorem parse_wf_aux : ∀ (f : Nat),
    (∀ cs v r, parseValue f cs = some (v, r) → v.WF) ∧
    (∀ cs vs r, parseRest f cs = some (vs, r) → WFItems vs) ∧
    (∀ cs acc ps r, (acc.map Prod.fst).Nodup → WFProps acc →
      parseMore f cs acc = some (ps, r) → (ps.map Prod.fst).Nodup ∧ WFProps ps) := by
  intro f
  induction f with
  | zero =>
    refine ⟨?_, ?_, ?_⟩
    · intro cs v r h; simp [parseValue] at h
    · intro cs vs r h; simp [parseRest] at h
    · intro cs acc ps r _ _ h; simp [parseMore] at h
  | succ f ih =>
    obtain ⟨ihv, ihr, ihm⟩ := ih
    refine ⟨?_, ?_, ?_⟩
    · intro cs v r h
      simp only [parseValue] at h
      split at h
      · cases h
      · split_ifs at h
        · simp only [Option.map_eq_some'] at h
          obtain ⟨_, _, h2⟩ := h
          cases h2; simp [Json.WF]
        · simp only [Option.map_eq_some'] at h
          obtain ⟨_, _, h2⟩ := h
          cases h2; simp [Json.WF]
        · simp only [Option.map_eq_some'] at h
          obtain ⟨_, _, h2⟩ := h
          cases h2; simp [Json.WF]
        · split at h
          · cases h; simp [Json.WF]
          · cases h
        · split at h
          · cases h
          · split_ifs at h
            · cases h; simp [Json.WF, WFItems]
            · split at h
              · cases h
              · rename_i v0 r2 hv0
                split at h
                · cases h
                · rename_i vs r3 hvs
                  cases h
                  simp only [Json.WF, WFItems]
                  exact ⟨ihv _ _ _ hv0, ihr _ _ _ hvs⟩
        · split at h
          · cases h
          · split_ifs at h
            · cases h; simp [Json.WF, WFProps]
            · split at h
              · cases h
              · rename_i k0 r2 hk0
                split at h
                · cases h
                · split at h
                  · cases h
                  · rename_i v0 r4 hv0
                    split at h
                    · cases h
                    · rename_i props r5 hps
                      cases h
                      have := ihm _ _ _ _ (by simp)
                        (by simp only [WFProps]
                            exact ⟨parseKey_notIndex _ _ _ hk0, ihv _ _ _ hv0, trivial⟩) hps
                      simp only [Json.WF]
                      exact this
        · exact parseNumber_wf _ _ _ h
    · intro cs vs r h
      simp only [parseRest] at h
      split at h
      · cases h
      · split_ifs at h
        · cases h; simp [WFItems]
        · split at h
          · cases h
          · rename_i v0 r1 hv0
            split at h
            · cases h
            · rename_i vs0 r2 hvs
              cases h
              simp only [WFItems]
              exact ⟨ihv _ _ _ hv0, ihr _ _ _ hvs⟩
    · intro cs acc ps r hnd hwf h
      simp only [parseMore] at h
      split at h
      · cases h
      · split_ifs at h
        · cases h; exact ⟨hnd, hwf⟩
        · split at h
          · cases h
          · rename_i k0 r1 hk0
            split at h
            · cases h
            · split at h
              · cases h
              · rename_i v0 r3 hv0
                exact ihm _ _ _ _ (setProp_nodup _ _ _ hnd)
                  (setProp_wf _ _ _ hwf (ihv _ _ _ hv0) (parseKey_notIndex _ _ _ hk0)) h

theorem parse_wf (text : String) (v : Json) (h : JSON.parse text = .ok v) : v.WF := by
  unfold JSON.parse at h
  split at h
  · rename_i v0 rest hv
    split_ifs at h
    cases h
    exact (parse_wf_aux _).1 _ _ _ hv
  · cases h


/-! ## JSON text: the bound on the nesting of calls is never reached -/

theorem skipWs_length (cs : List Char) : (skipWs cs).length ≤ cs.length := by
  induction cs with
  | nil => simp [skipWs]
  | cons c cs ih =>
    simp only [skipWs]
    split_ifs
    · simp only [List.length_cons]; omega
    · exact le_refl _

theorem matchWord_length (w : List Char) : ∀ (cs r : List Char),
    matchWord w cs = some r → r.length ≤ cs.length := by
  induction w with
  | nil =>
    intro cs r h
    cases cs <;> simp [matchWord] at h <;> subst h <;> simp
  | cons a w ih =>
    intro cs r h
    cases cs with
    | nil => simp [matchWord] at h
    | cons c cs =>
      simp only [matchWord] at h
      split_ifs at h
      have := ih cs r h
      simp only [List.length_cons]
      omega

theorem readDigits_length (cs : List Char) : ∀ acc, (readDigits acc cs).2.length ≤ cs.length := by
  induction cs with
  | nil => intro acc; simp [readDigits]
  | cons c cs ih =>
    intro acc
    simp only [readDigits]
    split_ifs
    · have := ih (acc * 10 + (c.toNat - 48))
      simp only [List.length_cons]
      omega
    · exact le_refl _

theorem parseNat_length (cs r : List Char) (n : Nat) (h : parseNat cs = some (n, r)) :
    r.length ≤ cs.length := by
  cases cs with
  | nil => simp [parseNat] at h
  | cons c cs =>
    simp only [parseNat] at h
    split_ifs at h
    · simp at h
      obtain ⟨_, rfl⟩ := h
      simp
    · simp at h
      have := readDigits_length cs (c.toNat - 48)
      rw [h] at this
      simp only [List.length_cons]
      simp at this
      omega

theorem parseNumber_length (cs r : List Char) (v : Json) (h : parseNumber cs = some (v, r)) :
    r.length ≤ cs.length := by
  cases cs with
  | nil => simp [parseNumber] at h
  | cons c cs =>
    simp only [parseNumber] at h
    split_ifs at h
    · split at h
      · rename_i n rest hn
        simp at h
        obtain ⟨_, _, rfl⟩ := h
        have := parseNat_length _ _ _ hn
        simp only [List.length_cons]
        omega
      · cases h
    · split at h
      · rename_i n rest hn
        simp at h
        obtain ⟨_, _, rfl⟩ := h
        exact parseNat_length _ _ _ hn
      · cases h

theorem decodeLow_length (hi : Nat) (cs r : List Char) (ch : Char)
    (h : decodeLow hi cs = some (ch, r)) : r.length ≤ cs.length := by
  unfold decodeLow at h
  split at h
  · split_ifs at h
    split at h
    · cases h
    · split_ifs at h
      simp at h
      obtain ⟨_, rfl⟩ := h
      simp only [List.length_cons]
      omega
  · cases h

theorem decodeUnicode_length (cs r : List Char) (ch : Char)
    (h : decodeUnicode cs = some (ch, r)) : r.length ≤ cs.length := by
  unfold decodeUnicode at h
  split at h
  · split at h
    · cases h
    · split_ifs at h
      · have := decodeLow_length _ _ _ _ h
        simp only [List.length_cons]
        omega
      · simp at h
        obtain ⟨_, rfl⟩ := h
        simp only [List.length_cons]
        omega
  · cases h

theorem decodeEscape_length (cs r : List Char) (ch : Char)
    (h : decodeEscape cs = some (ch, r)) : r.length ≤ cs.length := by
  cases cs with
  | nil => simp [decodeEscape] at h
  | cons e r1 =>
    simp only [decodeEscape] at h
    split_ifs at h
    · have := decodeUnicode_length _ _ _ h
      simp only [List.length_cons]
      omega
    · split at h
      · simp at h
        obtain ⟨_, rfl⟩ := h
        simp
      · cases h

theorem consChar_some (c : Char) (x : Option (List Char × List Char)) (s r : List Char)
    (h : consChar c x = some (s, r)) : ∃ s0, x = some (s0, r) := by
  cases x with
  | none => simp [consChar] at h
  | some p =>
    obtain ⟨s0, r0⟩ := p
    simp [consChar] at h
    exact ⟨s0, by rw [h.2]⟩

theorem parseStrAux_length : ∀ (fuel : Nat) (cs s r : List Char),
    parseStrAux fuel cs = some (s, r) → r.length ≤ cs.length := by
  intro fuel
  induction fuel with
  | zero => intro cs s r h; simp [parseStrAux] at h
  | succ f ih =>
    intro cs s r h
    cases cs with
    | nil => simp [parseStrAux] at h
    | cons c rest =>
      simp only [parseStrAux] at h
      split_ifs at h
      · simp at h
        obtain ⟨_, rfl⟩ := h
        simp
      · split at h
        · rename_i ch r1 hd
          obtain ⟨s0, hs0⟩ := consChar_some _ _ _ _ h
          have h1 := ih _ _ _ hs0
          have h2 := decodeEscape_length _ _ _ hd
          simp only [List.length_cons]
          omega
        · cases h
      · obtain ⟨s0, hs0⟩ := consChar_some _ _ _ _ h
        have h1 := ih _ _ _ hs0
        simp only [List.length_cons]
        omega

theorem parseKey_length (cs r : List Char) (k : String) (h : parseKey cs = some (k, r)) :
    r.length < cs.length := by
  unfold parseKey at h
  split at h
  · cases h
  · rename_i c r0 hs
    split_ifs at h
    split at h
    · rename_i s rest hb
      simp at h
      obtain ⟨_, _, rfl⟩ := h
      have h1 := parseStrAux_length _ _ _ _ hb
      have h2 := skipWs_length cs
      rw [hs] at h2
      simp only [List.length_cons] at h2
      omega
    · cases h

theorem parseColon_length (cs r : List Char) (h : parseColon cs = some r) :
    r.length < cs.length := by
  unfold parseColon at h
  split at h
  · cases h
  · rename_i c r0 hs
    split_ifs at h
    simp at h
    subst h
    have h2 := skipWs_length cs
    rw [hs] at h2
    simp only [List.length_cons] at h2
    omega

/-- No reader returns more input than it was given. -/
theorem parse_length_aux : ∀ (f : Nat),
    (∀ cs v r, parseValue f cs = some (v, r) → r.length ≤ cs.length) ∧
    (∀ cs vs r, parseRest f cs = some (vs, r) → r.length ≤ cs.length) ∧
    (∀ cs acc ps r, parseMore f cs acc = some (ps, r) → r.length ≤ cs.length) := by
  intro f
  induction f with
  | zero =>
    refine ⟨?_, ?_, ?_⟩
    · intro cs v r h; simp [parseValue] at h
    · intro cs vs r h; simp [parseRest] at h
    · intro cs acc ps r h; simp [parseMore] at h
  | succ f ih =>
    obtain ⟨ihv, ihr, ihm⟩ := ih
    refine ⟨?_, ?_, ?_⟩
    · intro cs v r h
      simp only [parseValue] at h
      have hs := skipWs_length cs
      split at h
      · cases h
      · rename_i c r0 hcs
        rw [hcs] at hs
        simp only [List.length_cons] at hs
        split_ifs at h
        · simp only [Option.map_eq_some'] at h
          obtain ⟨x, hx, h2⟩ := h
          cases h2
          have := matchWord_length _ _ _ hx
          omega
        · simp only [Option.map_eq_some'] at h
          obtain ⟨x, hx, h2⟩ := h
          cases h2
          have := matchWord_length _ _ _ hx
          omega
        · simp only [Option.map_eq_some'] at h
          obtain ⟨x, hx, h2⟩ := h
          cases h2
          have := matchWord_length _ _ _ hx
          omega
        · split at h
          · rename_i s rest hb
            cases h
            have := parseStrAux_length _ _ _ _ hb
            omega
          · cases h
        · have hs2 := skipWs_length r0
          split at h
          · cases h
          · rename_i d r1 hr0
            rw [hr0] at hs2
            simp only [List.length_cons] at hs2
            split_ifs at h
            · cases h; omega
            · split at h
              · cases h
              · rename_i v0 r2 hv0
                split at h
                · cases h
                · rename_i vs r3 hvs
                  cases h
                  have h1 := ihv _ _ _ hv0
                  have h2 := ihr _ _ _ hvs
                  simp only [List.length_cons] at h1
                  omega
        · have hs2 := skipWs_length r0
          split at h
          · cases h
          · rename_i d r1 hr0
            rw [hr0] at hs2
            simp only [List.length_cons] at hs2
            split_ifs at h
            · cases h; omega
            · split at h
              · cases h
              · rename_i k r2 hk
                split at h
                · cases h
                · rename_i r3 hc
                  split at h
                  · cases h
                  · rename_i v0 r4 hv0
                    split at h
                    · cases h
                    · rename_i props r5 hps
                      cases h
                      have h1 := parseKey_length _ _ _ hk
                      have h2 := parseColon_length _ _ hc
                      have h3 := ihv _ _ _ hv0
                      have h4 := ihm _ _ _ _ hps
                      simp only [List.length_cons] at h1
                      omega
        · have := parseNumber_length _ _ _ h
          simp only [List.length_cons] at this
          omega
    · intro cs vs r h
      simp only [parseRest] at h
      have hs := skipWs_length cs
      split at h
      · cases h
      · rename_i c r0 hcs
        rw [hcs] at hs
        simp only [List.length_cons] at hs
        split_ifs at h
        · cases h; omega
        · split at h
          · cases h
          · rename_i v0 r1 hv0
            split at h
            · cases h
            · rename_i vs0 r2 hvs
              cases h
              have h1 := ihv _ _ _ hv0
              have h2 := ihr _ _ _ hvs
              omega
    · intro cs acc ps r h
      simp only [parseMore] at h
      have hs := skipWs_length cs
      split at h
      · cases h
      · rename_i c r0 hcs
        rw [hcs] at hs
        simp only [List.length_cons] at hs
        split_ifs at h
        · cases h; omega
        · split at h
          · cases h
          · rename_i k r1 hk
            split at h
            · cases h
            · rename_i r2 hc
              split at h
              · cases h
              · rename_i v0 r3 hv0
                have h1 := parseKey_length _ _ _ hk
                have h2 := parseColon_length _ _ hc
                have h3 := ihv _ _ _ hv0
                have h4 := ihm _ _ _ _ h
                omega

/-- Two bounds that give the same results on shorter inputs give the same
results, one call deeper, on inputs that are one character longer. -/
theorem parse_body_congr (f g n : Nat)
    (hv : ∀ x, x.length < n → parseValue f x = parseValue g x)
    (hr : ∀ x, x.length < n → parseRest f x = parseRest g x)
    (hm : ∀ x acc, x.length < n → parseMore f x acc = parseMore g x acc) :
    (∀ cs, cs.length ≤ n → parseValue (f + 1) cs = parseValue (g + 1) cs) ∧
    (∀ cs, cs.length ≤ n → parseRest (f + 1) cs = parseRest (g + 1) cs) ∧
    (∀ cs acc, cs.length ≤ n → parseMore (f + 1) cs acc = parseMore (g + 1) cs acc) := by
  obtain ⟨lv, lr, lm⟩ := parse_length_aux g
  refine ⟨?_, ?_, ?_⟩
  · intro cs hlen
    simp only [parseValue]
    have hs := skipWs_length cs
    cases hcs : skipWs cs with
    | nil => rfl
    | cons c r0 =>
      rw [hcs] at hs
      simp only [List.length_cons] at hs
      simp only []
      split_ifs
      · rfl
      · rfl
      · rfl
      · rfl
      · have hs2 := skipWs_length r0
        cases hr0 : skipWs r0 with
        | nil => rfl
        | cons d r1 =>
          rw [hr0] at hs2
          simp only [List.length_cons] at hs2
          simp only []
          split_ifs
          · rfl
          · have hx : (d :: r1).length < n := by simp only [List.length_cons]; omega
            rw [hv (d :: r1) hx]
            cases hv2 : parseValue g (d :: r1) with
            | none => rfl
            | some p =>
              obtain ⟨v, r2⟩ := p
              have h2 := lv _ _ _ hv2
              simp only [List.length_cons] at h2
              simp only []
              rw [hr r2 (by omega)]
      · have hs2 := skipWs_length r0
        cases hr0 : skipWs r0 with
        | nil => rfl
        | cons d r1 =>
          rw [hr0] at hs2
          simp only [List.length_cons] at hs2
          simp only []
          split_ifs
          · rfl
          · cases hk : parseKey (d :: r1) with
            | none => rfl
            | some p =>
              obtain ⟨k, r2⟩ := p
              have h2 := parseKey_length _ _ _ hk
              simp only [List.length_cons] at h2
              simp only []
              cases hc : parseColon r2 with
              | none => rfl
              | some r3 =>
                have h3 := parseColon_length _ _ hc
                simp only []
                rw [hv r3 (by omega)]
                cases hv2 : parseValue g r3 with
                | none => rfl
                | some q =>
                  obtain ⟨v, r4⟩ := q
                  have h4 := lv _ _ _ hv2
                  simp only []
                  rw [hm r4 _ (by omega)]
      · rfl
  · intro cs hlen
    simp only [parseRest]
    have hs := skipWs_length cs
    cases hcs : skipWs cs with
    | nil => rfl
    | cons c r0 =>
      rw [hcs] at hs
      simp only [List.length_cons] at hs
      simp only []
      split_ifs
      · rfl
      · rw [hv r0 (by omega)]
        cases hv2 : parseValue g r0 with
        | none => rfl
        | some p =>
          obtain ⟨v, r1⟩ := p
          have h2 := lv _ _ _ hv2
          simp only []
          rw [hr r1 (by omega)]
      · rfl
  · intro cs acc hlen
    simp only [parseMore]
    have hs := skipWs_length cs
    cases hcs : skipWs cs with
    | nil => rfl
    | cons c r0 =>
      rw [hcs] at hs
      simp only [List.length_cons] at hs
      simp only []
      split_ifs
      · rfl
      · cases hk : parseKey r0 with
        | none => rfl
        | some p =>
          obtain ⟨k, r1⟩ := p
          have h2 := parseKey_length _ _ _ hk
          simp only []
          cases hc : parseColon r1 with
          | none => rfl
          | some r2 =>
            have h3 := parseColon_length _ _ hc
            simp only []
            rw [hv r2 (by omega)]
            cases hv2 : parseValue g r2 with
            | none => rfl
            | some q =>
              obtain ⟨v, r3⟩ := q
              have h4 := lv _ _ _ hv2
              simp only []
              rw [hm r3 _ (by omega)]
      · rfl

/-- One more unit of the bound changes nothing once the bound exceeds the
length of the input. -/
theorem parse_fuel_step : ∀ (f : Nat),
    (∀ cs, cs.length < f → parseValue f cs = parseValue (f + 1) cs) ∧
    (∀ cs, cs.length < f → parseRest f cs = parseRest (f + 1) cs) ∧
    (∀ cs acc, cs.length < f → parseMore f cs acc = parseMore (f + 1) cs acc) := by
  intro f
  induction f with
  | zero =>
    refine ⟨?_, ?_, ?_⟩
    · intro cs h; omega
    · intro cs h; omega
    · intro cs acc h; omega
  | succ f ih =>
    obtain ⟨ihv, ihr, ihm⟩ := ih
    obtain ⟨cv, cr, cm⟩ := parse_body_congr f (f + 1) f ihv ihr ihm
    exact ⟨fun cs h => cv cs (by omega), fun cs h => cr cs (by omega),
      fun cs acc h => cm cs acc (by omega)⟩

/-- The result of the reader does not depend on the bound once it exceeds the
length of the input: the bound that `JSON.parse` supplies never cuts a parse
short. -/
theorem parseValue_fuel (cs : List Char) (f : Nat) (h : cs.length < f) :
    parseValue f cs = parseValue (cs.length + 1) cs := by
  obtain ⟨k, rfl⟩ : ∃ k, f = cs.length + 1 + k := ⟨f - (cs.length + 1), by omega⟩
  clear h
  induction k with
  | zero => rfl
  | succ n ih =>
    rw [← ih]
    exact ((parse_fuel_step (cs.length + 1 + n)).1 cs (by omega)).symm


/-- The bound of the string reader changes nothing once it reaches the length
of the input. -/
theorem parseStrAux_fuel_step : ∀ (f : Nat) (cs : List Char), cs.length ≤ f →
    parseStrAux f cs = parseStrAux (f + 1) cs := by
  intro f
  induction f with
  | zero =>
    intro cs h
    cases cs with
    | nil => rfl
    | cons c r => simp at h
  | succ f ih =>
    intro cs h
    cases cs with
    | nil => rfl
    | cons c r =>
      simp only [List.length_cons] at h
      rw [parseStrAux, parseStrAux]
      split_ifs
      · rfl
      · cases hd : decodeEscape r with
        | none => rfl
        | some p =>
          obtain ⟨ch, r1⟩ := p
          have h1 := decodeEscape_length _ _ _ hd
          simp only []
          rw [ih r1 (by omega)]
      · rfl
      · rw [ih r (by omega)]

theorem parseStrAux_fuel (cs : List Char) (f : Nat) (h : cs.length ≤ f) :
    parseStrAux f cs = parseStrBody cs := by
  unfold parseStrBody
  obtain ⟨k, rfl⟩ : ∃ k, f = cs.length + k := ⟨f - cs.length, by omega⟩
  clear h
  induction k with
  | zero => rfl
  | succ n ih =>
    rw [← ih]
    exact (parseStrAux_fuel_step (cs.length + n) cs (by omega)).symm

/-- The built-in `JSON.parse` with any larger bound on the nesting of calls
gives the same result. -/
theorem parse_any_fuel (text : String) (f : Nat) (h : text.data.length < f) :
    JSON.parse text =
      match parseValue f text.data with
      | some (v, rest) => if skipWs rest = [] then .ok v else .error parseError
      | none => .error parseError := by
  rw [parseValue_fuel text.data f h]
  rfl
/-! ## The request store -/

theorem loadRequests_saveRequests (parse : JsonParse) (v : Json)
    (hrb : parse (JSON.stringify v) = .ok v) (ht : v.truthy = true) :
    loadRequests parse (saveRequests v) = v := by
  simp [loadRequests, saveRequests, hrb, ht]

theorem loadRequests_truthy (parse : JsonParse) (store : Store) :
    (loadRequests parse store).truthy = true := by
  unfold loadRequests
  split
  · split_ifs with h
    · exact h
    · rfl
  · rfl

theorem wf_arr_nil : (Json.arr []).WF := by
  simp [Json.WF, WFItems]

theorem loadRequests_wf (store : Store) : (loadRequests JSON.parse store).WF := by
  unfold loadRequests
  split
  · rename_i v hv
    split_ifs
    · exact parse_wf _ v hv
    · exact wf_arr_nil
  · exact wf_arr_nil

theorem loadRequests_none : loadRequests JSON.parse none = Json.arr [] := by rfl

theorem loadRequests_absent (parse : JsonParse) (h : parse "null" = .ok Json.null) :
    loadRequests parse none = Json.arr [] := by
  simp [loadRequests, h, Json.truthy]

theorem loadRequests_of_parse_error (parse : JsonParse) (text : String) (e : JsError)
    (h : parse text = .error e) : loadRequests parse (some text) = Json.arr [] := by
  simp [loadRequests, h]

theorem loadRequests_of_parse_arr (parse : JsonParse) (text : String) (items : List Json)
    (h : parse text = .ok (Json.arr items)) :
    loadRequests parse (some text) = Json.arr items := by
  simp [loadRequests, h, Json.truthy]

theorem loadRequests_of_parse_truthy (parse : JsonParse) (text : String) (v : Json)
    (h : parse text = .ok v) (hv : v.truthy = true) :
    loadRequests parse (some text) = v := by
  simp [loadRequests, h, hv]

theorem loadRequests_of_parse_falsy (parse : JsonParse) (text : String) (v : Json)
    (h : parse text = .ok v) (hv : v.truthy = false) :
    loadRequests parse (some text) = Json.arr [] := by
  simp [loadRequests, h, hv]

theorem wfItems_append (xs ys : List Json) (hx : WFItems xs) (hy : WFItems ys) :
    WFItems (xs ++ ys) := by
  induction xs with
  | nil => simpa using hy
  | cons x xs ih =>
    simp only [WFItems] at hx
    simp only [List.cons_append, WFItems]
    exact ⟨hx.1, ih hx.2⟩

theorem recordWith_wf (request : LicenseRequest) (status : String) :
    (recordWith request status).WF := by
  simp only [recordWith, Json.WF, WFProps, List.map_cons, List.map_nil, and_self, and_true]
  decide

theorem wfItems_of_forall (xs : List Json) (h : ∀ x ∈ xs, x.WF) : WFItems xs := by
  induction xs with
  | nil => simp [WFItems]
  | cons x xs ih =>
    simp only [WFItems]
    exact ⟨h x (by simp), ih (fun y hy => h y (by simp [hy]))⟩

theorem wfItems_mem (xs : List Json) (h : WFItems xs) : ∀ x ∈ xs, x.WF := by
  induction xs with
  | nil => intro x hx; cases hx
  | cons y ys ih =>
    simp only [WFItems] at h
    intro x hx
    rcases List.mem_cons.1 hx with rfl | hx
    · exact h.1
    · exact ih h.2 x hx

/-- The reference reader reads back the text written for a list of values it
can return. -/
theorem parse_stringify_arr (items : List Json) (h : WFItems items) :
    JSON.parse (JSON.stringify (Json.arr items)) = .ok (Json.arr items) :=
  parse_stringify _ (by simpa [Json.WF] using h)
/-! ## The store effect of a submission -/

theorem submitHandler_declined (parse : JsonParse) (fetch : ClientCall → FetchResult)
    (store : Store) (form : FormData) (h : (requestOf form).accepted = false) :
    (submitHandler parse fetch store form).store = store := by
  simp [submitHandler, h]

theorem submitHandler_accepted (parse : JsonParse) (fetch : ClientCall → FetchResult)
    (store : Store) (form : FormData) (items : List Json)
    (h : (requestOf form).accepted = true)
    (hl : loadRequests parse store = Json.arr items) :
    (submitHandler parse fetch store form).store =
      saveRequests (Json.arr (items ++ [recordOf (requestOf form)])) := by
  simp [submitHandler, h, hl]

theorem recordOf_wf (request : LicenseRequest) : (recordOf request).WF :=
  recordWith_wf request "pending"

theorem submitAll_load (fetch : ClientCall → FetchResult) (forms : List FormData) :
    ∀ (store : Store) (items : List Json), WFItems items →
    loadRequests JSON.parse store = Json.arr items →
    loadRequests JSON.parse (submitAll JSON.parse fetch store forms) =
      Json.arr (items ++ ((forms.map requestOf).filter (fun r => r.accepted)).map recordOf) := by
  induction forms with
  | nil =>
    intro store items _ hl
    simpa [submitAll] using hl
  | cons form rest ih =>
    intro store items hw hl
    simp only [submitAll]
    by_cases hacc : (requestOf form).accepted = true
    · have hw2 : WFItems (items ++ [recordOf (requestOf form)]) :=
        wfItems_append _ _ hw (by simp [WFItems, recordOf_wf])
      have hs := submitHandler_accepted JSON.parse fetch store form items hacc hl
      have hl2 : loadRequests JSON.parse (submitHandler JSON.parse fetch store form).store =
          Json.arr (items ++ [recordOf (requestOf form)]) := by
        rw [hs]
        exact loadRequests_saveRequests JSON.parse (Json.arr _) (parse_stringify_arr _ hw2) rfl
      rw [ih _ _ hw2 hl2]
      simp [List.filter_cons, hacc]
    · have hacc2 : (requestOf form).accepted = false := by simpa using hacc
      rw [submitHandler_declined JSON.parse fetch store form hacc2, ih _ _ hw hl]
      simp [List.filter_cons, hacc2]

/-- The records of the accepted submissions, spelled out. -/
theorem accepted_records (forms : List FormData) :
    ((forms.map requestOf).filter (fun r => r.accepted)).map recordOf =
      (forms.filter (fun f => decide (f.accept = some "on"))).map (fun f =>
        Json.obj [("name", Json.str (trimmedEntry f.name)),
          ("email", Json.str (trimmedEntry f.email)),
          ("use", Json.str (trimmedEntry f.use)),
          ("duration", Json.str (f.duration.getD "")),
          ("accepted", Json.bool true),
          ("status", Json.str "pending")]) := by
  induction forms with
  | nil => rfl
  | cons f rest ih =>
    by_cases hf : f.accept = some "on"
    · simp only [List.map_cons, List.filter_cons, requestOf, hf, decide_True, if_true,
        recordOf, recordWith] at ih ⊢
      rw [ih]
    · simp only [List.map_cons, List.filter_cons, requestOf, hf, decide_False,
        Bool.false_eq_true, if_false] at ih ⊢
      exact ih

/-! ## The admin table -/

theorem lookupProp_setProp_same (props : List (String × Json)) (k : String) (v : Json) :
    lookupProp (setProp props k v) k = some v := by
  induction props with
  | nil => simp [setProp, lookupProp]
  | cons p rest ih =>
    obtain ⟨k0, v0⟩ := p
    by_cases h : k0 = k
    · simp [setProp, lookupProp, h]
    · simp [setProp, lookupProp, h, ih]

theorem lookupProp_setProp_other (props : List (String × Json)) (k k1 : String) (v : Json)
    (hk : k1 ≠ k) : lookupProp (setProp props k v) k1 = lookupProp props k1 := by
  induction props with
  | nil =>
    have h : ¬ k = k1 := fun e => hk e.symm
    simp [setProp, lookupProp, h]
  | cons p rest ih =>
    obtain ⟨k0, v0⟩ := p
    by_cases h : k0 = k
    · subst h
      have h2 : ¬ k0 = k1 := fun e => hk e.symm
      simp [setProp, lookupProp, h2]
    · by_cases h3 : k0 = k1
      · subst h3
        simp [setProp, lookupProp, h]
      · simp [setProp, lookupProp, h, h3, ih]

theorem statusAt_length (status : String) (requests : List Json) :
    ∀ i, (statusAt status requests i).length = requests.length := by
  induction requests with
  | nil => intro i; simp [statusAt]
  | cons r rest ih =>
    intro i
    cases i with
    | zero => simp [statusAt]
    | succ n => simp [statusAt, ih n]

theorem statusAt_same (status : String) (requests : List Json) :
    ∀ i r, requests[i]? = some r → (statusAt status requests i)[i]? = some (assignStatus r status) := by
  induction requests with
  | nil => intro i r h; simp at h
  | cons q rest ih =>
    intro i r h
    cases i with
    | zero =>
      simp at h
      subst h
      simp [statusAt]
    | succ n =>
      simp at h
      simpa [statusAt] using ih n r h

theorem statusAt_other (status : String) (requests : List Json) :
    ∀ i j, j ≠ i → (statusAt status requests i)[j]? = requests[j]? := by
  induction requests with
  | nil => intro i j _; simp [statusAt]
  | cons q rest ih =>
    intro i j hj
    cases i with
    | zero =>
      cases j with
      | zero => exact absurd rfl hj
      | succ m => simp [statusAt]
    | succ n =>
      cases j with
      | zero => simp [statusAt]
      | succ m =>
        have : m ≠ n := fun e => hj (by rw [e])
        simpa [statusAt] using ih n m this

theorem assignStatus_wf (r : Json) (status : String) (h : r.WF) : (assignStatus r status).WF := by
  cases r with
  | obj props =>
    simp only [Json.WF] at h
    simp only [assignStatus, Json.WF]
    exact ⟨setProp_nodup _ _ _ h.1, setProp_wf _ _ _ h.2 (by simp [Json.WF]) (by decide)⟩
  | null => exact h
  | bool b => exact h
  | num n => exact h
  | str s => exact h
  | arr items => exact h

theorem statusAt_wf (status : String) (requests : List Json) (h : WFItems requests) :
    ∀ i, WFItems (statusAt status requests i) := by
  induction requests with
  | nil => intro i; simp [statusAt, WFItems]
  | cons q rest ih =>
    intro i
    simp only [WFItems] at h
    cases i with
    | zero => simp only [statusAt, WFItems]; exact ⟨assignStatus_wf _ _ h.1, h.2⟩
    | succ n => simp only [statusAt, WFItems]; exact ⟨h.1, ih h.2 n⟩

theorem renderedRows_length_le (found : String → Bool) (requests : List Json) :
    (renderedRows found requests).length ≤ requests.length := by
  induction requests with
  | nil => simp [renderedRows]
  | cons r rest ih =>
    simp only [renderedRows]
    split
    · simp only [List.length_cons]
      omega
    · simp

theorem clickRow_eq (parse : JsonParse) (found : String → Bool) (status : String)
    (store : Store) (requests : List Json) (i : Nat)
    (hl : loadRequests parse store = Json.arr requests)
    (hrow : i < (renderedRows found requests).length) :
    clickRow parse found status store i =
      some (saveRequests (Json.arr (statusAt status requests i))) := by
  simp [clickRow, hl, hrow]

theorem clickRow_none (parse : JsonParse) (found : String → Bool) (status : String)
    (store : Store) (requests : List Json) (i : Nat)
    (hl : loadRequests parse store = Json.arr requests)
    (hrow : ¬ i < (renderedRows found requests).length) :
    clickRow parse found status store i = none := by
  simp [clickRow, hl, hrow]

/-- A click that exists was made on a shown row of a stored list, and it
saves that list with the status assigned. -/
theorem clickRow_some (parse : JsonParse) (found : String → Bool) (status : String)
    (store store1 : Store) (i : Nat) (h : clickRow parse found status store i = some store1) :
    ∃ requests, loadRequests parse store = Json.arr requests ∧
      i < (renderedRows found requests).length ∧
      store1 = saveRequests (Json.arr (statusAt status requests i)) := by
  unfold clickRow at h
  split at h
  · rename_i requests hl
    split_ifs at h with hrow
    cases h
    exact ⟨requests, hl, hrow, rfl⟩
  · cases h

theorem loadRequests_arr_wf (store : Store) (requests : List Json)
    (hl : loadRequests JSON.parse store = Json.arr requests) : WFItems requests := by
  have h := loadRequests_wf store
  rw [hl] at h
  simpa [Json.WF] using h

theorem load_after_click (status : String) (store : Store) (requests : List Json) (i : Nat)
    (hl : loadRequests JSON.parse store = Json.arr requests) :
    loadRequests JSON.parse (saveRequests (Json.arr (statusAt status requests i))) =
      Json.arr (statusAt status requests i) := by
  apply loadRequests_saveRequests
  · exact parse_stringify_arr _
      (statusAt_wf status requests (loadRequests_arr_wf store requests hl) i)
  · rfl

theorem assignStatus_not_object (r : Json) (status : String) (h : ∀ props, r ≠ Json.obj props) :
    assignStatus r status = r := by
  cases r with
  | obj props => exact absurd rfl (h props)
  | null => rfl
  | bool b => rfl
  | num x => rfl
  | str s => rfl
  | arr items => rfl

theorem statusAt_not_object (status : String) (requests : List Json) :
    ∀ i r, requests[i]? = some r → (∀ props, r ≠ Json.obj props) →
      statusAt status requests i = requests := by
  induction requests with
  | nil => intro i r h; simp at h
  | cons q rest ih =>
    intro i r h hno
    cases i with
    | zero =>
      simp at h
      subst h
      simp [statusAt, assignStatus_not_object q status hno]
    | succ n =>
      simp at h
      simp [statusAt, ih n r h hno]
/-! ## Stores that hold records -/

theorem assignStatus_recordWith (request : LicenseRequest) (status status1 : String) :
    assignStatus (recordWith request status) status1 = recordWith request status1 := by
  have h1 : ¬ "name" = "status" := by decide
  have h2 : ¬ "email" = "status" := by decide
  have h3 : ¬ "use" = "status" := by decide
  have h4 : ¬ "duration" = "status" := by decide
  have h5 : ¬ "accepted" = "status" := by decide
  simp only [assignStatus, recordWith, setProp, h1, h2, h3, h4, h5, if_false, if_true]

theorem statusAt_recordsJson (status : String) (rs : List (LicenseRequest × String)) :
    ∀ i, statusAt status (recordsJson rs) i = recordsJson (setStatusAt status rs i) := by
  induction rs with
  | nil => intro i; rfl
  | cons p rest ih =>
    intro i
    cases i with
    | zero =>
      simp only [recordsJson, List.map_cons, statusAt, setStatusAt, assignStatus_recordWith]
    | succ n =>
      have := ih n
      simp only [recordsJson] at this
      simp only [recordsJson, List.map_cons, statusAt, setStatusAt, this]

theorem recordsJson_wf (rs : List (LicenseRequest × String)) : WFItems (recordsJson rs) := by
  apply wfItems_of_forall
  intro x hx
  simp only [recordsJson, List.mem_map] at hx
  obtain ⟨p, _, rfl⟩ := hx
  exact recordWith_wf p.1 p.2

/-- The reference reader reads back the text written for a list of records. -/
theorem parse_stringify_records (rs : List (LicenseRequest × String)) :
    JSON.parse (JSON.stringify (Json.arr (recordsJson rs))) = .ok (Json.arr (recordsJson rs)) :=
  parse_stringify_arr _ (recordsJson_wf rs)

theorem setStatusAt_length (status : String) (rs : List (LicenseRequest × String)) :
    ∀ i, (setStatusAt status rs i).length = rs.length := by
  induction rs with
  | nil => intro i; simp [setStatusAt]
  | cons p rest ih =>
    intro i
    cases i with
    | zero => simp [setStatusAt]
    | succ n => simp [setStatusAt, ih n]

theorem statusOf_recordsJson (rs : List (LicenseRequest × String)) (j : Nat) :
    (recordsJson rs)[j]?.bind statusOf = rs[j]?.map (fun p => Json.str p.2) := by
  simp only [recordsJson, List.getElem?_map]
  cases rs[j]? with
  | none => rfl
  | some p => simp [statusOf, recordWith, lookupProp]

theorem setStatusAt_same (status : String) (rs : List (LicenseRequest × String)) :
    ∀ i, i < rs.length → ((setStatusAt status rs i)[i]?).map (fun p => Json.str p.2) =
      some (Json.str status) := by
  induction rs with
  | nil => intro i h; simp at h
  | cons p rest ih =>
    intro i h
    cases i with
    | zero => simp [setStatusAt]
    | succ n =>
      simp at h
      simpa [setStatusAt] using ih n h

theorem setStatusAt_other (status : String) (rs : List (LicenseRequest × String)) :
    ∀ i j, j ≠ i → (setStatusAt status rs i)[j]? = rs[j]? := by
  induction rs with
  | nil => intro i j _; simp [setStatusAt]
  | cons q rest ih =>
    intro i j hj
    cases i with
    | zero =>
      cases j with
      | zero => exact absurd rfl hj
      | succ m => simp [setStatusAt]
    | succ n =>
      cases j with
      | zero => simp [setStatusAt]
      | succ m =>
        have : m ≠ n := fun e => hj (by rw [e])
        simpa [setStatusAt] using ih n m this

/-- The store after a click on a row of a store that holds records. -/
theorem click_records (found : String → Bool) (status : String) (store : Store)
    (rs : List (LicenseRequest × String)) (i : Nat)
    (hl : loadRequests JSON.parse store = Json.arr (recordsJson rs)) :
    loadRequests JSON.parse ((clickRow JSON.parse found status store i).getD store) =
      Json.arr (recordsJson
        (if i < (renderedRows found (recordsJson rs)).length then setStatusAt status rs i
          else rs)) := by
  by_cases hrow : i < (renderedRows found (recordsJson rs)).length
  · rw [clickRow_eq JSON.parse found status store _ i hl hrow]
    simp only [Option.getD_some, hrow, if_true]
    rw [load_after_click status store _ i hl, statusAt_recordsJson]
  · rw [clickRow_none JSON.parse found status store _ i hl hrow]
    simp [hrow, hl]

/-- The store after a submission to a store that holds records. -/
theorem submit_records (fetch : ClientCall → FetchResult) (store : Store)
    (rs : List (LicenseRequest × String)) (form : FormData)
    (hl : loadRequests JSON.parse store = Json.arr (recordsJson rs)) :
    loadRequests JSON.parse (submitHandler JSON.parse fetch store form).store =
      Json.arr (recordsJson
        (if (requestOf form).accepted then rs ++ [(requestOf form, "pending")] else rs)) := by
  by_cases hacc : (requestOf form).accepted = true
  · rw [submitHandler_accepted JSON.parse fetch store form _ hacc hl]
    have e : recordsJson rs ++ [recordOf (requestOf form)] =
        recordsJson (rs ++ [(requestOf form, "pending")]) := by
      simp [recordsJson, recordOf]
    rw [e]
    simp only [hacc, if_true]
    exact loadRequests_saveRequests JSON.parse (Json.arr _) (parse_stringify_records _) rfl
  · have hacc2 : (requestOf form).accepted = false := by simpa using hacc
    rw [submitHandler_declined JSON.parse fetch store form hacc2]
    simp [hacc2, hl]

/-- Every reachable store holds a list of records. -/
theorem run_records (found : String → Bool) (fetch : ClientCall → FetchResult) (ops : List Op) :
    ∀ (store : Store) (rs : List (LicenseRequest × String)),
    loadRequests JSON.parse store = Json.arr (recordsJson rs) →
    ∃ rs1, loadRequests JSON.parse (run JSON.parse found fetch store ops) =
      Json.arr (recordsJson rs1) := by
  induction ops with
  | nil => intro store rs hl; exact ⟨rs, hl⟩
  | cons op rest ih =>
    intro store rs hl
    simp only [run]
    cases op with
    | submit form => exact ih _ _ (submit_records fetch store rs form hl)
    | approve idx => exact ih _ _ (click_records found "approved" store rs idx hl)
    | reject idx => exact ih _ _ (click_records found "rejected" store rs idx hl)

theorem reachable_records (found : String → Bool) (fetch : ClientCall → FetchResult)
    (store : Store) (h : Reachable JSON.parse found fetch store) :
    ∃ rs, loadRequests JSON.parse store = Json.arr (recordsJson rs) := by
  obtain ⟨ops, rfl⟩ := h
  exact run_records found fetch ops none [] rfl

/-- The reference reader reads the text written for a list it returned as
that list. -/
theorem reference_rewrites_lists : ∀ (text : String) (items : List Json),
    JSON.parse text = .ok (Json.arr items) →
    ∃ items1, JSON.parse (JSON.stringify (Json.arr items)) = .ok (Json.arr items1) ∧
      JSON.stringify (Json.arr items1) = JSON.stringify (Json.arr items) := by
  intro text items h
  exact ⟨items, parse_stringify _ (parse_wf text _ h), rfl⟩

/-! ## The Netlify functions -/

theorem getField_of_ne_null (v : Json) (k : String) (h : v ≠ Json.null) :
    getField (some v) k = .ok (ownField v k) := by
  cases v <;> first | exact absurd rfl h | rfl

theorem getIndex0_of_ne_null (v : Json) (h : v ≠ Json.null) :
    getIndex0 (some v) = .ok (ownFirst v) := by
  cases v with
  | null => exact absurd rfl h
  | str s =>
    simp only [getIndex0, ownFirst]
    cases s.data <;> rfl
  | bool b => rfl
  | num n => rfl
  | arr items => rfl
  | obj props => rfl

theorem ne_null_of_truthy (v : Json) (h : v.truthy = true) : v ≠ Json.null := by
  intro e; subst e; simp [Json.truthy] at h

theorem truthy_some (v : Option Json) (h : truthy v = true) :
    ∃ j, v = some j ∧ j.truthy = true := by
  cases v with
  | none => simp [truthy] at h
  | some j => exact ⟨j, rfl, h⟩

theorem orEmpty_of_not_truthy (v : Option Json) (h : truthy v = false) : orEmpty v = Json.str "" := by
  cases v with
  | none => rfl
  | some j =>
    have : j.truthy = false := h
    simp [orEmpty, this]

theorem runHandler_parse_error (parse : JsonParse) (apiKey : Option String) (missing : String)
    (mkCall : String → Json → Outbound) (extract : Json → Except JsError Json)
    (fetch : Outbound → FetchResult) (event : Event) (e : JsError)
    (h : parsePrompt parse event = .error e) :
    runHandler parse apiKey missing mkCall extract fetch event = (errorResponse e, []) := by
  simp [runHandler, h]

theorem runHandler_missing (parse : JsonParse) (apiKey : Option String) (missing : String)
    (mkCall : String → Json → Outbound) (extract : Json → Except JsError Json)
    (fetch : Outbound → FetchResult) (event : Event) (prompt : Json)
    (h : parsePrompt parse event = .ok prompt) (hk : apiKey = none ∨ apiKey = some "") :
    runHandler parse apiKey missing mkCall extract fetch event = (missingKeyResponse missing, []) := by
  rcases hk with hk | hk <;> simp [runHandler, h, hk]

theorem runHandler_calls (parse : JsonParse) (key : String) (missing : String)
    (mkCall : String → Json → Outbound) (extract : Json → Except JsError Json)
    (fetch : Outbound → FetchResult) (event : Event) (prompt : Json)
    (h : parsePrompt parse event = .ok prompt) (hk : key ≠ "") :
    (runHandler parse (some key) missing mkCall extract fetch event).2 = [mkCall key prompt] := by
  simp only [runHandler, h, hk, if_false]
  split
  · rfl
  · split
    · rfl
    · split <;> rfl

theorem runHandler_ok (parse : JsonParse) (key : String) (missing : String)
    (mkCall : String → Json → Outbound) (extract : Json → Except JsError Json)
    (fetch : Outbound → FetchResult) (event : Event) (prompt data result : Json) (text : String)
    (h : parsePrompt parse event = .ok prompt) (hk : key ≠ "")
    (hf : fetch (mkCall key prompt) = .response text) (hd : parse text = .ok data)
    (he : extract data = .ok result) :
    runHandler parse (some key) missing mkCall extract fetch event =
      (okResponse result, [mkCall key prompt]) := by
  simp [runHandler, h, hk, hf, hd, he]

theorem runHandler_extract_error (parse : JsonParse) (key : String) (missing : String)
    (mkCall : String → Json → Outbound) (extract : Json → Except JsError Json)
    (fetch : Outbound → FetchResult) (event : Event) (prompt data : Json) (text : String)
    (e : JsError)
    (h : parsePrompt parse event = .ok prompt) (hk : key ≠ "")
    (hf : fetch (mkCall key prompt) = .response text) (hd : parse text = .ok data)
    (he : extract data = .error e) :
    runHandler parse (some key) missing mkCall extract fetch event =
      (errorResponse e, [mkCall key prompt]) := by
  simp [runHandler, h, hk, hf, hd, he]

theorem claude_handler_eq (parse : JsonParse) (env : Env) (fetch : Outbound → FetchResult)
    (event : Event) :
    generate_license_claude.handler parse env fetch event =
      runHandler parse env.ANTHROPIC_API_KEY "Missing ANTHROPIC_API_KEY environment variable."
        generate_license_claude.mkCall generate_license_claude.extract fetch event := by
  rfl

theorem chatgpt_handler_eq (parse : JsonParse) (env : Env) (fetch : Outbound → FetchResult)
    (event : Event) :
    generate_license_chatgpt.handler parse env fetch event =
      runHandler parse env.OPENAI_API_KEY "Missing OPENAI_API_KEY environment variable."
        generate_license_chatgpt.mkCall generate_license_chatgpt.extract fetch event := by
  rfl

theorem gemini_handler_eq (parse : JsonParse) (env : Env) (fetch : Outbound → FetchResult)
    (event : Event) :
    generate_license_gemini.handler parse env fetch event =
      runHandler parse env.GOOGLE_API_KEY "Missing GOOGLE_API_KEY environment variable."
        generate_license_gemini.mkCall generate_license_gemini.extract fetch event := by
  rfl

theorem falsy_no_field (v : Json) (k : String) (h : v.truthy = false) : ownField v k = none := by
  cases v <;> first | rfl | simp [Json.truthy] at h

theorem falsy_no_first (v : Json) (h : v.truthy = false) : ownFirst v = none := by
  cases v with
  | str s =>
    have hs : s = "" := by simpa [Json.truthy] using h
    subst hs
    rfl
  | null => rfl
  | bool b => rfl
  | num n => rfl
  | arr items => simp [Json.truthy] at h
  | obj props => simp [Json.truthy] at h

theorem not_truthy_eq_false (v : Json) (h : ¬ v.truthy = true) : v.truthy = false := by
  simpa using h

theorem claude_extract (data : Json) (hd : data ≠ Json.null) :
    generate_license_claude.extract data = .ok (orEmpty (claudePath data)) := by
  unfold generate_license_claude.extract claudePath
  rw [getField_of_ne_null data _ hd]
  cases hc : ownField data "content" with
  | none => simp [truthy, hc, orEmpty]
  | some c =>
    by_cases hct : c.truthy = true
    · simp only [truthy, hct, Bool.not_true, Bool.false_eq_true, if_false, Option.bind_some]
      rw [getIndex0_of_ne_null c (ne_null_of_truthy c hct)]
      cases hf : ownFirst c with
      | none => simp [truthy, hc, hct, hf, orEmpty]
      | some f =>
        by_cases hft : f.truthy = true
        · simp only [truthy, hft, Bool.not_true, Bool.false_eq_true, if_false, Option.bind_some]
          rw [getField_of_ne_null f _ (ne_null_of_truthy f hft)]
          cases ht : ownField f "text" with
          | none => simp [truthy, hc, hct, hf, hft, ht, orEmpty]
          | some t => by_cases htt : t.truthy = true <;> simp [truthy, hc, hct, hf, hft, ht, htt, orEmpty]
        · have h0 := not_truthy_eq_false f hft
          simp [truthy, hc, hct, hf, hft, h0, falsy_no_field f _ h0, orEmpty]
    · have h0 := not_truthy_eq_false c hct
      simp [truthy, hc, hct, h0, falsy_no_first c h0, orEmpty]

theorem chatgpt_extract (data : Json) (hd : data ≠ Json.null) :
    generate_license_chatgpt.extract data = .ok (orEmpty (chatgptPath data)) := by
  unfold generate_license_chatgpt.extract chatgptPath
  rw [getField_of_ne_null data _ hd]
  cases hc : ownField data "choices" with
  | none => simp [truthy, hc, orEmpty]
  | some c =>
    by_cases hct : c.truthy = true
    · simp only [truthy, hct, Bool.not_true, Bool.false_eq_true, if_false, Option.bind_some]
      rw [getIndex0_of_ne_null c (ne_null_of_truthy c hct)]
      cases hf : ownFirst c with
      | none => simp [truthy, hc, hct, hf, orEmpty]
      | some f =>
        by_cases hft : f.truthy = true
        · simp only [truthy, hft, Bool.not_true, Bool.false_eq_true, if_false, Option.bind_some]
          rw [getField_of_ne_null f _ (ne_null_of_truthy f hft)]
          cases hm : ownField f "message" with
          | none => simp [truthy, hc, hct, hf, hft, hm, orEmpty]
          | some m =>
            by_cases hmt : m.truthy = true
            · simp only [truthy, hmt, Bool.not_true, Bool.false_eq_true, if_false,
                Option.bind_some]
              rw [getField_of_ne_null m _ (ne_null_of_truthy m hmt)]
              cases ht : ownField m "content" with
              | none => simp [truthy, hc, hct, hf, hft, hm, hmt, ht, orEmpty]
              | some t => by_cases htt : t.truthy = true <;> simp [truthy, hc, hct, hf, hft, hm, hmt, ht, htt, orEmpty]
            · have h0 := not_truthy_eq_false m hmt
              simp [truthy, hc, hct, hf, hft, hm, hmt, h0, falsy_no_field m _ h0, orEmpty]
        · have h0 := not_truthy_eq_false f hft
          simp [truthy, hc, hct, hf, hft, h0, falsy_no_field f _ h0, orEmpty]
    · have h0 := not_truthy_eq_false c hct
      simp [truthy, hc, hct, h0, falsy_no_first c h0, orEmpty]

theorem gemini_extract_guard (data : Json) (hd : data ≠ Json.null) :
    generate_license_gemini.extract data =
      if truthy (geminiContent data) then generate_license_gemini.joinParts (geminiContent data)
      else .ok (Json.str "") := by
  unfold generate_license_gemini.extract geminiContent
  rw [getField_of_ne_null data _ hd]
  cases hc : ownField data "candidates" with
  | none => simp [truthy, hc]
  | some c =>
    by_cases hct : c.truthy = true
    · simp only [truthy, hct, Bool.not_true, Bool.false_eq_true, if_false, Option.bind_some]
      rw [getIndex0_of_ne_null c (ne_null_of_truthy c hct)]
      cases hf : ownFirst c with
      | none => simp [truthy, hc, hct, hf]
      | some f =>
        by_cases hft : f.truthy = true
        · simp only [truthy, hft, Bool.not_true, Bool.false_eq_true, if_false, Option.bind_some]
          rw [getField_of_ne_null f _ (ne_null_of_truthy f hft)]
          cases ht : ownField f "content" with
          | none => simp [truthy, hc, hct, hf, hft, ht]
          | some t => by_cases htt : t.truthy = true <;> simp [truthy, hc, hct, hf, hft, ht, htt]
        · have h0 := not_truthy_eq_false f hft
          simp [truthy, hc, hct, hf, hft, h0, falsy_no_field f _ h0]
    · have h0 := not_truthy_eq_false c hct
      simp [truthy, hc, hct, h0, falsy_no_first c h0]

theorem partString_text (p : Json) (s : String) (h : partString p = some s) :
    ∃ t, getField (some p) "text" = .ok t ∧
      (if truthy t then t.getD (Json.str "") else Json.str "") = Json.str s := by
  have hp : p ≠ Json.null := by
    intro e; subst e; simp [partString] at h
  refine ⟨ownField p "text", getField_of_ne_null p _ hp, ?_⟩
  have h2 : (match ownField p "text" with
      | none => some ""
      | some (Json.str s) => some s
      | some v => if v.truthy then none else some "") = some s := by
    cases p <;> first | exact absurd rfl hp | exact h
  cases ht : ownField p "text" with
  | none =>
    rw [ht] at h2
    simp at h2
    simp [truthy, h2]
  | some t =>
    rw [ht] at h2
    cases t with
    | str u =>
      simp at h2
      subst h2
      by_cases hu : u = ""
      · simp [truthy, Json.truthy, hu]
      · simp [truthy, Json.truthy, hu]
    | null => simp [Json.truthy] at h2; simp [truthy, Json.truthy, h2]
    | bool b =>
      cases b
      · simp [Json.truthy] at h2; simp [truthy, Json.truthy, h2]
      · simp [Json.truthy] at h2
    | num x =>
      by_cases hn : (Json.num x).truthy = true
      · simp [hn] at h2
      · have hn2 := not_truthy_eq_false _ hn
        simp [hn2] at h2
        simp [truthy, hn2, h2]
    | arr items => simp [Json.truthy] at h2
    | obj props => simp [Json.truthy] at h2

theorem partTexts_of_partStrings (ps : List Json) :
    ∀ texts, partStrings ps = some texts →
      generate_license_gemini.partTexts ps = .ok (texts.map Json.str) := by
  induction ps with
  | nil =>
    intro texts h
    simp [partStrings] at h
    subst h
    rfl
  | cons p rest ih =>
    intro texts h
    simp only [partStrings] at h
    cases hp : partString p with
    | none => simp [hp] at h
    | some s =>
      cases hr : partStrings rest with
      | none => simp [hp, hr] at h
      | some ts =>
        simp [hp, hr] at h
        subst h
        obtain ⟨t, ht1, ht2⟩ := partString_text p s hp
        simp [generate_license_gemini.partTexts, ht1, ih ts hr, ht2]

theorem joinWith_str_cons (sep s : String) (w : Json) (rest : List Json) :
    joinWith sep (Json.str s :: w :: rest) =
      match joinWith sep (w :: rest) with
      | .error e => .error e
      | .ok b => .ok (s ++ sep ++ b) := by
  rw [joinWith]
  · simp only [toStr]
    try rfl
  · intro h; cases h

theorem joinWith_empty_strs (texts : List String) :
    joinWith "" (texts.map Json.str) = .ok (concatAll texts) := by
  induction texts with
  | nil => rfl
  | cons s rest ih =>
    cases rest with
    | nil => simp [joinWith, toStr, concatAll]
    | cons u more =>
      simp only [List.map_cons] at ih
      simp only [List.map_cons]
      rw [joinWith_str_cons, ih]
      simp [concatAll]

theorem joinParts_no_parts (c : Json) (hc : c.truthy = true)
    (hp : truthy (ownField c "parts") = false) :
    generate_license_gemini.joinParts (some c) = .ok (Json.str "") := by
  unfold generate_license_gemini.joinParts
  rw [getField_of_ne_null c _ (ne_null_of_truthy c hc)]
  simp [hp, generate_license_gemini.partTexts, joinWith]

theorem joinParts_strings (c : Json) (ps : List Json) (texts : List String)
    (hc : c.truthy = true) (hp : ownField c "parts" = some (Json.arr ps))
    (ht : partStrings ps = some texts) :
    generate_license_gemini.joinParts (some c) = .ok (Json.str (concatAll texts)) := by
  unfold generate_license_gemini.joinParts
  rw [getField_of_ne_null c _ (ne_null_of_truthy c hc)]
  simp [hp, truthy, Json.truthy, partTexts_of_partStrings ps texts ht, joinWith_empty_strs]

/-- The callback of `map` on a part that is not `null`. -/
theorem partTexts_of_no_null (ps : List Json) (h : ∀ p ∈ ps, p ≠ Json.null) :
    generate_license_gemini.partTexts ps = .ok (ps.map partText) := by
  induction ps with
  | nil => rfl
  | cons p rest ih =>
    have hp : p ≠ Json.null := h p (by simp)
    have hr := ih (fun q hq => h q (by simp [hq]))
    simp only [generate_license_gemini.partTexts, getField_of_ne_null p _ hp, hr, List.map_cons,
      partText]
    cases ht : ownField p "text" with
    | none => simp [truthy, orEmpty]
    | some t => by_cases htt : t.truthy = true <;> simp [truthy, orEmpty, htt]

/-- The callback of `map` throws on a part that is `null`. -/
theorem partTexts_null (ps : List Json) (h : Json.null ∈ ps) :
    generate_license_gemini.partTexts ps = .error typeError := by
  induction ps with
  | nil => cases h
  | cons p rest ih =>
    by_cases hp : p = Json.null
    · subst hp
      simp [generate_license_gemini.partTexts, getField]
    · have hr : Json.null ∈ rest := by
        rcases List.mem_cons.1 h with h1 | h1
        · exact absurd h1.symm hp
        · exact h1
      simp [generate_license_gemini.partTexts, getField_of_ne_null p _ hp, ih hr]

theorem joinParts_list (c : Json) (ps : List Json) (hc : c.truthy = true)
    (hp : ownField c "parts" = some (Json.arr ps)) (hn : ∀ p ∈ ps, p ≠ Json.null) :
    generate_license_gemini.joinParts (some c) =
      match joinWith "" (ps.map partText) with
      | .ok s => .ok (Json.str s)
      | .error e => .error e := by
  unfold generate_license_gemini.joinParts
  rw [getField_of_ne_null c _ (ne_null_of_truthy c hc)]
  simp only [hp, truthy, Json.truthy, if_true, partTexts_of_no_null ps hn]
  cases joinWith "" (ps.map partText) <;> rfl

theorem joinParts_null_part (c : Json) (ps : List Json) (hc : c.truthy = true)
    (hp : ownField c "parts" = some (Json.arr ps)) (hn : Json.null ∈ ps) :
    generate_license_gemini.joinParts (some c) = .error typeError := by
  unfold generate_license_gemini.joinParts
  rw [getField_of_ne_null c _ (ne_null_of_truthy c hc)]
  simp only [hp, truthy, Json.truthy, if_true, partTexts_null ps hn]

theorem joinParts_not_list (c p : Json) (hc : c.truthy = true)
    (hp : ownField c "parts" = some p) (ht : p.truthy = true) (hl : ∀ ps, p ≠ Json.arr ps) :
    generate_license_gemini.joinParts (some c) = .error typeError := by
  unfold generate_license_gemini.joinParts
  rw [getField_of_ne_null c _ (ne_null_of_truthy c hc)]
  simp only [hp, truthy, ht, if_true]
  cases p with
  | arr ps => exact absurd rfl (hl ps)
  | null => rfl
  | bool b => rfl
  | num x => rfl
  | str t => rfl
  | obj props => rfl
/-! ## The request body and the client side -/

theorem parsePrompt_absent (parse : JsonParse)
    (h : parse "\x7b\x7d" = .ok (Json.obj [])) :
    parsePrompt parse ⟨none⟩ = .ok (Json.str "") := by
  simp [parsePrompt, h, getField, lookupProp]

theorem parsePrompt_empty (parse : JsonParse)
    (h : parse "\x7b\x7d" = .ok (Json.obj [])) :
    parsePrompt parse ⟨some ""⟩ = .ok (Json.str "") := by
  simp [parsePrompt, h, getField, lookupProp]

theorem parsePrompt_of_error (parse : JsonParse) (t : String) (e : JsError) (ht : t ≠ "")
    (h : parse t = .error e) : parsePrompt parse ⟨some t⟩ = .error e := by
  simp [parsePrompt, ht, h]

theorem parsePrompt_of_value (parse : JsonParse) (t : String) (v : Json) (ht : t ≠ "")
    (h : parse t = .ok v) (hv : v ≠ Json.null) :
    parsePrompt parse ⟨some t⟩ = .ok ((ownField v "prompt").getD (Json.str "")) := by
  simp only [parsePrompt, ht, if_false, h, getField_of_ne_null v _ hv]
  cases ownField v "prompt" <;> rfl

theorem parsePrompt_of_null (parse : JsonParse) (t : String) (ht : t ≠ "")
    (h : parse t = .ok Json.null) : parsePrompt parse ⟨some t⟩ = .error typeError := by
  simp [parsePrompt, ht, h, getField]

theorem wf_single (k : String) (v : Json) (hv : v.WF) (hk : isIndexKey k.data = false) :
    (Json.obj [(k, v)]).WF := by
  simp [Json.WF, WFProps, hv, hk]

theorem wf_str (s : String) : (Json.str s).WF := by
  simp [Json.WF]

theorem stringify_obj_ne_empty (k : String) (v : Json) :
    JSON.stringify (Json.obj [(k, v)]) ≠ "" := by
  intro h
  have h2 := congrArg String.data h
  simp [JSON.stringify, serialize] at h2

theorem parsePrompt_client (p : String) :
    parsePrompt JSON.parse ⟨some (JSON.stringify (Json.obj [("prompt", Json.str p)]))⟩ =
      .ok (Json.str p) := by
  rw [parsePrompt_of_value JSON.parse _ _ (stringify_obj_ne_empty _ _)
    (parse_stringify _ (wf_single _ _ (wf_str p) (by decide))) (by intro h; cases h)]
  simp [ownField, lookupProp]

theorem generateLicenseAI_calls (parse : JsonParse) (fetch : ClientCall → FetchResult)
    (data : LicenseRequest) (provider : String) (url : EndpointValue)
    (h : endpoints provider = some url) :
    (generateLicenseAI parse fetch data provider).2 =
      [⟨url, JSON.stringify (Json.obj [("prompt", Json.str (buildPrompt data))])⟩] := by
  simp only [generateLicenseAI, h]
  split
  · rfl
  · split
    · rfl
    · split <;> rfl

theorem generateLicenseAI_unknown (parse : JsonParse) (fetch : ClientCall → FetchResult)
    (data : LicenseRequest) (provider : String) (h : endpoints provider = none) :
    generateLicenseAI parse fetch data provider = (none, []) := by
  simp [generateLicenseAI, h]

theorem generateLicenseAI_no_result (parse : JsonParse) (fetch : ClientCall → FetchResult)
    (data : LicenseRequest) (provider : String) (url : EndpointValue) (text : String)
    (json : Json) (h : endpoints provider = some url)
    (hf : fetch ⟨url, JSON.stringify (Json.obj [("prompt", Json.str (buildPrompt data))])⟩ =
      .response text)
    (hp : parse text = .ok json) (hn : json ≠ Json.null)
    (hr : ownField json "result" = none) :
    generateLicenseAI parse fetch data provider =
      (none, [⟨url, JSON.stringify (Json.obj [("prompt", Json.str (buildPrompt data))])⟩]) := by
  simp [generateLicenseAI, h, hf, hp, getField_of_ne_null json _ hn, hr, truthy]

theorem siteFetch_claude (parse : JsonParse) (env : Env) (upstream : Outbound → FetchResult)
    (body : String) :
    siteFetch parse env upstream
        ⟨EndpointValue.path "/.netlify/functions/generate_license_claude", body⟩
      = .response (generate_license_claude.handler parse env upstream ⟨some body⟩).1.body := by
  simp only [siteFetch, if_true]

theorem static_contains_issued (data : LicenseRequest) :
    Contains (generateLicenseTextStatic data)
      ("Issued to: " ++ data.name ++ " <" ++ data.email ++ ">") :=
  ⟨"LICENSE AGREEMENT\n",
    "\n" ++ ("Duration: " ++ data.duration ++ "\n") ++ ("Intended use: " ++ data.use ++ "\n\n") ++
      ("Summary of the invention:\n" ++ summary) ++ grantOfRights ++
      "By accepting this license you agree to abide by any additional terms and conditions set forth by the licensor.",
    by
      have h : ">\n" = ">" ++ "\n" := by decide
      simp only [generateLicenseTextStatic, String.append_assoc, h]⟩

theorem static_contains_duration (data : LicenseRequest) :
    Contains (generateLicenseTextStatic data) ("Duration: " ++ data.duration) :=
  ⟨"LICENSE AGREEMENT\n" ++ ("Issued to: " ++ data.name ++ " <" ++ data.email ++ ">\n"),
    "\n" ++ ("Intended use: " ++ data.use ++ "\n\n") ++
      ("Summary of the invention:\n" ++ summary) ++ grantOfRights ++
      "By accepting this license you agree to abide by any additional terms and conditions set forth by the licensor.",
    by simp only [generateLicenseTextStatic, String.append_assoc]⟩

theorem submitHandler_shown_static (parse : JsonParse) (fetch : ClientCall → FetchResult)
    (store : Store) (items : List Json) (form : FormData) (calls : List ClientCall)
    (hacc : (requestOf form).accepted = true)
    (hstore : loadRequests parse store = Json.arr items)
    (hai : generateLicenseAI parse fetch (requestOf form) "claude" = (none, calls)) :
    (submitHandler parse fetch store form).result =
      SubmitResult.shown (Json.str (generateLicenseTextStatic (requestOf form))) := by
  simp only [submitHandler, hacc, Bool.not_true, Bool.false_eq_true, if_false, hstore, hai]

set_option maxRecDepth 100000

/-! ## The static licence template -/

/-- C1. For every request (four strings), `generateLicenseTextStatic` returns a
text that contains the lines `Issued to: <name> <<email>>`, `Duration:
<duration>` and `Intended use: <use>` with the field values verbatim, each of
the four values, the fixed summary paragraph and the fixed grant-of-rights
paragraph; two requests with equal name, email, use and duration give the same
text.  The function is total: it has no failure path. -/
theorem generateLicenseTextStatic_contract (data other : LicenseRequest) :
    Contains (generateLicenseTextStatic data)
        ("Issued to: " ++ data.name ++ " <" ++ data.email ++ ">\n") ∧
      Contains (generateLicenseTextStatic data) ("Duration: " ++ data.duration ++ "\n") ∧
      Contains (generateLicenseTextStatic data) ("Intended use: " ++ data.use ++ "\n") ∧
      Contains (generateLicenseTextStatic data) data.name ∧
      Contains (generateLicenseTextStatic data) data.email ∧
      Contains (generateLicenseTextStatic data) data.duration ∧
      Contains (generateLicenseTextStatic data) data.use ∧
      Contains (generateLicenseTextStatic data)
        ("The licensed invention is a blockchain‑based dynamic consent management system for synthetic media. " ++
         "It uses smart contracts, hierarchical consent structures, zero‑knowledge proofs and decentralized oracles " ++
         "to ensure secure and flexible governance of synthetic media lifecycle.\n\n") ∧
      Contains (generateLicenseTextStatic data)
        ("Grant of Rights: The licensor hereby grants the licensee a non‑exclusive, non‑transferable license to use the " ++
         "invention described above for the stated intended use during the specified duration. All other rights are reserved.\n\n") ∧
      (data.name = other.name → data.email = other.email → data.use = other.use →
        data.duration = other.duration →
        generateLicenseTextStatic data = generateLicenseTextStatic other) := by
  refine ⟨?_, ?_, ?_, ?_, ?_, ?_, ?_, ?_, ?_, ?_⟩
  · exact ⟨"LICENSE AGREEMENT\n",
      ("Duration: " ++ data.duration ++ "\n") ++ ("Intended use: " ++ data.use ++ "\n\n") ++
        ("Summary of the invention:\n" ++ summary) ++ grantOfRights ++
        "By accepting this license you agree to abide by any additional terms and conditions set forth by the licensor.",
      by simp only [generateLicenseTextStatic, String.append_assoc]⟩
  · exact ⟨"LICENSE AGREEMENT\n" ++ ("Issued to: " ++ data.name ++ " <" ++ data.email ++ ">\n"),
      ("Intended use: " ++ data.use ++ "\n\n") ++
        ("Summary of the invention:\n" ++ summary) ++ grantOfRights ++
        "By accepting this license you agree to abide by any additional terms and conditions set forth by the licensor.",
      by simp only [generateLicenseTextStatic, String.append_assoc]⟩
  · exact ⟨"LICENSE AGREEMENT\n" ++ ("Issued to: " ++ data.name ++ " <" ++ data.email ++ ">\n") ++
        ("Duration: " ++ data.duration ++ "\n"),
      "\n" ++ ("Summary of the invention:\n" ++ summary) ++ grantOfRights ++
        "By accepting this license you agree to abide by any additional terms and conditions set forth by the licensor.",
      by
        have h : "\n\n" = "\n" ++ "\n" := by decide
        simp only [generateLicenseTextStatic, String.append_assoc, h]⟩
  · exact ⟨"LICENSE AGREEMENT\n" ++ "Issued to: ",
      " <" ++ data.email ++ ">\n" ++ ("Duration: " ++ data.duration ++ "\n") ++
        ("Intended use: " ++ data.use ++ "\n\n") ++
        ("Summary of the invention:\n" ++ summary) ++ grantOfRights ++
        "By accepting this license you agree to abide by any additional terms and conditions set forth by the licensor.",
      by simp only [generateLicenseTextStatic, String.append_assoc]⟩
  · exact ⟨"LICENSE AGREEMENT\n" ++ "Issued to: " ++ data.name ++ " <",
      ">\n" ++ ("Duration: " ++ data.duration ++ "\n") ++
        ("Intended use: " ++ data.use ++ "\n\n") ++
        ("Summary of the invention:\n" ++ summary) ++ grantOfRights ++
        "By accepting this license you agree to abide by any additional terms and conditions set forth by the licensor.",
      by simp only [generateLicenseTextStatic, String.append_assoc]⟩
  · exact ⟨"LICENSE AGREEMENT\n" ++ ("Issued to: " ++ data.name ++ " <" ++ data.email ++ ">\n") ++
        "Duration: ",
      "\n" ++ ("Intended use: " ++ data.use ++ "\n\n") ++
        ("Summary of the invention:\n" ++ summary) ++ grantOfRights ++
        "By accepting this license you agree to abide by any additional terms and conditions set forth by the licensor.",
      by simp only [generateLicenseTextStatic, String.append_assoc]⟩
  · exact ⟨"LICENSE AGREEMENT\n" ++ ("Issued to: " ++ data.name ++ " <" ++ data.email ++ ">\n") ++
        ("Duration: " ++ data.duration ++ "\n") ++ "Intended use: ",
      "\n\n" ++ ("Summary of the invention:\n" ++ summary) ++ grantOfRights ++
        "By accepting this license you agree to abide by any additional terms and conditions set forth by the licensor.",
      by simp only [generateLicenseTextStatic, String.append_assoc]⟩
  · exact ⟨"LICENSE AGREEMENT\n" ++ ("Issued to: " ++ data.name ++ " <" ++ data.email ++ ">\n") ++
        ("Duration: " ++ data.duration ++ "\n") ++ ("Intended use: " ++ data.use ++ "\n\n") ++
        "Summary of the invention:\n",
      grantOfRights ++
        "By accepting this license you agree to abide by any additional terms and conditions set forth by the licensor.",
      by simp only [generateLicenseTextStatic, summary, String.append_assoc]⟩
  · exact ⟨"LICENSE AGREEMENT\n" ++ ("Issued to: " ++ data.name ++ " <" ++ data.email ++ ">\n") ++
        ("Duration: " ++ data.duration ++ "\n") ++ ("Intended use: " ++ data.use ++ "\n\n") ++
        ("Summary of the invention:\n" ++ summary),
      "By accepting this license you agree to abide by any additional terms and conditions set forth by the licensor.",
      by simp only [generateLicenseTextStatic, grantOfRights, String.append_assoc]⟩
  · intro h1 h2 h3 h4
    simp only [generateLicenseTextStatic, h1, h2, h3, h4]

/-- C1, at a concrete input: two requests that differ only in the acceptance
flag give the same text. -/
theorem generateLicenseTextStatic_contract_witness :
    generateLicenseTextStatic ⟨"Ada", "ada@x.com", "research", "1 year", true⟩ =
      generateLicenseTextStatic ⟨"Ada", "ada@x.com", "research", "1 year", false⟩ :=
  (generateLicenseTextStatic_contract ⟨"Ada", "ada@x.com", "research", "1 year", true⟩
    ⟨"Ada", "ada@x.com", "research", "1 year", false⟩).2.2.2.2.2.2.2.2.2 rfl rfl rfl rfl
/-! ## Loading and saving -/

/-- C5, at the failing input: with the entry holding the JSON text of an empty
object, of a number or of a string, `loadRequests` returns that value, which is
not a list, and the submit handler then stops with an uncaught error at
`requests.push` without saving the accepted request. -/
theorem loadRequests_not_a_list :
    loadRequests JSON.parse (some "\x7b\x7d") = Json.obj [] ∧
      loadRequests JSON.parse (some "5") = Json.num 5 ∧
      loadRequests JSON.parse (some "\"x\"") = Json.str "x" ∧
      (submitHandler JSON.parse (fun _ => FetchResult.rejected typeError) (some "\x7b\x7d")
        ⟨some "Ada", some "ada@x.com", some "research", some "1 year", some "on"⟩).result =
        SubmitResult.failed typeError ∧
      (submitHandler JSON.parse (fun _ => FetchResult.rejected typeError) (some "\x7b\x7d")
        ⟨some "Ada", some "ada@x.com", some "research", some "1 year", some "on"⟩).store =
        some "\x7b\x7d" := by
  refine ⟨by rfl, by rfl, by rfl, by rfl, by decide⟩

/-- C6, refuted as stated: from an absent entry, and from an entry that does
not parse, `saveRequests(loadRequests())` writes the text of the empty list,
so the persisted value changes. -/
theorem resave_changes_store :
    saveRequests (loadRequests JSON.parse none) = some "[]" ∧
      saveRequests (loadRequests JSON.parse (some "oops")) = some "[]" ∧
      decide (saveRequests (loadRequests JSON.parse none) = (none : Store)) = false ∧
      decide (saveRequests (loadRequests JSON.parse (some "oops")) = some "oops") = false := by
  refine ⟨by decide, by decide, by decide, by decide⟩

/-- C6, amended, for every `JSON.parse` that reads the text `null` as `null`,
reads back the text written for a list of the records of the program, and
reads the text written for a list it returned as a list written the same way.
When the entry is absent, does not parse, or parses to a falsy value,
`saveRequests(loadRequests())` writes the text `[]`.  When the entry parses to
a truthy value, a list in particular, it writes the JSON text of that value,
so the entry is left unchanged exactly when it is that text already; this is
the case of every entry that `saveRequests` wrote for a list of records.  When
the entry is absent, does not parse, or parses to a falsy value or to a list,
doing it twice leaves the same persisted value as doing it once. -/
theorem resave_idempotent (parse : JsonParse) (store : Store)
    (hnull : parse "null" = .ok Json.null)
    (hrecords : ∀ rs, parse (JSON.stringify (Json.arr (recordsJson rs))) =
      .ok (Json.arr (recordsJson rs)))
    (hlists : ∀ text items, parse text = .ok (Json.arr items) →
      ∃ items1, parse (JSON.stringify (Json.arr items)) = .ok (Json.arr items1) ∧
        JSON.stringify (Json.arr items1) = JSON.stringify (Json.arr items)) :
    ((store = none ∨ (∃ t e, store = some t ∧ parse t = .error e) ∨
        (∃ t v, store = some t ∧ parse t = .ok v ∧ v.truthy = false)) →
      saveRequests (loadRequests parse store) = some "[]") ∧
    (∀ t v, store = some t → parse t = .ok v → v.truthy = true →
      saveRequests (loadRequests parse store) = some (JSON.stringify v) ∧
      (saveRequests (loadRequests parse store) = store ↔ JSON.stringify v = t)) ∧
    (∀ rs, store = saveRequests (Json.arr (recordsJson rs)) →
      saveRequests (loadRequests parse store) = store) ∧
    ((store = none ∨ (∃ t e, store = some t ∧ parse t = .error e) ∨
        (∃ t v, store = some t ∧ parse t = .ok v ∧
          (v.truthy = false ∨ ∃ items, v = Json.arr items))) →
      saveRequests (loadRequests parse (saveRequests (loadRequests parse store))) =
        saveRequests (loadRequests parse store)) := by
  have hnil : loadRequests parse (some "[]") = Json.arr [] :=
    loadRequests_of_parse_arr parse "[]" [] (hrecords [])
  have hempty : (store = none ∨ (∃ t e, store = some t ∧ parse t = .error e) ∨
        (∃ t v, store = some t ∧ parse t = .ok v ∧ v.truthy = false)) →
      loadRequests parse store = Json.arr [] := by
    rintro (h | ⟨t, e, h, he⟩ | ⟨t, v, h, hv, hf⟩)
    · subst h; exact loadRequests_absent parse hnull
    · subst h; exact loadRequests_of_parse_error parse t e he
    · subst h; exact loadRequests_of_parse_falsy parse t v hv hf
  have htwice : loadRequests parse store = Json.arr [] →
      saveRequests (loadRequests parse (saveRequests (loadRequests parse store))) =
        saveRequests (loadRequests parse store) := by
    intro h
    rw [h]
    have e : saveRequests (Json.arr []) = some "[]" := by decide
    rw [e, hnil]
    exact e
  refine ⟨?_, ?_, ?_, ?_⟩
  · intro h
    rw [hempty h]
    decide
  · intro t v hs hp ht
    subst hs
    rw [loadRequests_of_parse_truthy parse t v hp ht]
    refine ⟨rfl, ?_⟩
    simp only [saveRequests, Option.some.injEq]
  · intro rs hs
    subst hs
    rw [loadRequests_saveRequests parse _ (hrecords rs) rfl]
  · rintro (h | ⟨t, e, h, he⟩ | ⟨t, v, h, hv, hf | ⟨items, hi⟩⟩)
    · exact htwice (hempty (Or.inl h))
    · exact htwice (hempty (Or.inr (Or.inl ⟨t, e, h, he⟩)))
    · exact htwice (hempty (Or.inr (Or.inr ⟨t, v, h, hv, hf⟩)))
    · subst h hi
      obtain ⟨items1, h1, h2⟩ := hlists t items hv
      rw [loadRequests_of_parse_arr parse t items hv]
      have h3 : loadRequests parse (saveRequests (Json.arr items)) = Json.arr items1 :=
        loadRequests_of_parse_arr parse _ items1 h1
      rw [h3]
      simp only [saveRequests, h2]

/-- C6, amended, at concrete inputs with the reference reader: the absent
entry becomes `[]`, and the text written for one pending record is left
unchanged. -/
theorem resave_idempotent_witness :
    saveRequests (loadRequests JSON.parse none) = some "[]" ∧
    saveRequests (loadRequests JSON.parse
      (saveRequests (Json.arr (recordsJson
        [(⟨"Ada", "ada@x.com", "research", "1 year", true⟩, "pending")])))) =
      saveRequests (Json.arr (recordsJson
        [(⟨"Ada", "ada@x.com", "research", "1 year", true⟩, "pending")])) :=
  ⟨(resave_idempotent JSON.parse none (by rfl) parse_stringify_records
      reference_rewrites_lists).1 (Or.inl rfl),
   (resave_idempotent JSON.parse
      (saveRequests (Json.arr (recordsJson
        [(⟨"Ada", "ada@x.com", "research", "1 year", true⟩, "pending")])))
      (by rfl) parse_stringify_records reference_rewrites_lists).2.2.1 _ rfl⟩

/-! ## Submissions -/

/-- C7. Starting from an empty store, after any sequence of submissions the
stored list is exactly the list of the accepted ones (those whose `accept`
entry is `on`), in submission order with the newest last and duplicates kept;
each stored record holds the trimmed name, email and use and the duration of
its submission, `accepted: true` and the status `pending`.  The length of the
stored list is therefore the number of accepted submissions.  A submission
that is not accepted leaves the store unchanged. -/
theorem submitAll_appends (fetch : ClientCall → FetchResult) (forms : List FormData) :
    loadRequests JSON.parse (submitAll JSON.parse fetch none forms) =
        Json.arr ((forms.filter (fun f => decide (f.accept = some "on"))).map (fun f =>
          Json.obj [("name", Json.str (trimmedEntry f.name)),
            ("email", Json.str (trimmedEntry f.email)),
            ("use", Json.str (trimmedEntry f.use)),
            ("duration", Json.str (f.duration.getD "")),
            ("accepted", Json.bool true),
            ("status", Json.str "pending")])) ∧
      (∃ requests, loadRequests JSON.parse (submitAll JSON.parse fetch none forms) =
          Json.arr requests ∧
        requests.length = (forms.filter (fun f => decide (f.accept = some "on"))).length) ∧
      (∀ (parse : JsonParse) (store : Store) (form : FormData), form.accept ≠ some "on" →
        (submitHandler parse fetch store form).store = store) := by
  have hmain : loadRequests JSON.parse (submitAll JSON.parse fetch none forms) =
        Json.arr ((forms.filter (fun f => decide (f.accept = some "on"))).map (fun f =>
          Json.obj [("name", Json.str (trimmedEntry f.name)),
            ("email", Json.str (trimmedEntry f.email)),
            ("use", Json.str (trimmedEntry f.use)),
            ("duration", Json.str (f.duration.getD "")),
            ("accepted", Json.bool true),
            ("status", Json.str "pending")])) := by
    rw [submitAll_load fetch forms none [] (by simp [WFItems]) loadRequests_none,
      accepted_records forms]
    rfl
  refine ⟨hmain, ⟨_, hmain, by simp⟩, ?_⟩
  intro parse store form h
  exact submitHandler_declined parse fetch store form (by simp [requestOf, h])

/-- C7, at a concrete input: two equal accepted submissions around one that is
not accepted give a stored list of two equal pending records, with the fields
trimmed. -/
theorem submitAll_appends_witness :
    loadRequests JSON.parse (submitAll JSON.parse (fun _ => FetchResult.rejected typeError) none
        [⟨some "  Ada ", some "ada@x.com", some "research", some "1 year", some "on"⟩,
         ⟨some "Bob", some "bob@x.com", some "study", some "1 year", none⟩,
         ⟨some "  Ada ", some "ada@x.com", some "research", some "1 year", some "on"⟩]) =
      Json.arr [
        Json.obj [("name", Json.str "Ada"), ("email", Json.str "ada@x.com"),
          ("use", Json.str "research"), ("duration", Json.str "1 year"),
          ("accepted", Json.bool true), ("status", Json.str "pending")],
        Json.obj [("name", Json.str "Ada"), ("email", Json.str "ada@x.com"),
          ("use", Json.str "research"), ("duration", Json.str "1 year"),
          ("accepted", Json.bool true), ("status", Json.str "pending")]] :=
  (submitAll_appends (fun _ => FetchResult.rejected typeError)
    [⟨some "  Ada ", some "ada@x.com", some "research", some "1 year", some "on"⟩,
     ⟨some "Bob", some "bob@x.com", some "study", some "1 year", none⟩,
     ⟨some "  Ada ", some "ada@x.com", some "research", some "1 year", some "on"⟩]).1.trans
    (by rfl)
/-! ## Admin actions -/

/-- C8, refuted as stated: the stored list `[5]` has one row shown, and a click
on `Approve` in that row persists the text `[5]`, a list whose record of index
`0` has no status. -/
theorem click_on_number_entry :
    loadRequests JSON.parse (some "[5]") = Json.arr [Json.num 5] ∧
    (renderRequestsTable JSON.parse (fun _ => true) (some "[5]")).length = 1 ∧
    clickApprove JSON.parse (fun _ => true) (some "[5]") 0 = some (some "[5]") ∧
    statusOf (Json.num 5) = none := by
  refine ⟨by rfl, by rfl, by rfl, by rfl⟩

/-- C8, amended: for every stored list and every index `i` whose row is
shown, a click on `Approve` (or `Reject`) in that row persists a list of the
same length.  When record `i` is an object, it has status `approved` (or
`rejected`) in the persisted list and its other fields are unchanged, and
every record at another index is unchanged.  When record `i` is not an object,
the persisted list is the stored list as it was read.  This holds for every
`JSON.parse` and whatever rows the browser shows. -/
theorem click_updates_only_row (parse : JsonParse) (found : String → Bool) (store : Store)
    (requests : List Json) (i : Nat) (status : String) (click : Store → Nat → Option Store)
    (hl : loadRequests parse store = Json.arr requests)
    (hrow : i < (renderRequestsTable parse found store).length)
    (hc : (status = "approved" ∧ click = clickApprove parse found) ∨
      (status = "rejected" ∧ click = clickReject parse found)) :
    i < requests.length ∧
    (∀ props, requests[i]? = some (Json.obj props) →
      ∃ requests1 props1,
        click store i = some (saveRequests (Json.arr requests1)) ∧
        requests1.length = requests.length ∧
        requests1[i]? = some (Json.obj props1) ∧
        lookupProp props1 "status" = some (Json.str status) ∧
        (∀ k, k ≠ "status" → lookupProp props1 k = lookupProp props k) ∧
        (∀ j, j ≠ i → requests1[j]? = requests[j]?)) ∧
    (∀ r, requests[i]? = some r → (∀ props, r ≠ Json.obj props) →
      click store i = some (saveRequests (Json.arr requests))) := by
  have hrow2 : i < (renderedRows found requests).length := by
    simpa [renderRequestsTable, hl] using hrow
  have hclick : click store i = clickRow parse found status store i := by
    rcases hc with ⟨h1, h2⟩ | ⟨h1, h2⟩
    · subst h1 h2; rfl
    · subst h1 h2; rfl
  refine ⟨lt_of_lt_of_le hrow2 (renderedRows_length_le found requests), ?_, ?_⟩
  · intro props hrec
    refine ⟨statusAt status requests i, setProp props "status" (Json.str status), ?_, ?_, ?_,
      ?_, ?_, ?_⟩
    · rw [hclick, clickRow_eq parse found status store requests i hl hrow2]
    · exact statusAt_length status requests i
    · rw [statusAt_same status requests i _ hrec]
      rfl
    · exact lookupProp_setProp_same _ _ _
    · intro k hk
      exact lookupProp_setProp_other _ _ _ _ hk
    · intro j hj
      exact statusAt_other status requests i j hj
  · intro r hrec hno
    rw [hclick, clickRow_eq parse found status store requests i hl hrow2,
      statusAt_not_object status requests i r hrec hno]

/-- C8, amended, at a concrete input with the reference reader: rejecting the
second of two stored records. -/
theorem click_updates_only_row_witness :
    ∃ requests1 props1,
      clickReject JSON.parse (fun _ => true)
        (some "[\x7b\"name\":\"Ada\"\x7d,\x7b\"name\":\"Bob\",\"status\":\"pending\"\x7d]") 1
        = some (saveRequests (Json.arr requests1)) ∧
      requests1.length = 2 ∧
      requests1[1]? = some (Json.obj props1) ∧
      lookupProp props1 "status" = some (Json.str "rejected") ∧
      (∀ k, k ≠ "status" → lookupProp props1 k =
        lookupProp [("name", Json.str "Bob"), ("status", Json.str "pending")] k) ∧
      (∀ j, j ≠ 1 → requests1[j]? =
        [Json.obj [("name", Json.str "Ada")],
         Json.obj [("name", Json.str "Bob"), ("status", Json.str "pending")]][j]?) :=
  (click_updates_only_row JSON.parse (fun _ => true)
    (some "[\x7b\"name\":\"Ada\"\x7d,\x7b\"name\":\"Bob\",\"status\":\"pending\"\x7d]")
    [Json.obj [("name", Json.str "Ada")],
     Json.obj [("name", Json.str "Bob"), ("status", Json.str "pending")]]
    1 "rejected" (clickReject JSON.parse (fun _ => true))
    (by rfl) (by decide) (Or.inr ⟨rfl, rfl⟩)).2.1
    [("name", Json.str "Bob"), ("status", Json.str "pending")] (by rfl)

/-- C9, refuted as stated: from the empty store, after one accepted submission
and a click on `Reject`, the record has status `rejected`; a click on
`Approve` then moves it to `approved`. -/
theorem rejected_record_can_be_approved :
    Reachable JSON.parse (fun _ => true) (fun _ => FetchResult.rejected typeError)
      (run JSON.parse (fun _ => true) (fun _ => FetchResult.rejected typeError) none
        [Op.submit ⟨some "Ada", some "ada@x.com", some "research", some "1 year", some "on"⟩,
         Op.reject 0]) ∧
    loadRequests JSON.parse
      (run JSON.parse (fun _ => true) (fun _ => FetchResult.rejected typeError) none
        [Op.submit ⟨some "Ada", some "ada@x.com", some "research", some "1 year", some "on"⟩,
         Op.reject 0]) =
      Json.arr [recordWith ⟨"Ada", "ada@x.com", "research", "1 year", true⟩ "rejected"] ∧
    loadRequests JSON.parse
      (step JSON.parse (fun _ => true) (fun _ => FetchResult.rejected typeError)
        (run JSON.parse (fun _ => true) (fun _ => FetchResult.rejected typeError) none
          [Op.submit ⟨some "Ada", some "ada@x.com", some "research", some "1 year", some "on"⟩,
           Op.reject 0]) (Op.approve 0)) =
      Json.arr [recordWith ⟨"Ada", "ada@x.com", "research", "1 year", true⟩ "approved"] := by
  refine ⟨⟨_, rfl⟩, by rfl, by rfl⟩

/-- C9, amended: in every reachable state of the store, holding the list
`requests`, the status of a stored record changes only by an admin action on
the row of that record.  A click on `Approve` in the row of index `i` gives a
list of the same length in which record `i` has status `approved`, whatever
its status was, with its other fields unchanged and every other record
unchanged; a click on `Reject` does the same with `rejected`.  A submission
leaves every stored record unchanged: when it is not accepted the store is
unchanged, and when it is accepted exactly one record is appended, with status
`pending`. -/
theorem status_changes_only_by_admin (found : String → Bool) (fetch : ClientCall → FetchResult)
    (store : Store) (h : Reachable JSON.parse found fetch store) :
    ∃ requests,
      loadRequests JSON.parse store = Json.arr requests ∧
      (∀ i store1, clickApprove JSON.parse found store i = some store1 →
        ∃ requests1, loadRequests JSON.parse store1 = Json.arr requests1 ∧
          requests1.length = requests.length ∧ i < requests.length ∧
          requests1[i]?.bind statusOf = some (Json.str "approved") ∧
          (∀ k, k ≠ "status" →
            requests1[i]?.bind (fun r => ownField r k) =
              requests[i]?.bind (fun r => ownField r k)) ∧
          (∀ j, j ≠ i → requests1[j]? = requests[j]?)) ∧
      (∀ i store1, clickReject JSON.parse found store i = some store1 →
        ∃ requests1, loadRequests JSON.parse store1 = Json.arr requests1 ∧
          requests1.length = requests.length ∧ i < requests.length ∧
          requests1[i]?.bind statusOf = some (Json.str "rejected") ∧
          (∀ k, k ≠ "status" →
            requests1[i]?.bind (fun r => ownField r k) =
              requests[i]?.bind (fun r => ownField r k)) ∧
          (∀ j, j ≠ i → requests1[j]? = requests[j]?)) ∧
      (∀ form, form.accept ≠ some "on" →
        (submitHandler JSON.parse fetch store form).store = store) ∧
      (∀ form, form.accept = some "on" →
        ∃ record, loadRequests JSON.parse (submitHandler JSON.parse fetch store form).store =
            Json.arr (requests ++ [record]) ∧
          statusOf record = some (Json.str "pending")) := by
  obtain ⟨rs, hl⟩ := reachable_records found fetch store h
  have hclick : ∀ (status : String) (i : Nat) (store1 : Store),
      clickRow JSON.parse found status store i = some store1 →
      ∃ requests1, loadRequests JSON.parse store1 = Json.arr requests1 ∧
        requests1.length = (recordsJson rs).length ∧ i < (recordsJson rs).length ∧
        requests1[i]?.bind statusOf = some (Json.str status) ∧
        (∀ k, k ≠ "status" →
          requests1[i]?.bind (fun r => ownField r k) =
            (recordsJson rs)[i]?.bind (fun r => ownField r k)) ∧
        (∀ j, j ≠ i → requests1[j]? = (recordsJson rs)[j]?) := by
    intro status i store1 hc
    obtain ⟨requests, hl2, hrow, hs⟩ := clickRow_some JSON.parse found status store store1 i hc
    rw [hl] at hl2
    cases hl2
    have hlen : i < (recordsJson rs).length :=
      lt_of_lt_of_le hrow (renderedRows_length_le found _)
    have hi : i < rs.length := by simpa [recordsJson] using hlen
    refine ⟨statusAt status (recordsJson rs) i, ?_, statusAt_length _ _ _, hlen, ?_, ?_, ?_⟩
    · rw [hs]
      exact load_after_click status store _ i hl
    · rw [statusAt_recordsJson, statusOf_recordsJson]
      exact setStatusAt_same status rs i hi
    · intro k hk
      have hget : (recordsJson rs)[i]? = some (recordWith rs[i].1 rs[i].2) := by
        simp [recordsJson, hi]
      rw [statusAt_same status (recordsJson rs) i _ hget, hget]
      simp only [Option.bind_some, assignStatus, recordWith, ownField]
      exact lookupProp_setProp_other _ _ _ _ hk
    · intro j hj
      exact statusAt_other status _ i j hj
  refine ⟨recordsJson rs, hl, ?_, ?_, ?_, ?_⟩
  · intro i store1 hc
    exact hclick "approved" i store1 hc
  · intro i store1 hc
    exact hclick "rejected" i store1 hc
  · intro form hf
    exact submitHandler_declined JSON.parse fetch store form (by simp [requestOf, hf])
  · intro form hf
    have hacc : (requestOf form).accepted = true := by simp [requestOf, hf]
    refine ⟨recordOf (requestOf form), ?_, ?_⟩
    · have h2 := submit_records fetch store rs form hl
      rw [h2]
      simp [hacc, recordsJson, recordOf]
    · simp [statusOf, recordOf, recordWith, lookupProp]

/-- C9, amended, at a concrete input with the reference reader: the store after
one accepted submission and a click on `Reject` is reachable, and the facts
above hold of it. -/
theorem status_changes_only_by_admin_witness :
    ∃ requests,
      loadRequests JSON.parse
        (run JSON.parse (fun _ => true) (fun _ => FetchResult.rejected typeError) none
          [Op.submit ⟨some "Ada", some "ada@x.com", some "research", some "1 year", some "on"⟩,
           Op.reject 0]) = Json.arr requests ∧
      (∀ i store1, clickApprove JSON.parse (fun _ => true)
          (run JSON.parse (fun _ => true) (fun _ => FetchResult.rejected typeError) none
            [Op.submit ⟨some "Ada", some "ada@x.com", some "research", some "1 year", some "on"⟩,
             Op.reject 0]) i = some store1 →
        ∃ requests1, loadRequests JSON.parse store1 = Json.arr requests1 ∧
          requests1.length = requests.length ∧ i < requests.length ∧
          requests1[i]?.bind statusOf = some (Json.str "approved") ∧
          (∀ k, k ≠ "status" →
            requests1[i]?.bind (fun r => ownField r k) =
              requests[i]?.bind (fun r => ownField r k)) ∧
          (∀ j, j ≠ i → requests1[j]? = requests[j]?)) ∧
      (∀ i store1, clickReject JSON.parse (fun _ => true)
          (run JSON.parse (fun _ => true) (fun _ => FetchResult.rejected typeError) none
            [Op.submit ⟨some "Ada", some "ada@x.com", some "research", some "1 year", some "on"⟩,
             Op.reject 0]) i = some store1 →
        ∃ requests1, loadRequests JSON.parse store1 = Json.arr requests1 ∧
          requests1.length = requests.length ∧ i < requests.length ∧
          requests1[i]?.bind statusOf = some (Json.str "rejected") ∧
          (∀ k, k ≠ "status" →
            requests1[i]?.bind (fun r => ownField r k) =
              requests[i]?.bind (fun r => ownField r k)) ∧
          (∀ j, j ≠ i → requests1[j]? = requests[j]?)) ∧
      (∀ form, form.accept ≠ some "on" →
        (submitHandler JSON.parse (fun _ => FetchResult.rejected typeError)
          (run JSON.parse (fun _ => true) (fun _ => FetchResult.rejected typeError) none
            [Op.submit ⟨some "Ada", some "ada@x.com", some "research", some "1 year", some "on"⟩,
             Op.reject 0]) form).store =
          run JSON.parse (fun _ => true) (fun _ => FetchResult.rejected typeError) none
            [Op.submit ⟨some "Ada", some "ada@x.com", some "research", some "1 year", some "on"⟩,
             Op.reject 0]) ∧
      (∀ form, form.accept = some "on" →
        ∃ record, loadRequests JSON.parse
            (submitHandler JSON.parse (fun _ => FetchResult.rejected typeError)
              (run JSON.parse (fun _ => true) (fun _ => FetchResult.rejected typeError) none
                [Op.submit
                  ⟨some "Ada", some "ada@x.com", some "research", some "1 year", some "on"⟩,
                 Op.reject 0]) form).store =
            Json.arr (requests ++ [record]) ∧
          statusOf record = some (Json.str "pending")) :=
  status_changes_only_by_admin (fun _ => true) (fun _ => FetchResult.rejected typeError) _
    ⟨[Op.submit ⟨some "Ada", some "ada@x.com", some "research", some "1 year", some "on"⟩,
      Op.reject 0], rfl⟩
/-! ## Extraction of the generated text -/

/-- C2, refuted as stated: the provider response `null` parses, none of the
expected nested fields is present in it, and each of the three handlers (with
its credential present) answers status 500 with an error body instead of
status 200 with an empty result. -/
theorem null_response_gives_error :
    JSON.parse "null" = .ok Json.null ∧
    claudePath Json.null = none ∧ chatgptPath Json.null = none ∧
    geminiContent Json.null = none ∧
    (generate_license_claude.handler JSON.parse ⟨some "k", some "k", some "k"⟩
      (fun _ => FetchResult.response "null") ⟨none⟩).1 = errorResponse typeError ∧
    (generate_license_chatgpt.handler JSON.parse ⟨some "k", some "k", some "k"⟩
      (fun _ => FetchResult.response "null") ⟨none⟩).1 = errorResponse typeError ∧
    (generate_license_gemini.handler JSON.parse ⟨some "k", some "k", some "k"⟩
      (fun _ => FetchResult.response "null") ⟨none⟩).1 = errorResponse typeError ∧
    (errorResponse typeError).statusCode = 500 := by
  refine ⟨by rfl, by rfl, by rfl, by rfl, by rfl, by rfl, by rfl, by rfl⟩

/-- C2, amended, for every `JSON.parse` and every provider response that it
parses to a value `data` (credential present, request body accepted).  When
`data` is `null`, each handler makes one outbound call and answers status 500.
When `data` is not `null`:
the OpenAI and the Anthropic handler answer status 200 with body
`{result}` after one outbound call, where `result` is the empty string when
the value at `choices[0].message.content`, respectively at `content[0].text`,
is absent or falsy, and is exactly that value otherwise, in particular the
text there.  The Google handler makes one outbound call and answers
* status 200 with the empty string as `result` when `candidates[0].content` is
  absent or falsy, or its `parts` is absent or falsy;
* when `parts` is a list without a `null` entry: status 200 with `result` the
  join, in order and with an empty separator, of the `text` of every entry
  (the empty string for an absent or falsy `text`), and status 500 if one of
  these cannot be converted to a string; when every `text` is a string, absent
  or falsy, `result` is the concatenation of the texts;
* status 500 when `parts` is a list with a `null` entry, or is truthy and not
  a list. -/
theorem extraction_contract (parse : JsonParse) (env : Env) (fetch : Outbound → FetchResult)
    (event : Event) (prompt data : Json)
    (hp : parsePrompt parse event = .ok prompt)
    (hf : ∀ call, ∃ text, fetch call = .response text ∧ parse text = .ok data) :
    (data = Json.null →
      (∀ key, env.ANTHROPIC_API_KEY = some key → key ≠ "" →
        (generate_license_claude.handler parse env fetch event).1.statusCode = 500 ∧
        (generate_license_claude.handler parse env fetch event).2 =
          [generate_license_claude.mkCall key prompt]) ∧
      (∀ key, env.OPENAI_API_KEY = some key → key ≠ "" →
        (generate_license_chatgpt.handler parse env fetch event).1.statusCode = 500 ∧
        (generate_license_chatgpt.handler parse env fetch event).2 =
          [generate_license_chatgpt.mkCall key prompt]) ∧
      (∀ key, env.GOOGLE_API_KEY = some key → key ≠ "" →
        (generate_license_gemini.handler parse env fetch event).1.statusCode = 500 ∧
        (generate_license_gemini.handler parse env fetch event).2 =
          [generate_license_gemini.mkCall key prompt])) ∧
    (data ≠ Json.null →
    (∀ key, env.ANTHROPIC_API_KEY = some key → key ≠ "" →
      generate_license_claude.handler parse env fetch event =
        (⟨200, [("content-type", "application/json")],
          JSON.stringify (Json.obj [("result", orEmpty (claudePath data))])⟩,
         [generate_license_claude.mkCall key prompt])) ∧
    (∀ key, env.OPENAI_API_KEY = some key → key ≠ "" →
      generate_license_chatgpt.handler parse env fetch event =
        (⟨200, [("content-type", "application/json")],
          JSON.stringify (Json.obj [("result", orEmpty (chatgptPath data))])⟩,
         [generate_license_chatgpt.mkCall key prompt])) ∧
    (∀ key, env.GOOGLE_API_KEY = some key → key ≠ "" →
      (truthy (geminiContent data) = false →
        generate_license_gemini.handler parse env fetch event =
          (⟨200, [("content-type", "application/json")],
            JSON.stringify (Json.obj [("result", Json.str "")])⟩,
           [generate_license_gemini.mkCall key prompt])) ∧
      (∀ content, geminiContent data = some content → content.truthy = true →
        (truthy (ownField content "parts") = false →
          generate_license_gemini.handler parse env fetch event =
            (⟨200, [("content-type", "application/json")],
              JSON.stringify (Json.obj [("result", Json.str "")])⟩,
             [generate_license_gemini.mkCall key prompt])) ∧
        (∀ parts, ownField content "parts" = some (Json.arr parts) →
          (∀ p ∈ parts, p ≠ Json.null) →
          generate_license_gemini.handler parse env fetch event =
            match joinWith "" (parts.map partText) with
            | .ok s =>
              (⟨200, [("content-type", "application/json")],
                JSON.stringify (Json.obj [("result", Json.str s)])⟩,
               [generate_license_gemini.mkCall key prompt])
            | .error e => (errorResponse e, [generate_license_gemini.mkCall key prompt])) ∧
        (∀ parts texts, ownField content "parts" = some (Json.arr parts) →
          partStrings parts = some texts →
          generate_license_gemini.handler parse env fetch event =
            (⟨200, [("content-type", "application/json")],
              JSON.stringify (Json.obj [("result", Json.str (concatAll texts))])⟩,
             [generate_license_gemini.mkCall key prompt])) ∧
        (∀ parts, ownField content "parts" = some (Json.arr parts) → Json.null ∈ parts →
          (generate_license_gemini.handler parse env fetch event).1.statusCode = 500 ∧
          (generate_license_gemini.handler parse env fetch event).2 =
            [generate_license_gemini.mkCall key prompt]) ∧
        (∀ p, ownField content "parts" = some p → p.truthy = true →
          (∀ parts, p ≠ Json.arr parts) →
          (generate_license_gemini.handler parse env fetch event).1.statusCode = 500 ∧
          (generate_license_gemini.handler parse env fetch event).2 =
            [generate_license_gemini.mkCall key prompt])))) ∧
    orEmpty none = Json.str "" ∧
    (∀ v, v.truthy = false → orEmpty (some v) = Json.str "") ∧
    (∀ v, v.truthy = true → orEmpty (some v) = v) ∧
    (∀ e, (errorResponse e).statusCode = 500) := by
  refine ⟨?_, fun hd => ⟨?_, ?_, ?_⟩, rfl, ?_, ?_, fun _ => rfl⟩
  · intro hnull
    subst hnull
    refine ⟨?_, ?_, ?_⟩
    · intro key hk hne
      obtain ⟨text, h1, h2⟩ := hf (generate_license_claude.mkCall key prompt)
      rw [claude_handler_eq, hk,
        runHandler_extract_error parse key _ _ _ fetch event prompt Json.null text typeError
          hp hne h1 h2 rfl]
      exact ⟨rfl, rfl⟩
    · intro key hk hne
      obtain ⟨text, h1, h2⟩ := hf (generate_license_chatgpt.mkCall key prompt)
      rw [chatgpt_handler_eq, hk,
        runHandler_extract_error parse key _ _ _ fetch event prompt Json.null text typeError
          hp hne h1 h2 rfl]
      exact ⟨rfl, rfl⟩
    · intro key hk hne
      obtain ⟨text, h1, h2⟩ := hf (generate_license_gemini.mkCall key prompt)
      rw [gemini_handler_eq, hk,
        runHandler_extract_error parse key _ _ _ fetch event prompt Json.null text typeError
          hp hne h1 h2 rfl]
      exact ⟨rfl, rfl⟩
  · intro key hk hne
    obtain ⟨text, h1, h2⟩ := hf (generate_license_claude.mkCall key prompt)
    rw [claude_handler_eq, hk]
    exact runHandler_ok parse key _ _ _ fetch event prompt data _ text hp hne h1 h2
      (claude_extract data hd)
  · intro key hk hne
    obtain ⟨text, h1, h2⟩ := hf (generate_license_chatgpt.mkCall key prompt)
    rw [chatgpt_handler_eq, hk]
    exact runHandler_ok parse key _ _ _ fetch event prompt data _ text hp hne h1 h2
      (chatgpt_extract data hd)
  · intro key hk hne
    obtain ⟨text, h1, h2⟩ := hf (generate_license_gemini.mkCall key prompt)
    have hg := gemini_extract_guard data hd
    refine ⟨?_, ?_⟩
    · intro hfalse
      rw [gemini_handler_eq, hk]
      exact runHandler_ok parse key _ _ _ fetch event prompt data _ text hp hne h1 h2
        (by rw [hg]; simp [hfalse])
    · intro content hc hct
      have hg2 : generate_license_gemini.extract data =
          generate_license_gemini.joinParts (some content) := by
        rw [hg, hc]; simp [truthy, hct]
      refine ⟨?_, ?_, ?_, ?_, ?_⟩
      · intro hparts
        rw [gemini_handler_eq, hk]
        exact runHandler_ok parse key _ _ _ fetch event prompt data _ text hp hne h1 h2
          (by rw [hg2, joinParts_no_parts content hct hparts])
      · intro parts hparts hnn
        have hj := joinParts_list content parts hct hparts hnn
        rw [gemini_handler_eq, hk]
        cases hjoin : joinWith "" (parts.map partText) with
        | ok s =>
          rw [hjoin] at hj
          exact runHandler_ok parse key _ _ _ fetch event prompt data _ text hp hne h1 h2
            (by rw [hg2, hj])
        | error e =>
          rw [hjoin] at hj
          exact runHandler_extract_error parse key _ _ _ fetch event prompt data text e hp hne
            h1 h2 (by rw [hg2, hj])
      · intro parts texts hparts htexts
        rw [gemini_handler_eq, hk]
        exact runHandler_ok parse key _ _ _ fetch event prompt data _ text hp hne h1 h2
          (by rw [hg2, joinParts_strings content parts texts hct hparts htexts])
      · intro parts hparts hnull
        rw [gemini_handler_eq, hk,
          runHandler_extract_error parse key _ _ _ fetch event prompt data text typeError hp hne
            h1 h2 (by rw [hg2, joinParts_null_part content parts hct hparts hnull])]
        exact ⟨rfl, rfl⟩
      · intro p hparts hpt hnl
        rw [gemini_handler_eq, hk,
          runHandler_extract_error parse key _ _ _ fetch event prompt data text typeError hp hne
            h1 h2 (by rw [hg2, joinParts_not_list content p hct hparts hpt hnl])]
        exact ⟨rfl, rfl⟩
  · intro v hv
    simp [orEmpty, hv]
  · intro v hv
    simp [orEmpty, hv]

/-- C2, amended, at a concrete input with the reference reader: a Google
response with three parts, the second without text. -/
theorem extraction_contract_witness :
    generate_license_gemini.handler JSON.parse ⟨some "k", some "k", some "k"⟩
        (fun _ => FetchResult.response
          "\x7b\"candidates\":[\x7b\"content\":\x7b\"parts\":[\x7b\"text\":\"a\"\x7d,\x7b\x7d,\x7b\"text\":\"b\"\x7d]\x7d\x7d]\x7d")
        ⟨none⟩ =
      (⟨200, [("content-type", "application/json")],
        JSON.stringify (Json.obj [("result", Json.str (concatAll ["a", "", "b"]))])⟩,
       [generate_license_gemini.mkCall "k" (Json.str "")]) :=
  ((extraction_contract JSON.parse ⟨some "k", some "k", some "k"⟩
    (fun _ => FetchResult.response
      "\x7b\"candidates\":[\x7b\"content\":\x7b\"parts\":[\x7b\"text\":\"a\"\x7d,\x7b\x7d,\x7b\"text\":\"b\"\x7d]\x7d\x7d]\x7d")
    ⟨none⟩ (Json.str "")
    (Json.obj [("candidates", Json.arr [Json.obj [("content", Json.obj [("parts",
      Json.arr [Json.obj [("text", Json.str "a")], Json.obj [],
        Json.obj [("text", Json.str "b")]])])]])])
    (by rfl) (fun _ => ⟨_, rfl, by rfl⟩)).2.1 (by intro h; cases h)
    |>.2.2 "k" rfl (by decide) |>.2 _ (by rfl) (by rfl)).2.2.1 _ ["a", "", "b"] (by rfl) (by rfl)
/-! ## Request bodies -/

/-- C3, refuted as stated: a body that is not valid JSON, and the body `null`,
make each handler (credential present) answer status 500 with an error body
and issue no outbound call; a body whose `prompt` is the number 5 makes the
prompt that number and not the empty string. -/
theorem malformed_body_gives_error :
    JSON.parse "oops" = .error parseError ∧
    generate_license_claude.handler JSON.parse ⟨some "k", some "k", some "k"⟩
      (fun _ => FetchResult.response "null") ⟨some "oops"⟩ = (errorResponse parseError, []) ∧
    generate_license_chatgpt.handler JSON.parse ⟨some "k", some "k", some "k"⟩
      (fun _ => FetchResult.response "null") ⟨some "oops"⟩ = (errorResponse parseError, []) ∧
    generate_license_gemini.handler JSON.parse ⟨some "k", some "k", some "k"⟩
      (fun _ => FetchResult.response "null") ⟨some "oops"⟩ = (errorResponse parseError, []) ∧
    (errorResponse parseError).statusCode = 500 ∧
    generate_license_claude.handler JSON.parse ⟨some "k", some "k", some "k"⟩
      (fun _ => FetchResult.response "null") ⟨some "null"⟩ = (errorResponse typeError, []) ∧
    parsePrompt JSON.parse ⟨some "\x7b\"prompt\":5\x7d"⟩ = .ok (Json.num 5) := by
  refine ⟨by rfl, by rfl, by rfl, by rfl, by rfl, by rfl, by rfl⟩

/-- C3, amended, for every `JSON.parse` that reads the text of the empty
object as the empty object.  For every request event whose body is absent or
empty, or is valid JSON other than `null` without a `prompt` property, each
handler treats the prompt as the empty string and goes on: it behaves as for
an absent body and, with its credential present, issues its outbound call with
the empty prompt.  A `prompt` property that is present is taken as it is,
whatever its type.  For every body that is not valid JSON, and for the body
`null`, each handler answers status 500 with an error body and issues no
outbound call. -/
theorem prompt_default_contract (parse : JsonParse) (env : Env)
    (fetch : Outbound → FetchResult) (event : Event)
    (hobj : parse "\x7b\x7d" = .ok (Json.obj [])) :
    ((event.body = none ∨ event.body = some "" ∨
        ∃ t v, event.body = some t ∧ parse t = .ok v ∧ v ≠ Json.null ∧
          ownField v "prompt" = none) →
      parsePrompt parse event = .ok (Json.str "") ∧
      generate_license_claude.handler parse env fetch event =
        generate_license_claude.handler parse env fetch ⟨none⟩ ∧
      generate_license_chatgpt.handler parse env fetch event =
        generate_license_chatgpt.handler parse env fetch ⟨none⟩ ∧
      generate_license_gemini.handler parse env fetch event =
        generate_license_gemini.handler parse env fetch ⟨none⟩ ∧
      (∀ key, env.ANTHROPIC_API_KEY = some key → key ≠ "" →
        (generate_license_claude.handler parse env fetch event).2 =
          [generate_license_claude.mkCall key (Json.str "")]) ∧
      (∀ key, env.OPENAI_API_KEY = some key → key ≠ "" →
        (generate_license_chatgpt.handler parse env fetch event).2 =
          [generate_license_chatgpt.mkCall key (Json.str "")]) ∧
      (∀ key, env.GOOGLE_API_KEY = some key → key ≠ "" →
        (generate_license_gemini.handler parse env fetch event).2 =
          [generate_license_gemini.mkCall key (Json.str "")])) ∧
    (∀ t v p, event.body = some t → t ≠ "" → parse t = .ok v →
      ownField v "prompt" = some p → parsePrompt parse event = .ok p) ∧
    (∀ t e, event.body = some t → t ≠ "" → parse t = .error e →
      generate_license_claude.handler parse env fetch event = (errorResponse e, []) ∧
      generate_license_chatgpt.handler parse env fetch event = (errorResponse e, []) ∧
      generate_license_gemini.handler parse env fetch event = (errorResponse e, []) ∧
      (errorResponse e).statusCode = 500) ∧
    (∀ t, event.body = some t → t ≠ "" → parse t = .ok Json.null →
      ((generate_license_claude.handler parse env fetch event).1.statusCode = 500 ∧
        (generate_license_claude.handler parse env fetch event).2 = []) ∧
      ((generate_license_chatgpt.handler parse env fetch event).1.statusCode = 500 ∧
        (generate_license_chatgpt.handler parse env fetch event).2 = []) ∧
      ((generate_license_gemini.handler parse env fetch event).1.statusCode = 500 ∧
        (generate_license_gemini.handler parse env fetch event).2 = [])) := by
  obtain ⟨body⟩ := event
  refine ⟨?_, ?_, ?_, ?_⟩
  · intro h
    have hp : parsePrompt parse ⟨body⟩ = .ok (Json.str "") := by
      rcases h with h | h | ⟨t, v, h, hv, hn, ho⟩
      · simp only at h; subst h; exact parsePrompt_absent parse hobj
      · simp only at h; subst h; exact parsePrompt_empty parse hobj
      · simp only at h; subst h
        by_cases ht : t = ""
        · subst ht; exact parsePrompt_empty parse hobj
        · rw [parsePrompt_of_value parse t v ht hv hn, ho]
          rfl
    have hrun : ∀ (apiKey : Option String) (missing : String)
        (mkCall : String → Json → Outbound) (extract : Json → Except JsError Json),
        runHandler parse apiKey missing mkCall extract fetch ⟨body⟩ =
          runHandler parse apiKey missing mkCall extract fetch ⟨none⟩ := by
      intro apiKey missing mkCall extract
      simp only [runHandler, hp, parsePrompt_absent parse hobj]
    refine ⟨hp, ?_, ?_, ?_, ?_, ?_, ?_⟩
    · rw [claude_handler_eq, claude_handler_eq]; exact hrun _ _ _ _
    · rw [chatgpt_handler_eq, chatgpt_handler_eq]; exact hrun _ _ _ _
    · rw [gemini_handler_eq, gemini_handler_eq]; exact hrun _ _ _ _
    · intro key hk hne
      rw [claude_handler_eq, hk]
      exact runHandler_calls parse key _ _ _ fetch _ _ hp hne
    · intro key hk hne
      rw [chatgpt_handler_eq, hk]
      exact runHandler_calls parse key _ _ _ fetch _ _ hp hne
    · intro key hk hne
      rw [gemini_handler_eq, hk]
      exact runHandler_calls parse key _ _ _ fetch _ _ hp hne
  · intro t v p hb ht hv ho
    simp only at hb
    subst hb
    have hn : v ≠ Json.null := by
      intro e; subst e; simp [ownField] at ho
    rw [parsePrompt_of_value parse t v ht hv hn, ho]
    rfl
  · intro t e hb ht he
    simp only at hb
    subst hb
    have hp := parsePrompt_of_error parse t e ht he
    refine ⟨?_, ?_, ?_, rfl⟩
    · rw [claude_handler_eq]; exact runHandler_parse_error parse _ _ _ _ fetch _ e hp
    · rw [chatgpt_handler_eq]; exact runHandler_parse_error parse _ _ _ _ fetch _ e hp
    · rw [gemini_handler_eq]; exact runHandler_parse_error parse _ _ _ _ fetch _ e hp
  · intro t hb ht hv
    simp only at hb
    subst hb
    have hp := parsePrompt_of_null parse t ht hv
    refine ⟨?_, ?_, ?_⟩
    · rw [claude_handler_eq, runHandler_parse_error parse _ _ _ _ fetch _ _ hp]
      exact ⟨rfl, rfl⟩
    · rw [chatgpt_handler_eq, runHandler_parse_error parse _ _ _ _ fetch _ _ hp]
      exact ⟨rfl, rfl⟩
    · rw [gemini_handler_eq, runHandler_parse_error parse _ _ _ _ fetch _ _ hp]
      exact ⟨rfl, rfl⟩

/-- C3, amended, at a concrete input with the reference reader: a body that is
a JSON object without a prompt. -/
theorem prompt_default_contract_witness :
    parsePrompt JSON.parse ⟨some "\x7b\"other\":1\x7d"⟩ = .ok (Json.str "") ∧
    (generate_license_claude.handler JSON.parse ⟨some "k", none, none⟩
        (fun _ => FetchResult.response "null") ⟨some "\x7b\"other\":1\x7d"⟩).2 =
      [generate_license_claude.mkCall "k" (Json.str "")] :=
  ⟨((prompt_default_contract JSON.parse ⟨some "k", none, none⟩
      (fun _ => FetchResult.response "null") ⟨some "\x7b\"other\":1\x7d"⟩ (by rfl)).1
      (Or.inr (Or.inr ⟨_, Json.obj [("other", Json.num 1)], rfl, by rfl,
        (by intro h; cases h), by rfl⟩))).1,
   ((prompt_default_contract JSON.parse ⟨some "k", none, none⟩
      (fun _ => FetchResult.response "null") ⟨some "\x7b\"other\":1\x7d"⟩ (by rfl)).1
      (Or.inr (Or.inr ⟨_, Json.obj [("other", Json.num 1)], rfl, by rfl,
        (by intro h; cases h), by rfl⟩))).2.2.2.2.1 "k" rfl (by decide)⟩

/-! ## The fallback to the static template -/

/-- The fallback on a store that holds a list: for every accepted form
submission, when the credential of the provider `claude` is not configured,
the gateway answers the page's request with status 500 and the
missing-credential error and issues no outbound call, `generateLicenseAI`
returns `null` after its one call to the gateway, and the text shown is exactly
`generateLicenseTextStatic(request)`.  This holds for every `JSON.parse` that
reads back the request body and the error body. -/
theorem fallback_on_list_store (parse : JsonParse) (env : Env)
    (upstream : Outbound → FetchResult)
    (store : Store) (items : List Json) (form : FormData)
    (hacc : (requestOf form).accepted = true)
    (hkey : env.ANTHROPIC_API_KEY = none ∨ env.ANTHROPIC_API_KEY = some "")
    (hstore : loadRequests parse store = Json.arr items)
    (hbody : parse (JSON.stringify (Json.obj [("prompt", Json.str (buildPrompt (requestOf form)))]))
      = .ok (Json.obj [("prompt", Json.str (buildPrompt (requestOf form)))]))
    (herr : parse (JSON.stringify
        (Json.obj [("error", Json.str "Missing ANTHROPIC_API_KEY environment variable.")])) =
      .ok (Json.obj [("error", Json.str "Missing ANTHROPIC_API_KEY environment variable.")])) :
    generate_license_claude.handler parse env upstream
        ⟨some (JSON.stringify (Json.obj [("prompt", Json.str (buildPrompt (requestOf form)))]))⟩ =
      (⟨500, [], JSON.stringify
          (Json.obj [("error", Json.str "Missing ANTHROPIC_API_KEY environment variable.")])⟩,
        []) ∧
    generateLicenseAI parse (siteFetch parse env upstream) (requestOf form) "claude" =
      (none, [⟨EndpointValue.path "/.netlify/functions/generate_license_claude",
        JSON.stringify (Json.obj [("prompt", Json.str (buildPrompt (requestOf form)))])⟩]) ∧
    (submitHandler parse (siteFetch parse env upstream) store form).result =
      SubmitResult.shown (Json.str (generateLicenseTextStatic (requestOf form))) := by
  have hpp : parsePrompt parse
      ⟨some (JSON.stringify (Json.obj [("prompt", Json.str (buildPrompt (requestOf form)))]))⟩ =
      .ok (Json.str (buildPrompt (requestOf form))) := by
    rw [parsePrompt_of_value parse _ _ (stringify_obj_ne_empty _ _) hbody (by intro h; cases h)]
    simp [ownField, lookupProp]
  have hgw : generate_license_claude.handler parse env upstream
        ⟨some (JSON.stringify (Json.obj [("prompt", Json.str (buildPrompt (requestOf form)))]))⟩ =
      (missingKeyResponse "Missing ANTHROPIC_API_KEY environment variable.", []) := by
    rw [claude_handler_eq]
    exact runHandler_missing parse _ _ _ _ upstream _ _ hpp hkey
  have hai : generateLicenseAI parse (siteFetch parse env upstream) (requestOf form) "claude" =
      (none, [⟨EndpointValue.path "/.netlify/functions/generate_license_claude",
        JSON.stringify (Json.obj [("prompt", Json.str (buildPrompt (requestOf form)))])⟩]) :=
    generateLicenseAI_no_result parse (siteFetch parse env upstream) (requestOf form) "claude" _
      (JSON.stringify
        (Json.obj [("error", Json.str "Missing ANTHROPIC_API_KEY environment variable.")]))
      (Json.obj [("error", Json.str "Missing ANTHROPIC_API_KEY environment variable.")])
      (by decide)
      (by rw [siteFetch_claude, hgw]; rfl)
      herr
      (by intro h; cases h)
      (by rfl)
  exact ⟨hgw, hai, submitHandler_shown_static parse _ store items form _ hacc hstore hai⟩

/-- C4, at the failing input: the store holds the text of an empty object, no
credential is configured, and Ada submits an accepted form.  `loadRequests`
returns the object, the submit handler stops with an uncaught error at
`requests.push` before `generateLicenseAI` is called, so the gateway receives
no request, nothing is saved and no licence text is shown.  The same
submission to the empty store ends with the static text shown, which contains
`Issued to: Ada <ada@x.com>` and `Duration: 1 year`. -/
theorem fallback_fails_on_object_store :
    loadRequests JSON.parse (some "\x7b\x7d") = Json.obj [] ∧
    (submitHandler JSON.parse
        (siteFetch JSON.parse ⟨none, none, none⟩ (fun _ => FetchResult.response "null"))
        (some "\x7b\x7d")
        ⟨some "Ada", some "ada@x.com", some "research", some "1 year", some "on"⟩).result =
      SubmitResult.failed typeError ∧
    (submitHandler JSON.parse
        (siteFetch JSON.parse ⟨none, none, none⟩ (fun _ => FetchResult.response "null"))
        (some "\x7b\x7d")
        ⟨some "Ada", some "ada@x.com", some "research", some "1 year", some "on"⟩).calls = [] ∧
    (submitHandler JSON.parse
        (siteFetch JSON.parse ⟨none, none, none⟩ (fun _ => FetchResult.response "null"))
        (some "\x7b\x7d")
        ⟨some "Ada", some "ada@x.com", some "research", some "1 year", some "on"⟩).store =
      some "\x7b\x7d" ∧
    (submitHandler JSON.parse
        (siteFetch JSON.parse ⟨none, none, none⟩ (fun _ => FetchResult.response "null"))
        none
        ⟨some "Ada", some "ada@x.com", some "research", some "1 year", some "on"⟩).result =
      SubmitResult.shown (Json.str
        (generateLicenseTextStatic ⟨"Ada", "ada@x.com", "research", "1 year", true⟩)) ∧
    Contains (generateLicenseTextStatic ⟨"Ada", "ada@x.com", "research", "1 year", true⟩)
      "Issued to: Ada <ada@x.com>" ∧
    Contains (generateLicenseTextStatic ⟨"Ada", "ada@x.com", "research", "1 year", true⟩)
      "Duration: 1 year" := by
  have e1 : "Issued to: Ada <ada@x.com>" = "Issued to: " ++ "Ada" ++ " <" ++ "ada@x.com" ++ ">" := by
    decide
  have e2 : "Duration: 1 year" = "Duration: " ++ "1 year" := by decide
  have hreq : requestOf ⟨some "Ada", some "ada@x.com", some "research", some "1 year", some "on"⟩
      = ⟨"Ada", "ada@x.com", "research", "1 year", true⟩ := by decide
  refine ⟨by rfl, by rfl, by rfl, by decide, ?_, ?_, ?_⟩
  · have h := (fallback_on_list_store JSON.parse ⟨none, none, none⟩
      (fun _ => FetchResult.response "null") none []
      ⟨some "Ada", some "ada@x.com", some "research", some "1 year", some "on"⟩
      (by decide) (Or.inl rfl) (by rfl)
      (parse_stringify _ (wf_single _ _ (wf_str _) (by decide)))
      (parse_stringify _ (wf_single _ _ (wf_str _) (by decide)))).2.2
    rw [hreq] at h
    exact h
  · rw [e1]
    exact static_contains_issued ⟨"Ada", "ada@x.com", "research", "1 year", true⟩
  · rw [e2]
    exact static_contains_duration ⟨"Ada", "ada@x.com", "research", "1 year", true⟩

/-! ## Provider keys -/

/-- C10, at the failing inputs: for the provider keys `toString`,
`constructor` and `__proto__`, which are none of `claude`, `gemini` and
`chatgpt`, the lookup in `endpoints` finds a value inherited from
`Object.prototype`, the guard `if (!url) return null` does not fire, and
`generateLicenseAI` issues one network call, whatever the request. -/
theorem inherited_provider_key_issues_call (parse : JsonParse) (fetch : ClientCall → FetchResult)
    (data : LicenseRequest) :
    (generateLicenseAI parse fetch data "toString").2 =
      [⟨EndpointValue.inherited "toString",
        JSON.stringify (Json.obj [("prompt", Json.str (buildPrompt data))])⟩] ∧
    (generateLicenseAI parse fetch data "constructor").2 =
      [⟨EndpointValue.inherited "constructor",
        JSON.stringify (Json.obj [("prompt", Json.str (buildPrompt data))])⟩] ∧
    (generateLicenseAI parse fetch data "__proto__").2 =
      [⟨EndpointValue.inherited "__proto__",
        JSON.stringify (Json.obj [("prompt", Json.str (buildPrompt data))])⟩] :=
  ⟨generateLicenseAI_calls parse fetch data _ _ (by decide),
   generateLicenseAI_calls parse fetch data _ _ (by decide),
   generateLicenseAI_calls parse fetch data _ _ (by decide)⟩

/-- A provider key that is none of the three providers and no property name of
`Object.prototype` gives `null` without any network call. -/
theorem unknown_provider_key_no_call (parse : JsonParse) (fetch : ClientCall → FetchResult)
    (data : LicenseRequest)
    (provider : String) (h1 : provider ≠ "claude") (h2 : provider ≠ "gemini")
    (h3 : provider ≠ "chatgpt") (h4 : provider ∉ objectPrototypeNames) :
    generateLicenseAI parse fetch data provider = (none, []) := by
  apply generateLicenseAI_unknown
  simp [endpoints, h1, h2, h3, h4]

end Portal
